import Mathlib

/-!
# Deployment orchestrator: configuration resolution, health verification, history

A shallow embedding of the Go packages `internal/config`, `internal/health`,
`internal/rollback` and `internal/deployer` of the deployment orchestrator,
followed by the theorems that relate the code to its written specification.

Conventions of the embedding:

* a Go `interface{}` holding a decoded YAML document is a `Value`;
* a Go `map[string]interface{}` is an association list (`GoMap`) whose keys are
  pairwise distinct (`GoMap.WF`); `m[k]` is `GoMap.get`, `m[k] = v` is
  `GoMap.set`, and `for k, v := range m` walks the list;
* a type assertion `x.(T)` with the comma-ok form is an `Option`-valued
  projection (`asMap`, `asStr`, `asInt`, `asSeq`);
* a Go function returning `(T, error)` returns `Except`.
-/

namespace Orchestrator

/-! ## Dynamically typed values -/

/-- A Go `interface{}` value as the YAML decoder produces it. -/
inductive Value where
  | null
  | bool (b : Bool)
  | int (i : Int)
  | float (bits : Nat)
  | str (s : String)
  | seq (xs : List Value)
  | map (kvs : List (String × Value))
  deriving Repr

/-- A Go `map[string]interface{}`. -/
abbrev GoMap := List (String × Value)

namespace GoMap

/-- The index expression `m[k]`; `none` stands for the nil interface of an absent key. -/
def get (m : GoMap) (k : String) : Option Value :=
  match m with
  | [] => none
  | (k', v) :: rest => if k' = k then some v else get rest k

/-- The assignment `m[k] = v`. -/
def set (m : GoMap) (k : String) (v : Value) : GoMap :=
  match m with
  | [] => [(k, v)]
  | (k', v') :: rest => if k' = k then (k, v) :: rest else (k', v') :: set rest k v

/-- The keys of a map, in list order. -/
def keys (m : GoMap) : List String := m.map Prod.fst

/-- Representation invariant of a Go map: no key occurs twice. -/
def WF (m : GoMap) : Prop := (keys m).Nodup

instance (m : GoMap) : Decidable (WF m) := by
  unfold WF; infer_instance

end GoMap

/-- The assertion `x.(map[string]interface{})` on the result of an index expression. -/
def asMap : Option Value → Option GoMap
  | some (.map kvs) => some kvs
  | _ => none

/-- The assertion `x.(string)`. -/
def asStr : Option Value → Option String
  | some (.str s) => some s
  | _ => none

/-- The assertion `x.(int)`. -/
def asInt : Option Value → Option Int
  | some (.int i) => some i
  | _ => none

/-- The assertion `x.([]interface{})`. -/
def asSeq : Option Value → Option (List Value)
  | some (.seq xs) => some xs
  | _ => none

/-- The assertion `x.(bool)`. -/
def asBool : Option Value → Option Bool
  | some (.bool b) => some b
  | _ => none

/-! ## `internal/config` -/

/-- The error type `config.ConfigError`. -/
structure ConfigError where
  Message : String
  deriving DecidableEq, Repr

/-- The error of `GetEnvironmentConfig` when there is no `environments` mapping. -/
def errNoEnvironments : ConfigError :=
  ⟨"No environments found in deployment config"⟩

/-- The error of `GetEnvironmentConfig` when the named environment is not resolved. -/
def errEnvironmentNotFound (envName : String) : ConfigError :=
  ⟨"Environment '" ++ envName ++ "' not found in deployment config"⟩

/-- First loop of `GetEnvironmentConfig`: copy every key except `environments`. -/
def copyBase (deploymentConfig : GoMap) (result : GoMap) : GoMap :=
  deploymentConfig.foldl
    (fun r kv => if kv.1 ≠ "environments" then GoMap.set r kv.1 kv.2 else r) result

/-- Second loop of `GetEnvironmentConfig`: write every key of the environment mapping. -/
def overlay (envConfig : GoMap) (result : GoMap) : GoMap :=
  envConfig.foldl (fun r kv => GoMap.set r kv.1 kv.2) result

/-- The method `Config.GetEnvironmentConfig`. -/
def GetEnvironmentConfig (envName : String) (deploymentConfig : GoMap) :
    Except ConfigError GoMap :=
  match asMap (GoMap.get deploymentConfig "environments") with
  | none => .error errNoEnvironments
  | some environments =>
    match asMap (GoMap.get environments envName) with
    | none => .error (errEnvironmentNotFound envName)
    | some envConfig =>
      let result : GoMap := []
      let result := copyBase deploymentConfig result
      let result := overlay envConfig result
      .ok result

/-- The merge as the specification words it: the base without `environments`,
overwritten key by key with the environment mapping. -/
def mergeSpec (base envMap : GoMap) (k : String) : Option Value :=
  match GoMap.get envMap k with
  | some v => some v
  | none => if k = "environments" then none else GoMap.get base k

/-! ## `internal/health` -/

/-- Reduction of an integer to the range of Go's `int64` (two's complement). -/
def wrapInt64 (x : Int) : Int :=
  (x + 9223372036854775808) % 18446744073709551616 - 9223372036854775808

/-- The constant `time.Second`: a `time.Duration` counts nanoseconds. -/
def Second : Int := 1000000000

/-- The conversion `time.Duration(t) * time.Second`, an `int64` multiplication. -/
def secondsToDuration (t : Int) : Int := wrapInt64 (t * Second)

/-- The struct `health.HealthChecker`; durations are in nanoseconds. -/
structure HealthChecker where
  Endpoint : String
  Timeout : Int
  Interval : Int
  Retries : Int
  ExpectedStatus : Int
  deriving DecidableEq, Repr

/-- The constructor `health.NewHealthChecker`. -/
def NewHealthChecker (endpoint : String) (timeout interval : Int)
    (retries expectedStatus : Int) : HealthChecker :=
  { Endpoint := endpoint, Timeout := timeout, Interval := interval,
    Retries := retries, ExpectedStatus := expectedStatus }

/-- The outcome of one `client.Get(h.Endpoint)`: a transport error (`err != nil`,
which covers timeouts) or a response with its status code. -/
inductive ProbeResult where
  | transportError
  | status (code : Int)
  deriving DecidableEq, Repr

/-- What `Check` does to the outside world, in order. -/
inductive Event where
  | probe (attempt : Nat)
  | sleep (d : Int)
  deriving DecidableEq, Repr

/-- The statement `if attempt < h.Retries { time.Sleep(h.Interval) }`. -/
def sleepIfMore (h : HealthChecker) (attempt : Nat) (tr : List Event) : List Event :=
  if (attempt : Int) < h.Retries then tr ++ [Event.sleep h.Interval] else tr

/-- The body of the loop of `Check`, run for the attempt numbers of the list in
turn; `get` is the endpoint, answering the probe of each attempt. -/
def checkFrom (h : HealthChecker) (get : Nat → ProbeResult) :
    List Nat → List Event → Bool × List Event
  | [], tr => (false, tr)
  | attempt :: rest, tr =>
    match get attempt with
    | .transportError =>
      checkFrom h get rest (sleepIfMore h attempt (tr ++ [Event.probe attempt]))
    | .status code =>
      if code = h.ExpectedStatus then (true, tr ++ [Event.probe attempt])
      else checkFrom h get rest (sleepIfMore h attempt (tr ++ [Event.probe attempt]))

/-- The method `HealthChecker.Check`: the loop
`for attempt := 1; attempt <= h.Retries; attempt++` visits the attempts
`1, ..., h.Retries` (none when `h.Retries < 1`; the wrap-around of `attempt++`
at the largest `int` is not modelled). The result is the returned boolean and
the probes and sleeps performed, in order. -/
def Check (h : HealthChecker) (get : Nat → ProbeResult) : Bool × List Event :=
  checkFrom h get (List.range' 1 h.Retries.toNat) []

/-- The function `health.FromConfig`. -/
def FromConfig (config : GoMap) : Except String HealthChecker :=
  match asStr (GoMap.get config "endpoint") with
  | none => .error "endpoint not found in health check config"
  | some endpoint =>
    let timeout := match asInt (GoMap.get config "timeout") with
      | some t => secondsToDuration t
      | none => 30 * Second
    let interval := match asInt (GoMap.get config "interval") with
      | some i => secondsToDuration i
      | none => 5 * Second
    let retries := match asInt (GoMap.get config "retries") with
      | some r => r
      | none => 3
    let expectedStatus := match asInt (GoMap.get config "expected_status") with
      | some s => s
      | none => 200
    .ok (NewHealthChecker endpoint timeout interval retries expectedStatus)

/-- Number of probes in a trace. -/
def probeCount : List Event → Nat
  | [] => 0
  | Event.probe _ :: tr => probeCount tr + 1
  | Event.sleep _ :: tr => probeCount tr

/-- Number of sleeps in a trace. -/
def sleepCount : List Event → Nat
  | [] => 0
  | Event.probe _ :: tr => sleepCount tr
  | Event.sleep _ :: tr => sleepCount tr + 1

/-- What the server behind the endpoint does with the request of one attempt:
the outcome that a client sees when it waits for it, and the time in
nanoseconds after which that outcome comes. -/
structure Answer where
  result : ProbeResult
  after : Nat
  deriving DecidableEq, Repr

/-- The call `client.Get(h.Endpoint)` of the client `&http.Client{Timeout: timeout}`,
modelled from the library contract: a positive `Timeout` is a time limit for the
request, which ends in an error when the limit passes first; a `Timeout` that
is zero or negative sets no limit. The outcome and the time the call took. -/
def clientGet (timeout : Int) (answer : Answer) : ProbeResult × Int :=
  if 0 < timeout ∧ timeout < (answer.after : Int) then (.transportError, timeout)
  else (answer.result, (answer.after : Int))

/-- The outcomes of the probes of a checker against a server. -/
def probeOutcome (h : HealthChecker) (server : Nat → Answer) (attempt : Nat) : ProbeResult :=
  (clientGet h.Timeout (server attempt)).1

/-- The time that the probes of a checker take against a server. -/
def probeTime (h : HealthChecker) (server : Nat → Answer) (attempt : Nat) : Int :=
  (clientGet h.Timeout (server attempt)).2

/-- Time spent on a trace: each probe takes the time `took` of its request, and
each `time.Sleep(d)` lasts `d`, or returns at once when `d` is zero or
negative. -/
def elapsed (took : Nat → Int) : List Event → Int
  | [] => 0
  | Event.probe a :: tr => took a + elapsed took tr
  | Event.sleep d :: tr => max d 0 + elapsed took tr

/-- The trace of `n` consecutive failed attempts `a, a+1, ...`, each followed by
a sleep of `interval`. -/
def failedAttempts (interval : Int) : Nat → Nat → List Event
  | _, 0 => []
  | a, n + 1 => Event.probe a :: Event.sleep interval :: failedAttempts interval (a + 1) n

/-- An endpoint that fails at transport level twice and then answers 200. -/
def flakyEndpoint : Nat → ProbeResult
  | 1 => .transportError
  | 2 => .transportError
  | _ => .status 200

/-- An endpoint that always answers 503. -/
def downEndpoint : Nat → ProbeResult := fun _ => .status 503

/-- A checker with three retries, five seconds apart, thirty seconds timeout. -/
def sampleChecker : HealthChecker :=
  NewHealthChecker "http://localhost:8080/health" (30 * Second) (5 * Second) 3 200

/-- A server that answers 503 one second after each request. -/
def slowDownServer : Nat → Answer := fun _ => ⟨.status 503, 1000000000⟩

/-- A server that takes a minute for each answer. -/
def silentServer : Nat → Answer := fun _ => ⟨.status 200, 60000000000⟩

/-- A `health_check` section with `timeout: 0`. -/
def zeroTimeoutConfig : GoMap :=
  [("endpoint", .str "http://localhost:8080/health"), ("timeout", .int 0)]

/-- The checker that `FromConfig` makes of `zeroTimeoutConfig`: no time limit,
three retries five seconds apart. -/
def zeroTimeoutChecker : HealthChecker :=
  NewHealthChecker "http://localhost:8080/health" 0 (5 * Second) 3 200

/-- A `health_check` section with `interval: -5`. -/
def negativeIntervalConfig : GoMap :=
  [("endpoint", .str "http://localhost:8080/health"), ("interval", .int (-5))]

/-- The checker that `FromConfig` makes of `negativeIntervalConfig`. -/
def negativeIntervalChecker : HealthChecker :=
  NewHealthChecker "http://localhost:8080/health" (30 * Second) (-5 * Second) 3 200

/-- An endpoint that always answers 200. -/
def healthyEndpoint : Nat → ProbeResult := fun _ => .status 200

/-- A `health_check` section with some fields set and others left to default. -/
def sampleHealthConfig : GoMap :=
  [("endpoint", .str "http://localhost:8080/health"),
   ("timeout", .int 10),
   ("retries", .int 5),
   ("interval", .str "2s")]

/-- A `health_check` section that sets `retries` to zero. -/
def zeroRetriesConfig : GoMap :=
  [("endpoint", .str "http://localhost:8080/health"), ("retries", .int 0)]

/-! ## `internal/rollback` -/

/-- A Go `error` value as the orchestrator produces them: a `*config.ConfigError`,
a `*deployer.DeploymentError`, or an error made by `fmt.Errorf` or a library. -/
inductive GoError where
  | config (e : ConfigError)
  | deployment (Message : String)
  | other (msg : String)

/-- The struct `rollback.DeploymentRecord`. -/
structure DeploymentRecord where
  App : String
  Env : String
  Version : String
  Timestamp : String
  Status : String
  Config : GoMap

/-- What a file of the history directory holds, as `GetDeploymentHistory` sees it. -/
inductive StoredFile where
  | unreadable
  | malformed
  | record (r : DeploymentRecord)

/-- The history directory: file name to content, in the order in which
`filepath.Glob` lists the names. -/
abbrev HistoryDir := List (String × StoredFile)

/-- The call `os.WriteFile` into the history directory: an existing file of that name is
replaced, a new name is added. -/
def HistoryDir.write (d : HistoryDir) (name : String) (c : StoredFile) : HistoryDir :=
  match d with
  | [] => [(name, c)]
  | (n, c') :: rest =>
    if n = name then (name, c) :: rest else (n, c') :: HistoryDir.write rest name c

/-- One term of a pattern of `filepath.Match`: `*`, `?`, a character (plain or
escaped by a backslash) or a character class `[...]` with its ranges. -/
inductive PatternTerm where
  | star
  | anyChar
  | lit (c : Char)
  | cls (negated : Bool) (ranges : List (Char × Char))
  deriving DecidableEq, Repr

/-- Where the reading of a pattern stands: outside a class, after a backslash,
or inside a class (after `[`, before a range, after the backslash of a lower
bound, after a lower bound, after the `-` of a range, after the backslash of
an upper bound). -/
inductive PatternState where
  | outside
  | escaped
  | classOpen
  | classLo (negated : Bool) (ranges : List (Char × Char))
  | classLoEscaped (negated : Bool) (ranges : List (Char × Char))
  | classAfterLo (negated : Bool) (ranges : List (Char × Char)) (lo : Char)
  | classHi (negated : Bool) (ranges : List (Char × Char)) (lo : Char)
  | classHiEscaped (negated : Bool) (ranges : List (Char × Char)) (lo : Char)
  deriving DecidableEq, Repr

/-- Inside a class, a character read where a range may start: `]` closes the
class when it holds a range and is malformed otherwise, `-` is malformed, a
backslash escapes the lower bound, any other character is a lower bound. -/
def classStep (negated : Bool) (ranges : List (Char × Char)) (c : Char) :
    Option (PatternState × Option PatternTerm) :=
  if c = ']' then
    if ranges.isEmpty then none else some (.outside, some (.cls negated ranges))
  else if c = '-' then none
  else if c = '\\' then some (.classLoEscaped negated ranges, none)
  else some (.classAfterLo negated ranges c, none)

/-- Reading one character of a pattern: the next state and the term completed,
`none` for a malformed pattern. -/
def patternStep : PatternState → Char → Option (PatternState × Option PatternTerm)
  | .outside, c =>
    if c = '*' then some (.outside, some .star)
    else if c = '?' then some (.outside, some .anyChar)
    else if c = '[' then some (.classOpen, none)
    else if c = '\\' then some (.escaped, none)
    else some (.outside, some (.lit c))
  | .escaped, c => some (.outside, some (.lit c))
  | .classOpen, c =>
    if c = '^' then some (.classLo true [], none) else classStep false [] c
  | .classLo negated ranges, c => classStep negated ranges c
  | .classLoEscaped negated ranges, c => some (.classAfterLo negated ranges c, none)
  | .classAfterLo negated ranges lo, c =>
    if c = '-' then some (.classHi negated ranges lo, none)
    else classStep negated (ranges ++ [(lo, lo)]) c
  | .classHi negated ranges lo, c =>
    if c = ']' ∨ c = '-' then none
    else if c = '\\' then some (.classHiEscaped negated ranges lo, none)
    else some (.classLo negated (ranges ++ [(lo, c)]), none)
  | .classHiEscaped negated ranges lo, c =>
    some (.classLo negated (ranges ++ [(lo, c)]), none)

/-- Reading a pattern from a state on: its terms, `none` when it is malformed
(a backslash at the end, a class that is empty or not closed). -/
def parseFrom : PatternState → List Char → Option (List PatternTerm)
  | .outside, [] => some []
  | _, [] => none
  | st, c :: rest =>
    match patternStep st c with
    | none => none
    | some (st', term) =>
      match parseFrom st' rest with
      | none => none
      | some terms => some (term.toList ++ terms)

/-- The terms of a pattern, `none` where `filepath.Match` reports
`ErrBadPattern`. Modelled from the pattern grammar that the library documents
(with the backslash as escape character, as on every system but Windows). -/
def parsePattern (pattern : String) : Option (List PatternTerm) :=
  parseFrom .outside pattern.data

/-- Whether a character lies in one of the ranges `lo-hi` of a class. -/
def inRanges (ranges : List (Char × Char)) (c : Char) : Bool :=
  ranges.any (fun r => decide (r.1.toNat ≤ c.toNat ∧ c.toNat ≤ r.2.toNat))

/-- The term `*` followed by the rest of a pattern, whose match is `k`: `*`
matches any sequence of characters other than the separator `/`. -/
def starMatch (k : List Char → Bool) : List Char → Bool
  | [] => k []
  | c :: s => k (c :: s) || (c != '/' && starMatch k s)

/-- Whether a sequence of terms matches the whole of a name. -/
def matchTerms : List PatternTerm → List Char → Bool
  | [], s => s.isEmpty
  | .star :: terms, s => starMatch (matchTerms terms) s
  | _ :: _, [] => false
  | .anyChar :: terms, c :: s => c != '/' && matchTerms terms s
  | .lit a :: terms, c :: s => a == c && matchTerms terms s
  | .cls negated ranges :: terms, c :: s =>
    (inRanges ranges c != negated) && matchTerms terms s

/-- The value `filepath.ErrBadPattern`. -/
def ErrBadPattern : GoError := .other "syntax error in pattern"

/-- Whether the pattern `<app>_*.json` that `GetDeploymentHistory` builds is
malformed: the characters of `app` are part of the pattern. -/
def badPattern (app : String) : Bool := (parsePattern (app ++ "_*.json")).isNone

/-- Whether the pattern `<app>_*.json` is well formed and matches the file
name. -/
def globMatch (app name : String) : Bool :=
  match parsePattern (app ++ "_*.json") with
  | none => false
  | some terms => matchTerms terms name.data

/-- The call `filepath.Glob(filepath.Join(r.historyDir, "<app>_*.json"))`,
modelled from the library contract: `ErrBadPattern` for a malformed pattern,
else the files of the directory whose names match, in listing order. The
path of the history directory is taken to hold no pattern character and the
directory to hold files only; an `app` with a path separator addresses
another directory, which lies outside this model. -/
def Glob (d : HistoryDir) (app : String) : Except GoError (List (String × StoredFile)) :=
  match parsePattern (app ++ "_*.json") with
  | none => .error ErrBadPattern
  | some terms => .ok (d.filter (fun f => matchTerms terms f.1.data))

/-- Modelled from the library contract of `sort.Slice`: the slice is reordered
so that no element is `less` than one placed before it. An insertion sort,
which is what the library runs on short slices. -/
def sortSlice {α : Type} (less : α → α → Bool) (l : List α) : List α :=
  l.insertionSort (fun a b => less b a = false)

/-- The comparison `records[i].Timestamp > records[j].Timestamp`: Go compares
strings byte by byte, which on UTF-8 text is the order of the code points. -/
def timestampAfter (a b : DeploymentRecord) : Bool :=
  decide (b.Timestamp.data < a.Timestamp.data)

/-- The loop of `GetDeploymentHistory` over the matched files. -/
def collectRecords (env : String) :
    List (String × StoredFile) → List DeploymentRecord → List DeploymentRecord
  | [], records => records
  | (_, .unreadable) :: rest, records => collectRecords env rest records
  | (_, .malformed) :: rest, records => collectRecords env rest records
  | (_, .record record) :: rest, records =>
    if env = "" ∨ record.Env = env then collectRecords env rest (records ++ [record])
    else collectRecords env rest records

/-- The method `RollbackManager.GetDeploymentHistory` on the history directory
`d`. -/
def GetDeploymentHistory (d : HistoryDir) (app env : String) (limit : Int) :
    Except GoError (List DeploymentRecord) :=
  match Glob d app with
  | .error err => .error err
  | .ok found =>
    let records := collectRecords env found []
    let records := sortSlice timestampAfter records
    let records :=
      if limit > 0 ∧ limit < (records.length : Int) then records.take limit.toNat
      else records
    .ok records

/-- Three stored deployments of `svc` in `prod`, a foreign file and a deployment
of another environment. -/
def sampleHistory : HistoryDir :=
  [("svc_dev_2024-03-01T10:00:00Z.json",
      .record ⟨"svc", "dev", "v9", "2024-03-01T10:00:00Z", "success", []⟩),
   ("svc_prod_2024-01-01T10:00:00Z.json",
      .record ⟨"svc", "prod", "v1", "2024-01-01T10:00:00Z", "success", []⟩),
   ("svc_prod_2024-01-03T10:00:00Z.json",
      .record ⟨"svc", "prod", "v3", "2024-01-03T10:00:00Z", "success", []⟩),
   ("svc_prod_2024-01-02T10:00:00Z.json",
      .record ⟨"svc", "prod", "v2", "2024-01-02T10:00:00Z", "failed", []⟩),
   ("svc_prod_notes.json", .malformed)]

/-! ## `internal/deployer` -/

/-- What the file system holds at a path, as far as the deployer looks. -/
inductive Node where
  | dir
  | yaml (doc : GoMap)
  | unparsable (err : String)
  | unreadable (err : String)

/-- The file system outside the history directory: path to node. -/
abbrev Files := List (String × Node)

/-- The call `os.Stat`: the node at `path`, `none` when `os.IsNotExist` holds of the error. -/
def Files.stat (fs : Files) (path : String) : Option Node :=
  match fs with
  | [] => none
  | (p, n) :: rest => if p = path then some n else Files.stat rest path

/-- The directories on the way to a path: every non-empty proper prefix that
ends just before a `/`. The first argument is the prefix read so far, reversed. -/
def ancestorsFrom : List Char → List Char → List String
  | _, [] => []
  | pre, c :: cs =>
    (if c = '/' ∧ pre ≠ [] then [String.mk pre.reverse] else []) ++
      ancestorsFrom (c :: pre) cs

/-- Creation of a chain of directories, outermost first: an existing directory
is passed, anything else in the way stops the chain. -/
def mkdirChain : List String → Files → Files
  | [], fs => fs
  | p :: rest, fs =>
    match Files.stat fs p with
    | some .dir => mkdirChain rest fs
    | some _ => fs
    | none => mkdirChain rest (fs ++ [(p, Node.dir)])

/-- Modelled from the library contract of `os.MkdirAll`, whose error the caller
drops: nothing changes when the path exists; otherwise the missing directories
on the way and the path itself are created. -/
def MkdirAll (fs : Files) (path : String) : Files :=
  match Files.stat fs path with
  | some _ => fs
  | none => mkdirChain (ancestorsFrom [] path.data ++ [path]) fs

/-- The method `Config.LoadDeploymentConfig`; the YAML decoding is the node's. -/
def LoadDeploymentConfig (fs : Files) (configPath : String) : Except ConfigError GoMap :=
  match Files.stat fs configPath with
  | none => .error ⟨"Configuration file not found: " ++ configPath⟩
  | some .dir =>
    .error ⟨"Failed to read config file: read " ++ configPath ++ ": is a directory"⟩
  | some (.unreadable err) => .error ⟨"Failed to read config file: " ++ err⟩
  | some (.unparsable err) => .error ⟨"Failed to parse config file: " ++ err⟩
  | some (.yaml doc) => .ok doc

/-- The method `Deployer.findDeploymentConfig`. -/
def findDeploymentConfig (fs : Files) (app : String) : Except GoError String :=
  let configFile := "../../examples/real-projects/" ++ app ++ ".yaml"
  match Files.stat fs configFile with
  | some _ => .ok configFile
  | none => .error (.other ("deployment config not found for app: " ++ app))

/-- The loop of `Deployer.runPreDeployHooks`. -/
def runHooks : List Value → Files → Option GoError × Files
  | [], fs => (none, fs)
  | hookInterface :: rest, fs =>
    match asMap (some hookInterface) with
    | none => runHooks rest fs
    | some hook =>
      match asStr (GoMap.get hook "type") with
      | none => runHooks rest fs
      | some hookType =>
        if hookType = "file_check" then
          match asStr (GoMap.get hook "path") with
          | some path =>
            match Files.stat fs path with
            | none =>
              (some (.other ("pre-deploy check failed: " ++ path ++ " not found")), fs)
            | some _ => runHooks rest fs
          | none => runHooks rest fs
        else if hookType = "directory_check" then
          match asStr (GoMap.get hook "path") with
          | some path => runHooks rest (MkdirAll fs path)
          | none => runHooks rest fs
        else runHooks rest fs

/-- The method `Deployer.runPreDeployHooks`. -/
def runPreDeployHooks (fs : Files) (config : GoMap) : Option GoError × Files :=
  match asSeq (GoMap.get config "pre_deploy") with
  | none => (none, fs)
  | some hooks => runHooks hooks fs

/-- One invocation of a backend executor: which one, and its arguments (the
options only for the executors that take them). -/
structure BackendCall where
  kind : String
  app : String
  env : String
  version : String
  config : GoMap
  options : List (String × String)

/-- What lies outside the orchestrator and decides the outcome of its calls:
the backend executors (`deployDocker` and its siblings run external commands
and report whether they succeeded), the probed endpoints, and the failures of
`json.MarshalIndent` and `os.WriteFile`. -/
structure Outside where
  backend : BackendCall → Bool
  endpoint : String → Nat → ProbeResult
  marshalError : DeploymentRecord → Option String
  writeError : String → Option String

/-- The state a deployment reads and changes: the file system, the history
directory, the clock (the RFC 3339 rendering of the current UTC second), the
executors invoked so far and the health-check probes and sleeps made so far. -/
structure World where
  files : Files
  history : HistoryDir
  now : String
  invoked : List BackendCall
  health : List Event

/-- The method `RollbackManager.RecordDeployment`; the returned name is relative to the
history directory. -/
def RecordDeployment (x : Outside) (w : World) (app env version : String)
    (config : GoMap) (status : String) : Except GoError String × World :=
  let record : DeploymentRecord :=
    { App := app, Env := env, Version := version, Timestamp := w.now,
      Status := status, Config := config }
  let filename := app ++ "_" ++ env ++ "_" ++ record.Timestamp ++ ".json"
  match x.marshalError record with
  | some err => (.error (.other err), w)
  | none =>
    match x.writeError filename with
    | some err => (.error (.other err), w)
    | none =>
      (.ok filename,
        { w with history := HistoryDir.write w.history filename (.record record) })

/-- The method `Deployer.runHealthCheck`: the boolean and the probes and sleeps made. -/
def runHealthCheck (endpoint : String → Nat → ProbeResult) (config : GoMap) :
    Bool × List Event :=
  match asMap (GoMap.get config "health_check") with
  | none => (true, [])
  | some healthConfig =>
    match FromConfig healthConfig with
    | .error _ => (false, [])
    | .ok checker => Check checker (endpoint checker.Endpoint)

/-- The `deployType` of `Deploy`: the `type` string of the loaded descriptor,
`docker` when it holds no string. -/
def deployTypeOf (deploymentConfig : GoMap) : String :=
  match asStr (GoMap.get deploymentConfig "type") with
  | some t => t
  | none => "docker"

/-- The `switch deployType` of `Deploy`: the executor call of each recognised
type, `none` for the `default` branch. -/
def selectBackend (deployType app env version : String) (config : GoMap)
    (options : List (String × String)) : Option BackendCall :=
  if deployType = "docker-compose" then
    some ⟨"docker-compose", app, env, version, config, []⟩
  else if deployType = "docker" then
    some ⟨"docker", app, env, version, config, []⟩
  else if deployType = "kubernetes" then
    some ⟨"kubernetes", app, env, version, config, options⟩
  else if deployType = "terraform" then
    some ⟨"terraform", app, env, version, config, []⟩
  else if deployType = "ansible" then
    some ⟨"ansible", app, env, version, config, options⟩
  else none

/-- The part of `Deploy` from the health check on: `success` is what the
executor returned. -/
def finishDeploy (x : Outside) (w : World) (app env version : String)
    (envConfig : GoMap) (success : Bool) : Option GoError × World :=
  let checked : Bool × World :=
    if success then
      let r := runHealthCheck x.endpoint envConfig
      (r.1, { w with health := w.health ++ r.2 })
    else (false, w)
  let success := checked.1
  let status := if success then "success" else "failed"
  let w := (RecordDeployment x checked.2 app env version envConfig status).2
  if !success then
    (some (.deployment ("Deployment failed for " ++ app ++ " in " ++ env)), w)
  else (none, w)

/-- The method `Deployer.Deploy`: the returned error (`none` for nil) and the world after. -/
def Deploy (x : Outside) (w : World) (app env version configPath : String)
    (options : List (String × String)) : Option GoError × World :=
  match (if configPath = "" then findDeploymentConfig w.files app else .ok configPath) with
  | .error err => (some err, w)
  | .ok configPath =>
    match LoadDeploymentConfig w.files configPath with
    | .error err => (some (.config err), w)
    | .ok deploymentConfig =>
      match GetEnvironmentConfig env deploymentConfig with
      | .error err => (some (.config err), w)
      | .ok envConfig =>
        match runPreDeployHooks w.files envConfig with
        | (some err, files) => (some err, { w with files := files })
        | (none, files) =>
          let w := { w with files := files }
          let deployType := deployTypeOf deploymentConfig
          match selectBackend deployType app env version envConfig options with
          | none =>
            (some (.deployment ("Unsupported deployment type: " ++ deployType)), w)
          | some call =>
            let success := x.backend call
            finishDeploy x { w with invoked := w.invoked ++ [call] } app env version
              envConfig success

/-- An outside in which every executor succeeds, every endpoint answers 200 and
no write fails. -/
def fairWeather : Outside :=
  { backend := fun _ => true
    endpoint := fun _ => healthyEndpoint
    marshalError := fun _ => none
    writeError := fun _ => none }

/-- A descriptor whose `health_check` section has no `endpoint`. -/
def noEndpointBase : GoMap :=
  [("type", .str "docker"),
   ("health_check", .map [("timeout", .int 10), ("retries", .int 2)]),
   ("environments", .map [("prod", .map [("port", .int 443)])])]

/-- The resolution of `noEndpointBase` for `prod`. -/
def noEndpointResolved : GoMap :=
  [("type", .str "docker"),
   ("health_check", .map [("timeout", .int 10), ("retries", .int 2)]),
   ("port", .int 443)]

/-- A world with the descriptor `noEndpointBase` at `svc.yaml` and no history. -/
def noEndpointWorld : World :=
  { files := [("svc.yaml", .yaml noEndpointBase)]
    history := []
    now := "2024-05-01T12:00:00Z"
    invoked := []
    health := [] }

/-! ## History queries and rollback -/

/-- The slice `records` of `GetDeploymentHistory` before it is sorted: the
records read from the files that the pattern matches, filtered by `env`. -/
def matchingRecords (d : HistoryDir) (app env : String) : List DeploymentRecord :=
  collectRecords env (d.filter (fun f => globMatch app f.1)) []

/-- The part of `GetDeploymentHistory` that follows the call of `filepath.Glob`,
on the files found: read, filter by `env`, sort, truncate. -/
def historyOf (found : List (String × StoredFile)) (env : String) (limit : Int) :
    List DeploymentRecord :=
  let records := collectRecords env found []
  let records := sortSlice timestampAfter records
  if limit > 0 ∧ limit < (records.length : Int) then records.take limit.toNat
  else records

/-- Whether `app` holds none of the characters that `filepath.Match` reads as
pattern syntax. -/
def metaFree (app : String) : Bool :=
  app.data.all (fun c => c != '*' && c != '?' && c != '[' && c != '\\')

/-- Whether `app` holds no path separator, so that the pattern `<app>_*.json`
addresses the files of the history directory itself. -/
def noSeparator (app : String) : Bool := app.data.all (fun c => c != '/')

/-- What one file contributes to the scan of `GetDeploymentHistory`. -/
def keptRecord (env : String) (f : String × StoredFile) : Option DeploymentRecord :=
  match f.2 with
  | .unreadable => none
  | .malformed => none
  | .record record => if env = "" ∨ record.Env = env then some record else none

/-- The loop of `GetPreviousVersion` over the history. -/
def scanPrevious (currentVersion : String) : List DeploymentRecord → Option String
  | [] => none
  | record :: rest =>
    if record.Version ≠ currentVersion ∧ record.Status = "success" then some record.Version
    else scanPrevious currentVersion rest

/-- The method `RollbackManager.GetPreviousVersion`. -/
def GetPreviousVersion (d : HistoryDir) (app env currentVersion : String) :
    Except GoError String :=
  match GetDeploymentHistory d app env 10 with
  | .error err => .error err
  | .ok history =>
    match scanPrevious currentVersion history with
    | some version => .ok version
    | none => .error (.other "no previous version found")

/-- The method `Deployer.GetStatus`. -/
def GetStatus (d : HistoryDir) (app env : String) : Except GoError GoMap :=
  match GetDeploymentHistory d app env 1 with
  | .error err => .error err
  | .ok history =>
    match history with
    | record :: _ =>
      .ok [("app", .str record.App), ("env", .str record.Env),
           ("version", .str record.Version), ("timestamp", .str record.Timestamp),
           ("status", .str record.Status)]
    | [] => .ok [("status", .str "unknown"), ("app", .str app), ("env", .str env)]

/-- The statement `currentVersion, _ := status["version"].(string)`. -/
def currentVersionOf (status : GoMap) : String :=
  match asStr (GoMap.get status "version") with
  | some v => v
  | none => ""

/-- The first part of `Deployer.Rollback`: the version that will be deployed,
or the error returned before `Deploy` is reached. -/
def rollbackTarget (d : HistoryDir) (app env version : String) : Except GoError String :=
  if version = "" then
    match GetStatus d app env with
    | .error err => .error err
    | .ok status => GetPreviousVersion d app env (currentVersionOf status)
  else .ok version

/-- The method `Deployer.Rollback`; the `nil` options map of its call of `Deploy`
is the empty one. -/
def Rollback (x : Outside) (w : World) (app env version : String) :
    Option GoError × World :=
  match rollbackTarget w.history app env version with
  | .error err => (some err, w)
  | .ok version => Deploy x w app env version "" []

/-- A world with the history `d`, the clock at noon of 1 May 2024 and the
descriptor `svc.yaml` of a docker deployment without health check. -/
def worldWith (d : HistoryDir) : World :=
  { files := [("../../examples/real-projects/svc.yaml",
      .yaml [("type", .str "docker"), ("environments", .map [("prod", .map [])])])]
    history := d
    now := "2024-05-01T12:00:00Z"
    invoked := []
    health := [] }

/-- Five stored deployments of `svc` in `prod`, listed in file-name order. -/
def fiveHistory : HistoryDir :=
  [("svc_prod_2024-01-01T10:00:00Z.json",
      .record ⟨"svc", "prod", "v1", "2024-01-01T10:00:00Z", "success", []⟩),
   ("svc_prod_2024-01-02T10:00:00Z.json",
      .record ⟨"svc", "prod", "v2", "2024-01-02T10:00:00Z", "success", []⟩),
   ("svc_prod_2024-01-03T10:00:00Z.json",
      .record ⟨"svc", "prod", "v3", "2024-01-03T10:00:00Z", "failed", []⟩),
   ("svc_prod_2024-01-04T10:00:00Z.json",
      .record ⟨"svc", "prod", "v4", "2024-01-04T10:00:00Z", "success", []⟩),
   ("svc_prod_2024-01-05T10:00:00Z.json",
      .record ⟨"svc", "prod", "v5", "2024-01-05T10:00:00Z", "success", []⟩)]

/-- An outside in which every executor succeeds and every write of a history
file fails. -/
def diskFull : Outside :=
  { backend := fun _ => true
    endpoint := fun _ => healthyEndpoint
    marshalError := fun _ => none
    writeError := fun _ => some "no space left on device" }

/-- A descriptor whose `type` holds a number. -/
def numericTypeBase : GoMap :=
  [("type", .int 42), ("environments", .map [("prod", .map [])])]

/-- A descriptor whose `type` names no backend. -/
def unknownTypeBase : GoMap :=
  [("type", .str "not-a-backend"),
   ("health_check", .map [("endpoint", .str "http://localhost:8080/health")]),
   ("environments", .map [("prod", .map [])])]

/-- A world with the descriptor `doc` at `svc.yaml` and the history `d`. -/
def worldOf (doc : GoMap) (d : HistoryDir) : World :=
  { files := [("svc.yaml", .yaml doc)]
    history := d
    now := "2024-05-01T12:00:00Z"
    invoked := []
    health := [] }

/-- A history with a single successful deployment of `svc` in `prod`. -/
def singleHistory : HistoryDir :=
  [("svc_prod_2024-01-01T10:00:00Z.json",
      .record ⟨"svc", "prod", "v1", "2024-01-01T10:00:00Z", "success", []⟩)]

/-! ## Stages of `Deploy`: auxiliary notions -/

/-- The content of a file of the history directory, `none` when there is no
file of that name. -/
def HistoryDir.read (d : HistoryDir) (name : String) : Option StoredFile :=
  match d with
  | [] => none
  | (n, c) :: rest => if n = name then some c else HistoryDir.read rest name

/-- The text that the method `Error()` of a Go error returns. -/
def GoError.message : GoError → String
  | .config e => e.Message
  | .deployment m => m
  | .other m => m

/-- Whether the characters `needle` occur consecutively in `hay`. -/
def containsChars (needle : List Char) : List Char → Bool
  | [] => needle.isPrefixOf []
  | c :: cs => needle.isPrefixOf (c :: cs) || containsChars needle cs

/-- Whether the message `msg` contains the text `s`. -/
def containsStr (msg s : String) : Bool := containsChars s.data msg.data

/-- What the loop of `runPreDeployHooks` makes of one entry of `pre_deploy`:
a `file_check` or a `directory_check` with a string `path`, or an entry that
it passes over. -/
inductive HookKind where
  | fileCheck (path : String)
  | directoryCheck (path : String)
  | skipped

/-- The classification of a hook by the type assertions and the `switch` of
the loop of `runPreDeployHooks`. -/
def hookKind (hookInterface : Value) : HookKind :=
  match asMap (some hookInterface) with
  | none => .skipped
  | some hook =>
    match asStr (GoMap.get hook "type") with
    | none => .skipped
    | some hookType =>
      if hookType = "file_check" then
        match asStr (GoMap.get hook "path") with
        | some path => .fileCheck path
        | none => .skipped
      else if hookType = "directory_check" then
        match asStr (GoMap.get hook "path") with
        | some path => .directoryCheck path
        | none => .skipped
      else .skipped

/-- The file system after every `directory_check` of the list has been applied
in order, as the specification words the effect of the hooks. -/
def applyDirectoryChecks : List Value → Files → Files
  | [], fs => fs
  | hook :: rest, fs =>
    match hookKind hook with
    | .directoryCheck path => applyDirectoryChecks rest (MkdirAll fs path)
    | _ => applyDirectoryChecks rest fs

/-- A descriptor of type `docker` whose `prod` override sets `kubernetes`. -/
def overrideTypeBase : GoMap :=
  [("type", .str "docker"),
   ("environments", .map [("prod", .map [("type", .str "kubernetes")])])]

/-- A descriptor whose `type` key is present and holds null. -/
def nullTypeBase : GoMap :=
  [("type", .null), ("environments", .map [("prod", .map [])])]

/-- A descriptor without a `type` key. -/
def untypedBase : GoMap :=
  [("port", .int 8080), ("environments", .map [("prod", .map [])])]

/-- A docker descriptor with a health check. -/
def healthBase : GoMap :=
  [("type", .str "docker"),
   ("health_check", .map [("endpoint", .str "http://localhost:8080/health"),
                          ("retries", .int 2)]),
   ("environments", .map [("prod", .map [])])]

/-- The resolution of `healthBase` for `prod`. -/
def healthResolved : GoMap :=
  [("type", .str "docker"),
   ("health_check", .map [("endpoint", .str "http://localhost:8080/health"),
                          ("retries", .int 2)])]

/-- An outside in which every executor succeeds, every endpoint answers 503
and no write fails. -/
def sickEndpoint : Outside :=
  { backend := fun _ => true
    endpoint := fun _ => downEndpoint
    marshalError := fun _ => none
    writeError := fun _ => none }

/-- A descriptor with two hooks: create `build/out`, then require `Dockerfile`. -/
def hookedBase : GoMap :=
  [("type", .str "docker"),
   ("pre_deploy", .seq
      [.map [("type", .str "directory_check"), ("path", .str "build/out")],
       .map [("type", .str "file_check"), ("path", .str "Dockerfile")],
       .map [("type", .str "directory_check"), ("path", .str "logs")]]),
   ("environments", .map [("prod", .map [])])]

/-- The three hooks of `hookedBase`. -/
def sampleHooks : List Value :=
  [.map [("type", .str "directory_check"), ("path", .str "build/out")],
   .map [("type", .str "file_check"), ("path", .str "Dockerfile")],
   .map [("type", .str "directory_check"), ("path", .str "logs")]]

/-! ## `internal/config`: environments -/

/-- The struct `config.Config`; a nil map is `none`. -/
structure Config where
  configDir : String
  environments : Option GoMap

/-- The constructor `config.NewConfig`: `filepath.Join(".", "config")` is `config`,
and `make(map[string]interface{})` is an empty map that is not nil. -/
def NewConfig (configDir : String) : Config :=
  { configDir := if configDir = "" then "config" else configDir
    environments := some [] }

/-- The map literal that `LoadEnvironments` returns when there is no file. -/
def defaultEnvironments : GoMap :=
  [("dev", .map [("description", .str "Development environment")]),
   ("staging", .map [("description", .str "Staging environment")]),
   ("prod", .map [("description", .str "Production environment")])]

/-- The method `Config.LoadEnvironments`: the returned pair and the receiver
after the call. -/
def LoadEnvironments (c : Config) (fs : Files) : Except ConfigError GoMap × Config :=
  match c.environments with
  | some environments => (.ok environments, c)
  | none =>
    let envFile := c.configDir ++ "/" ++ "environments.yaml"
    match Files.stat fs envFile with
    | none => (.ok defaultEnvironments, c)
    | some .dir =>
      (.error ⟨"Failed to read environments file: read " ++ envFile ++ ": is a directory"⟩, c)
    | some (.unreadable err) => (.error ⟨"Failed to read environments file: " ++ err⟩, c)
    | some (.unparsable err) => (.error ⟨"Failed to parse environments file: " ++ err⟩, c)
    | some (.yaml config) =>
      match asMap (GoMap.get config "environments") with
      | none => (.ok [], c)
      | some envs => (.ok envs, { c with environments := some envs })

/-- A file system with an `environments.yaml` that defines `qa` and `prod`. -/
def environmentsFiles : Files :=
  [("config/environments.yaml",
    .yaml [("environments", .map [("qa", .map []), ("prod", .map [])])])]

/-! ## The inventory drift detector -/

/-- The struct `inventory.Device`; a nil `Extra` is `none`. -/
structure Device where
  Hostname : String
  IP : String
  MgmtIP : String
  Model : String
  DeviceType : String
  Platform : String
  Status : String
  Serial : String
  Extra : Option GoMap

/-- Modelled from the library contract of `strings.ToLower`, on ASCII letters. -/
def asciiLower (s : String) : String := String.mk (s.data.map Char.toLower)

/-- The method `Device.GetKey`. -/
def GetKey (d : Device) (keyField : String) : String :=
  let keyField := asciiLower keyField
  if keyField = "hostname" then d.Hostname
  else if keyField = "ip" ∨ keyField = "mgmt_ip" ∨ keyField = "mgmtip" then
    if d.MgmtIP ≠ "" then d.MgmtIP else d.IP
  else if keyField = "serial" then d.Serial
  else
    match d.Extra with
    | some extra =>
      match asStr (GoMap.get extra keyField) with
      | some str => str
      | none => ""
    | none => ""

/-- The struct `compare.Difference`; a nil interface is `Value.null`. -/
structure Difference where
  Expected : Value
  Actual : Value

/-- A Go `map[string]Difference`. -/
abbrev Differences := List (String × Difference)

/-- The assignment `differences[k] = v`. -/
def Differences.set (m : Differences) (k : String) (v : Difference) : Differences :=
  match m with
  | [] => [(k, v)]
  | (k', v') :: rest =>
    if k' = k then (k, v) :: rest else (k', v') :: Differences.set rest k v

/-- The comparison `a != b` of two interface values: values of different
dynamic types differ, values of one comparable type are compared, and two
slices or two maps make the comparison panic (`none`). Floats are compared by
their bits. -/
def ifaceNe : Value → Value → Option Bool
  | .null, .null => some false
  | .bool a, .bool b => some (a != b)
  | .int a, .int b => some (a != b)
  | .float a, .float b => some (a != b)
  | .str a, .str b => some (a != b)
  | .seq _, .seq _ => none
  | .map _, .map _ => none
  | _, _ => some true

/-- First loop of `compareExtraFields`, over the entries of `expected`; `none`
is a panic. -/
def compareExpectedExtras (actual : GoMap) :
    List (String × Value) → Differences → Option Differences
  | [], differences => some differences
  | (key, expectedVal) :: rest, differences =>
    match GoMap.get actual key with
    | none =>
      compareExpectedExtras actual rest
        (Differences.set differences ("extra." ++ key) ⟨expectedVal, .null⟩)
    | some actualVal =>
      match ifaceNe expectedVal actualVal with
      | none => none
      | some true =>
        compareExpectedExtras actual rest
          (Differences.set differences ("extra." ++ key) ⟨expectedVal, actualVal⟩)
      | some false => compareExpectedExtras actual rest differences

/-- Second loop of `compareExtraFields`, over the entries of `actual`. -/
def compareActualExtras (expected : Option GoMap) :
    List (String × Value) → Differences → Differences
  | [], differences => differences
  | (key, actualVal) :: rest, differences =>
    match expected with
    | none =>
      compareActualExtras expected rest
        (Differences.set differences ("extra." ++ key) ⟨.null, actualVal⟩)
    | some e =>
      match GoMap.get e key with
      | none =>
        compareActualExtras expected rest
          (Differences.set differences ("extra." ++ key) ⟨.null, actualVal⟩)
      | some _ => compareActualExtras expected rest differences

/-- The function `compareExtraFields`; the updated map, `none` for a panic. -/
def compareExtraFields (expected actual : Option GoMap) (differences : Differences) :
    Option Differences :=
  match (match expected with
      | some e => compareExpectedExtras (actual.getD []) e differences
      | none => some differences) with
  | none => none
  | some differences =>
    match actual with
    | some a => some (compareActualExtras expected a differences)
    | none => some differences

/-- The six field comparisons of `compareDevices`, before the extra fields. -/
def compareFields (expected actual : Device) : Differences :=
  let differences : Differences := []
  let differences :=
    if expected.Hostname ≠ actual.Hostname then
      Differences.set differences "hostname" ⟨.str expected.Hostname, .str actual.Hostname⟩
    else differences
  let expectedIP := if expected.IP = "" then expected.MgmtIP else expected.IP
  let actualIP := if actual.IP = "" then actual.MgmtIP else actual.IP
  let differences :=
    if expectedIP ≠ actualIP then
      Differences.set differences "ip" ⟨.str expectedIP, .str actualIP⟩
    else differences
  let expectedModel := if expected.Model = "" then expected.DeviceType else expected.Model
  let actualModel := if actual.Model = "" then actual.DeviceType else actual.Model
  let differences :=
    if expectedModel ≠ actualModel then
      Differences.set differences "model" ⟨.str expectedModel, .str actualModel⟩
    else differences
  let differences :=
    if expected.Platform ≠ actual.Platform then
      Differences.set differences "platform" ⟨.str expected.Platform, .str actual.Platform⟩
    else differences
  let differences :=
    if expected.Status ≠ actual.Status then
      Differences.set differences "status" ⟨.str expected.Status, .str actual.Status⟩
    else differences
  let differences :=
    if expected.Serial ≠ actual.Serial then
      Differences.set differences "serial" ⟨.str expected.Serial, .str actual.Serial⟩
    else differences
  differences

/-- The function `compareDevices`; `none` for a panic. -/
def compareDevices (expected actual : Device) : Option Differences :=
  compareExtraFields expected.Extra actual.Extra (compareFields expected actual)

/-- The struct `compare.Mismatch`. -/
structure Mismatch where
  Device : Orchestrator.Device
  Expected : Orchestrator.Device
  Actual : Orchestrator.Device
  Differences : Orchestrator.Differences

/-- The struct `compare.DriftResult`. -/
structure DriftResult where
  Missing : List Device
  Extra : List Device
  Mismatched : List Mismatch

/-- The two errors of `Compare`, made with the formats
`device missing required key field '%s': %+v` and
`duplicate key '%s' found in %s inventory`. -/
inductive CompareError where
  | missingKey (keyField : String) (device : Device)
  | duplicateKey (key : String) (inventory : String)

/-- How a call of `Compare` ends: with a result, with an error, or in a panic. -/
inductive CompareOutcome where
  | ok (result : DriftResult)
  | error (e : CompareError)
  | panic

/-- A Go `map[string]inventory.Device`, in insertion order. -/
abbrev DeviceMap := List (String × Device)

/-- The index expression `m[key]` with the comma-ok form. -/
def DeviceMap.get (m : DeviceMap) (key : String) : Option Device :=
  match m with
  | [] => none
  | (k, d) :: rest => if k = key then some d else DeviceMap.get rest key

/-- First loop of `Compare`: the map of the expected devices. The assignment
`expectedMap[key] = device` adds an entry, the key having just been found new. -/
def buildExpected (keyField : String) : List Device → DeviceMap → Except CompareError DeviceMap
  | [], expectedMap => .ok expectedMap
  | device :: rest, expectedMap =>
    let key := GetKey device keyField
    if key = "" then .error (.missingKey keyField device)
    else
      match DeviceMap.get expectedMap key with
      | some _ => .error (.duplicateKey key "expected")
      | none => buildExpected keyField rest (expectedMap ++ [(key, device)])

/-- Second loop of `Compare`: the map of the actual devices and the list of the
extra ones. -/
def buildActual (keyField : String) (expectedMap : DeviceMap) :
    List Device → DeviceMap → List Device → Except CompareError (DeviceMap × List Device)
  | [], actualMap, extra => .ok (actualMap, extra)
  | device :: rest, actualMap, extra =>
    let key := GetKey device keyField
    if key = "" then .error (.missingKey keyField device)
    else
      match DeviceMap.get actualMap key with
      | some _ => .error (.duplicateKey key "actual")
      | none =>
        let extra :=
          match DeviceMap.get expectedMap key with
          | none => extra ++ [device]
          | some _ => extra
        buildActual keyField expectedMap rest (actualMap ++ [(key, device)]) extra

/-- Third loop of `Compare`, over the entries of the expected map (walked in
insertion order; Go leaves the order open): the missing devices and the
mismatches, `none` for a panic. -/
def checkExpected (actualMap : DeviceMap) :
    List (String × Device) → List Device → List Mismatch →
      Option (List Device × List Mismatch)
  | [], missing, mismatched => some (missing, mismatched)
  | (key, expectedDevice) :: rest, missing, mismatched =>
    match DeviceMap.get actualMap key with
    | none => checkExpected actualMap rest (missing ++ [expectedDevice]) mismatched
    | some actualDevice =>
      match compareDevices expectedDevice actualDevice with
      | none => none
      | some differences =>
        if differences.length > 0 then
          checkExpected actualMap rest missing
            (mismatched ++ [⟨expectedDevice, expectedDevice, actualDevice, differences⟩])
        else checkExpected actualMap rest missing mismatched

/-- The function `compare.Compare` on the device lists of the two inventories. -/
def Compare (expected actual : List Device) (keyField : String) : CompareOutcome :=
  let keyField := if keyField = "" then "hostname" else keyField
  match buildExpected keyField expected [] with
  | .error e => .error e
  | .ok expectedMap =>
    match buildActual keyField expectedMap actual [] [] with
    | .error e => .error e
    | .ok (actualMap, extra) =>
      match checkExpected actualMap expectedMap [] [] with
      | none => .panic
      | some (missing, mismatched) =>
        .ok { Missing := missing, Extra := extra, Mismatched := mismatched }

/-- The method `DriftResult.HasDrift`. -/
def HasDrift (dr : DriftResult) : Bool :=
  decide (dr.Missing.length > 0) || decide (dr.Extra.length > 0) ||
    decide (dr.Mismatched.length > 0)

/-- A device with a hostname, an address and a list of tags among its extras. -/
def taggedRouter : Device :=
  { Hostname := "r1", IP := "10.0.0.1", MgmtIP := "10.0.0.1", Model := "mx204",
    DeviceType := "mx204", Platform := "junos", Status := "active", Serial := "JN1",
    Extra := some [("site", .str "ams"), ("tags", .seq [.str "core", .str "edge"])] }

/-- A device whose extras hold a nested mapping. -/
def rackedSwitch (unit : Int) : Device :=
  { Hostname := "sw1", IP := "10.0.0.2", MgmtIP := "10.0.0.2", Model := "ex4300",
    DeviceType := "ex4300", Platform := "junos", Status := "active", Serial := "JN2",
    Extra := some [("rack", .map [("unit", .int unit)])] }

/-- A device without extras. -/
def plainDevice (hostname address : String) : Device :=
  { Hostname := hostname, IP := address, MgmtIP := address, Model := "", DeviceType := "",
    Platform := "", Status := "active", Serial := "", Extra := none }

/-- The entries of the map that `Compare` builds from a list of devices with
distinct keys. -/
def deviceMapOf (keyField : String) (devices : List Device) : DeviceMap :=
  devices.map (fun d => (GetKey d keyField, d))

/-- What an entry of the expected map adds to `Missing`. -/
def missingOf (actualMap : DeviceMap) (entry : String × Device) : Option Device :=
  match DeviceMap.get actualMap entry.1 with
  | none => some entry.2
  | some _ => none

/-- What an entry of the expected map adds to `Mismatched`. -/
def mismatchOf (actualMap : DeviceMap) (entry : String × Device) : Option Mismatch :=
  match DeviceMap.get actualMap entry.1 with
  | none => none
  | some actualDevice =>
    match compareDevices entry.2 actualDevice with
    | none => none
    | some differences =>
      if differences.length > 0 then some ⟨entry.2, entry.2, actualDevice, differences⟩
      else none

/-- The key field that `Compare` uses: `hostname` when none is given. -/
def effectiveKeyField (keyField : String) : String :=
  if keyField = "" then "hostname" else keyField

/-- Whether a value is a null, a boolean, an integer or a string: the values
that compare equal to themselves (a list or a mapping makes the comparison
panic, and a float may be a NaN). -/
def Value.isScalar : Value → Bool
  | .null => true
  | .bool _ => true
  | .int _ => true
  | .str _ => true
  | _ => false

/-- Whether the extras of a device are absent or a map of scalars. -/
def scalarExtras (d : Device) : Prop :=
  match d.Extra with
  | none => True
  | some extra => GoMap.WF extra ∧ ∀ kv ∈ extra, Value.isScalar kv.2 = true

/-- Whether the keys of an inventory are non-empty and pairwise distinct. -/
abbrev keysValid (keyField : String) (devices : List Device) : Prop :=
  (∀ d ∈ devices, GetKey d keyField ≠ "") ∧
    (devices.map (fun d => GetKey d keyField)).Nodup

/-- One deployment of `svc` in `prod`, v2, and an older one of the app
`svc_api` in `prod`, v7. -/
def mixedHistory : HistoryDir :=
  [("svc_api_prod_2024-01-15T10:00:00Z.json",
      .record ⟨"svc_api", "prod", "v7", "2024-01-15T10:00:00Z", "success", []⟩),
   ("svc_prod_2024-02-01T10:00:00Z.json",
      .record ⟨"svc", "prod", "v2", "2024-02-01T10:00:00Z", "success", []⟩)]

/-- One deployment of `svc` in `prod`, v3, and two older ones of the app
`svc_worker` in `prod`. -/
def sharedPrefixHistory : HistoryDir :=
  [("svc_prod_2024-03-01T10:00:00Z.json",
      .record ⟨"svc", "prod", "v3", "2024-03-01T10:00:00Z", "success", []⟩),
   ("svc_worker_prod_2024-01-10T10:00:00Z.json",
      .record ⟨"svc_worker", "prod", "v8", "2024-01-10T10:00:00Z", "success", []⟩),
   ("svc_worker_prod_2024-01-20T10:00:00Z.json",
      .record ⟨"svc_worker", "prod", "v9", "2024-01-20T10:00:00Z", "failed", []⟩)]

/-- An outside in which every executor succeeds, every endpoint answers 503 and
every write of a history file fails. -/
def sickDiskFull : Outside :=
  { backend := fun _ => true
    endpoint := fun _ => downEndpoint
    marshalError := fun _ => none
    writeError := fun _ => some "no space left on device" }

/-! ### Sample configurations -/

/-- A descriptor whose `prod` override itself carries an `environments` key. -/
def shadowedBase : GoMap :=
  [("type", .str "docker"),
   ("environments", .map [("prod", .map [("environments", .str "shadow")])])]

/-- A descriptor whose `prod` entry is present but holds no mapping. -/
def nullEnvBase : GoMap :=
  [("type", .str "docker"),
   ("environments", .map [("dev", .map [("port", .int 8080)]), ("prod", .null)])]

/-- A descriptor with a nested `build` mapping overridden in `prod`. -/
def sampleBase : GoMap :=
  [("type", .str "docker"),
   ("port", .int 8080),
   ("build", .map [("dockerfile", .str "Dockerfile"), ("target", .str "dev")]),
   ("environments", .map
      [("dev", .map []),
       ("prod", .map [("port", .int 443), ("build", .map [("target", .str "release")])])])]

/-- The `environments` mapping of `sampleBase`. -/
def sampleEnvironments : GoMap :=
  [("dev", .map []),
   ("prod", .map [("port", .int 443), ("build", .map [("target", .str "release")])])]

/-- The `prod` override of `sampleBase`. -/
def sampleProd : GoMap :=
  [("port", .int 443), ("build", .map [("target", .str "release")])]

/-- The resolution of `sampleBase` for `prod`. -/
def sampleResolved : GoMap :=
  [("type", .str "docker"),
   ("port", .int 443),
   ("build", .map [("target", .str "release")])]

/-! ### Map lemmas -/

theorem GoMap.get_set_self (m : GoMap) (k : String) (v : Value) :
    GoMap.get (GoMap.set m k v) k = some v := by
  induction m with
  | nil => simp [GoMap.set, GoMap.get]
  | cons hd tl ih =>
    obtain ⟨k', v'⟩ := hd
    by_cases h : k' = k
    · simp [GoMap.set, GoMap.get, h]
    · simp [GoMap.set, GoMap.get, h, ih]

theorem GoMap.get_set_ne (m : GoMap) (k k' : String) (v : Value) (h : k ≠ k') :
    GoMap.get (GoMap.set m k v) k' = GoMap.get m k' := by
  induction m with
  | nil => simp [GoMap.set, GoMap.get, h]
  | cons hd tl ih =>
    obtain ⟨k₁, v₁⟩ := hd
    by_cases h₁ : k₁ = k
    · subst h₁
      simp [GoMap.set, GoMap.get, h]
    · by_cases h₂ : k₁ = k'
      · subst h₂
        simp [GoMap.set, GoMap.get, h₁]
      · simp [GoMap.set, GoMap.get, h₁, h₂, ih]

theorem GoMap.get_eq_none_iff (m : GoMap) (k : String) :
    GoMap.get m k = none ↔ k ∉ GoMap.keys m := by
  induction m with
  | nil => simp [GoMap.get, GoMap.keys]
  | cons hd tl ih =>
    obtain ⟨k₁, v₁⟩ := hd
    have hk : GoMap.keys ((k₁, v₁) :: tl) = k₁ :: GoMap.keys tl := rfl
    by_cases h : k₁ = k
    · subst h
      simp [GoMap.get, hk]
    · simp [GoMap.get, hk, h, ih, Ne.symm h]

theorem GoMap.keys_set (m : GoMap) (k : String) (v : Value) :
    GoMap.keys (GoMap.set m k v) =
      if k ∈ GoMap.keys m then GoMap.keys m else GoMap.keys m ++ [k] := by
  induction m with
  | nil => simp [GoMap.set, GoMap.keys]
  | cons hd tl ih =>
    obtain ⟨k₁, v₁⟩ := hd
    have hk : ∀ (a : String) (b : Value) (l : GoMap),
        GoMap.keys ((a, b) :: l) = a :: GoMap.keys l := fun _ _ _ => rfl
    by_cases h : k₁ = k
    · subst h
      simp [GoMap.set, hk]
    · by_cases hm : k ∈ GoMap.keys tl
      · simp [GoMap.set, hk, h, ih, hm]
      · simp [GoMap.set, hk, h, ih, hm, Ne.symm h]

theorem GoMap.wf_set (m : GoMap) (k : String) (v : Value) (h : GoMap.WF m) :
    GoMap.WF (GoMap.set m k v) := by
  unfold GoMap.WF at *
  rw [GoMap.keys_set]
  by_cases hm : k ∈ GoMap.keys m
  · simpa [hm] using h
  · simp only [hm, if_false]
    rw [List.nodup_append]
    refine ⟨h, List.nodup_singleton k, ?_⟩
    intro a ha hb
    have : a = k := by simpa using hb
    exact hm (this ▸ ha)

theorem GoMap.mem_keys_set (m : GoMap) (k k' : String) (v : Value) :
    k' ∈ GoMap.keys (GoMap.set m k v) ↔ k' = k ∨ k' ∈ GoMap.keys m := by
  rw [GoMap.keys_set]
  by_cases hm : k ∈ GoMap.keys m
  · simp only [hm, if_true]
    constructor
    · exact fun h => Or.inr h
    · rintro (h | h)
      · exact h ▸ hm
      · exact h
  · simp only [hm, if_false, List.mem_append, List.mem_singleton]
    tauto

/-! ### The two loops of `GetEnvironmentConfig` -/

theorem mem_keys_overlay (envConfig r : GoMap) (k : String) :
    k ∈ GoMap.keys (overlay envConfig r) ↔ k ∈ GoMap.keys envConfig ∨ k ∈ GoMap.keys r := by
  induction envConfig generalizing r with
  | nil => simp [overlay, GoMap.keys]
  | cons hd tl ih =>
    obtain ⟨k₁, v₁⟩ := hd
    have hstep : overlay ((k₁, v₁) :: tl) r = overlay tl (GoMap.set r k₁ v₁) := rfl
    have hk : GoMap.keys ((k₁, v₁) :: tl) = k₁ :: GoMap.keys tl := rfl
    rw [hstep, ih, GoMap.mem_keys_set, hk, List.mem_cons]
    tauto

theorem mem_keys_copyBase (base r : GoMap) (k : String) :
    k ∈ GoMap.keys (copyBase base r) ↔
      (k ∈ GoMap.keys base ∧ k ≠ "environments") ∨ k ∈ GoMap.keys r := by
  induction base generalizing r with
  | nil => simp [copyBase, GoMap.keys]
  | cons hd tl ih =>
    obtain ⟨k₁, v₁⟩ := hd
    have hk : GoMap.keys ((k₁, v₁) :: tl) = k₁ :: GoMap.keys tl := rfl
    by_cases h : k₁ = "environments"
    · have hstep : copyBase ((k₁, v₁) :: tl) r = copyBase tl r := by
        simp [copyBase, h]
      rw [hstep, ih, hk, List.mem_cons]
      constructor
      · rintro (⟨h₁, h₂⟩ | h₁)
        · exact Or.inl ⟨Or.inr h₁, h₂⟩
        · exact Or.inr h₁
      · rintro (⟨h₁ | h₁, h₂⟩ | h₁)
        · exact absurd (h₁.trans h) h₂
        · exact Or.inl ⟨h₁, h₂⟩
        · exact Or.inr h₁
    · have hstep : copyBase ((k₁, v₁) :: tl) r = copyBase tl (GoMap.set r k₁ v₁) := by
        simp [copyBase, h]
      rw [hstep, ih, GoMap.mem_keys_set, hk, List.mem_cons]
      constructor
      · rintro (⟨h₁, h₂⟩ | h₁ | h₁)
        · exact Or.inl ⟨Or.inr h₁, h₂⟩
        · exact Or.inl ⟨Or.inl h₁, h₁ ▸ h⟩
        · exact Or.inr h₁
      · rintro (⟨h₁ | h₁, h₂⟩ | h₁)
        · exact Or.inr (Or.inl h₁)
        · exact Or.inl ⟨h₁, h₂⟩
        · exact Or.inr (Or.inr h₁)

theorem get_overlay (envConfig r : GoMap) (k : String) (hw : GoMap.WF envConfig) :
    GoMap.get (overlay envConfig r) k =
      match GoMap.get envConfig k with
      | some v => some v
      | none => GoMap.get r k := by
  induction envConfig generalizing r with
  | nil => simp [overlay, GoMap.get]
  | cons hd tl ih =>
    obtain ⟨k₁, v₁⟩ := hd
    have hstep : overlay ((k₁, v₁) :: tl) r = overlay tl (GoMap.set r k₁ v₁) := rfl
    have hnd : k₁ ∉ GoMap.keys tl ∧ GoMap.WF tl := by
      simpa [GoMap.WF, GoMap.keys] using hw
    rw [hstep, ih _ hnd.2]
    by_cases h : k₁ = k
    · subst h
      have hnone : GoMap.get tl k₁ = none := (GoMap.get_eq_none_iff tl k₁).2 hnd.1
      simp [hnone, GoMap.get, GoMap.get_set_self]
    · simp [GoMap.get, h, GoMap.get_set_ne _ _ _ _ h]

theorem get_copyBase (base r : GoMap) (k : String) (hw : GoMap.WF base) :
    GoMap.get (copyBase base r) k =
      if k = "environments" then GoMap.get r k
      else match GoMap.get base k with
        | some v => some v
        | none => GoMap.get r k := by
  induction base generalizing r with
  | nil => simp [copyBase, GoMap.get]
  | cons hd tl ih =>
    obtain ⟨k₁, v₁⟩ := hd
    have hnd : k₁ ∉ GoMap.keys tl ∧ GoMap.WF tl := by
      simpa [GoMap.WF, GoMap.keys] using hw
    by_cases h : k₁ = "environments"
    · have hstep : copyBase ((k₁, v₁) :: tl) r = copyBase tl r := by
        simp [copyBase, h]
      rw [hstep, ih _ hnd.2]
      by_cases hk : k = "environments"
      · simp [hk]
      · have : ¬ k₁ = k := fun e => hk (e ▸ h)
        simp [hk, GoMap.get, this]
    · have hstep : copyBase ((k₁, v₁) :: tl) r = copyBase tl (GoMap.set r k₁ v₁) := by
        simp [copyBase, h]
      rw [hstep, ih _ hnd.2]
      by_cases hk : k = "environments"
      · have : k₁ ≠ k := fun e => h (e.trans hk)
        simp [hk, GoMap.get_set_ne _ _ _ _ (hk ▸ this)]
      · by_cases h₁ : k₁ = k
        · subst h₁
          have hnone : GoMap.get tl k₁ = none := (GoMap.get_eq_none_iff tl k₁).2 hnd.1
          simp [hk, hnone, GoMap.get, GoMap.get_set_self]
        · simp [hk, GoMap.get, h₁, GoMap.get_set_ne _ _ _ _ h₁]

theorem wf_overlay (envConfig r : GoMap) (hr : GoMap.WF r) :
    GoMap.WF (overlay envConfig r) := by
  induction envConfig generalizing r with
  | nil => simpa [overlay] using hr
  | cons hd tl ih => exact ih _ (GoMap.wf_set r hd.1 hd.2 hr)

theorem wf_copyBase (base r : GoMap) (hr : GoMap.WF r) :
    GoMap.WF (copyBase base r) := by
  induction base generalizing r with
  | nil => simpa [copyBase] using hr
  | cons hd tl ih =>
    by_cases h : hd.1 = "environments"
    · have hstep : copyBase (hd :: tl) r = copyBase tl r := by simp [copyBase, h]
      rw [hstep]; exact ih _ hr
    · have hstep : copyBase (hd :: tl) r = copyBase tl (GoMap.set r hd.1 hd.2) := by
        simp [copyBase, h]
      rw [hstep]; exact ih _ (GoMap.wf_set r hd.1 hd.2 hr)

/-- Success of `GetEnvironmentConfig` exposes the two mappings it resolved and
the value it built from them. -/
theorem GetEnvironmentConfig_ok_iff (envName : String) (base result : GoMap) :
    GetEnvironmentConfig envName base = .ok result ↔
      ∃ environments envConfig,
        GoMap.get base "environments" = some (.map environments) ∧
        GoMap.get environments envName = some (.map envConfig) ∧
        result = overlay envConfig (copyBase base []) := by
  unfold GetEnvironmentConfig
  constructor
  · intro h
    cases h₁ : GoMap.get base "environments" with
    | none => simp [h₁, asMap] at h
    | some x =>
      cases x with
      | map environments =>
        cases h₂ : GoMap.get environments envName with
        | none => simp [h₁, h₂, asMap] at h
        | some y =>
          cases y with
          | map envConfig =>
            simp only [h₁, h₂, asMap, Except.ok.injEq] at h
            exact ⟨environments, envConfig, rfl, h₂, h.symm⟩
          | _ => simp [h₁, h₂, asMap] at h
      | _ => simp [h₁, asMap] at h
  · rintro ⟨environments, envConfig, h₁, h₂, rfl⟩
    simp [h₁, h₂, asMap]

/-! ## Configuration resolution: the claims -/

/-- C1, as stated, fails: an override mapping that has an `environments` key of
its own puts that key into the resolved map. -/
theorem resolve_keeps_override_environments_key :
    GetEnvironmentConfig "prod" shadowedBase =
        .ok [("type", .str "docker"), ("environments", .str "shadow")] ∧
      GoMap.get [("type", .str "docker"), ("environments", .str "shadow")] "environments" =
        some (.str "shadow") :=
  ⟨rfl, rfl⟩

/-- C1, amended: when `GetEnvironmentConfig` succeeds, the `environments` key of
the base is never copied, so the result has an `environments` key exactly when
the resolved override mapping has one. -/
theorem resolve_environments_key_iff (envName : String) (base result : GoMap)
    (hr : GetEnvironmentConfig envName base = .ok result) :
    ∃ environments envConfig,
      GoMap.get base "environments" = some (.map environments) ∧
      GoMap.get environments envName = some (.map envConfig) ∧
      ("environments" ∈ GoMap.keys result ↔ "environments" ∈ GoMap.keys envConfig) := by
  obtain ⟨environments, envConfig, h₁, h₂, rfl⟩ :=
    (GetEnvironmentConfig_ok_iff envName base result).1 hr
  refine ⟨environments, envConfig, h₁, h₂, ?_⟩
  rw [mem_keys_overlay, mem_keys_copyBase]
  simp [GoMap.keys]

/-- C1, amended, at `sampleBase` and `prod`. -/
theorem resolve_environments_key_iff_witness :
    GetEnvironmentConfig "prod" sampleBase = .ok sampleResolved ∧
      ∃ environments envConfig,
        GoMap.get sampleBase "environments" = some (.map environments) ∧
        GoMap.get environments "prod" = some (.map envConfig) ∧
        ("environments" ∈ GoMap.keys sampleResolved ↔
          "environments" ∈ GoMap.keys envConfig) :=
  ⟨rfl, resolve_environments_key_iff "prod" sampleBase sampleResolved rfl⟩

/-- C2: when `GetEnvironmentConfig` succeeds on well-formed maps, the result is
the base without `environments`, overwritten with the override mapping: its key
set is (keys base minus `environments`) union keys of the override; every key
of the override carries exactly the override value; every other key carries
the base value; and it agrees with the merge as the specification words it. -/
theorem resolve_is_right_biased_merge (envName : String)
    (base environments envMap result : GoMap)
    (hb : GoMap.WF base) (he : GoMap.WF envMap)
    (h₁ : GoMap.get base "environments" = some (.map environments))
    (h₂ : GoMap.get environments envName = some (.map envMap))
    (hr : GetEnvironmentConfig envName base = .ok result) :
    GoMap.WF result ∧
      (∀ k, k ∈ GoMap.keys result ↔
        (k ∈ GoMap.keys base ∧ k ≠ "environments") ∨ k ∈ GoMap.keys envMap) ∧
      (∀ k v, GoMap.get envMap k = some v → GoMap.get result k = some v) ∧
      (∀ k, k ∈ GoMap.keys result → k ∉ GoMap.keys envMap →
        GoMap.get result k = GoMap.get base k) ∧
      (∀ k, GoMap.get result k = mergeSpec base envMap k) := by
  obtain ⟨environments', envMap', h₁', h₂', rfl⟩ :=
    (GetEnvironmentConfig_ok_iff envName base result).1 hr
  have e₁ : environments' = environments := by
    have := h₁'.symm.trans h₁
    simpa using this
  subst e₁
  have e₂ : envMap' = envMap := by
    have := h₂'.symm.trans h₂
    simpa using this
  subst e₂
  have hget : ∀ k, GoMap.get (overlay envMap' (copyBase base [])) k =
      mergeSpec base envMap' k := by
    intro k
    rw [get_overlay _ _ _ he, get_copyBase _ _ _ hb]
    unfold mergeSpec
    cases hv : GoMap.get envMap' k with
    | some v => rfl
    | none =>
      by_cases hk : k = "environments"
      · simp [hk, GoMap.get]
      · cases hbk : GoMap.get base k <;> simp [hk, hbk, GoMap.get]
  have hkeys : ∀ k, k ∈ GoMap.keys (overlay envMap' (copyBase base [])) ↔
      (k ∈ GoMap.keys base ∧ k ≠ "environments") ∨ k ∈ GoMap.keys envMap' := by
    intro k
    rw [mem_keys_overlay, mem_keys_copyBase]
    simp [GoMap.keys]
    tauto
  refine ⟨wf_overlay _ _ (wf_copyBase _ _ (by simp [GoMap.WF, GoMap.keys])), hkeys, ?_, ?_, hget⟩
  · intro k v hv
    rw [hget, mergeSpec, hv]
  · intro k hk hne
    have hnone : GoMap.get envMap' k = none := (GoMap.get_eq_none_iff _ _).2 hne
    have hk' := (hkeys k).1 hk
    have hk2 : k ≠ "environments" := by
      rcases hk' with ⟨_, h⟩ | h
      · exact h
      · exact absurd h hne
    rw [hget, mergeSpec, hnone]
    simp [hk2]

/-- C2 at `sampleBase` and `prod`: the nested `build` mapping is replaced whole. -/
theorem resolve_is_right_biased_merge_witness :
    GetEnvironmentConfig "prod" sampleBase = .ok sampleResolved ∧
      GoMap.get sampleResolved "build" = some (.map [("target", .str "release")]) ∧
      (GoMap.WF sampleResolved ∧
        (∀ k, k ∈ GoMap.keys sampleResolved ↔
          (k ∈ GoMap.keys sampleBase ∧ k ≠ "environments") ∨ k ∈ GoMap.keys sampleProd) ∧
        (∀ k v, GoMap.get sampleProd k = some v → GoMap.get sampleResolved k = some v) ∧
        (∀ k, k ∈ GoMap.keys sampleResolved → k ∉ GoMap.keys sampleProd →
          GoMap.get sampleResolved k = GoMap.get sampleBase k) ∧
        (∀ k, GoMap.get sampleResolved k = mergeSpec sampleBase sampleProd k)) :=
  ⟨rfl, rfl,
    resolve_is_right_biased_merge "prod" sampleBase sampleEnvironments sampleProd
      sampleResolved (by decide) (by decide) rfl rfl rfl⟩

/-- The two error messages of `GetEnvironmentConfig` differ for every
environment name: they already differ in their first character. -/
theorem errNoEnvironments_ne (envName : String) :
    errNoEnvironments ≠ errEnvironmentNotFound envName := by
  intro h
  have hd := congrArg (fun e => e.Message.data.head?) h
  simp [errNoEnvironments, errEnvironmentNotFound, String.data_append] at hd

/-- C3: `GetEnvironmentConfig` returns the "no environments" error whenever the
base has no `environments` key or the key holds no mapping, returns the
"environment not found" error whenever `environments` is a mapping without
`envName`, and the two errors are different. -/
theorem resolve_errors (envName : String) (base : GoMap) :
    ((∀ m, GoMap.get base "environments" ≠ some (.map m)) →
        GetEnvironmentConfig envName base = .error errNoEnvironments) ∧
      (∀ environments, GoMap.get base "environments" = some (.map environments) →
        GoMap.get environments envName = none →
        GetEnvironmentConfig envName base = .error (errEnvironmentNotFound envName)) ∧
      errNoEnvironments ≠ errEnvironmentNotFound envName := by
  refine ⟨?_, ?_, errNoEnvironments_ne envName⟩
  · intro h
    unfold GetEnvironmentConfig
    cases h₁ : GoMap.get base "environments" with
    | none => simp [asMap]
    | some x =>
      cases x with
      | map m => exact absurd h₁ (h m)
      | _ => simp [asMap]
  · intro environments h₁ h₂
    simp [GetEnvironmentConfig, h₁, h₂, asMap]

/-- C3 on three descriptors: no `environments` key, a scalar under
`environments`, and an `environments` mapping without `staging`. -/
theorem resolve_errors_witness :
    GetEnvironmentConfig "prod" [("type", .str "docker")] = .error errNoEnvironments ∧
      GetEnvironmentConfig "prod" [("environments", .str "prod")] =
        .error errNoEnvironments ∧
      GetEnvironmentConfig "staging" sampleBase =
        .error (errEnvironmentNotFound "staging") :=
  ⟨(resolve_errors "prod" [("type", .str "docker")]).1
      (fun m h => by simp [GoMap.get] at h),
    (resolve_errors "prod" [("environments", .str "prod")]).1
      (fun m h => by simp [GoMap.get] at h),
    (resolve_errors "staging" sampleBase).2.1 sampleEnvironments rfl rfl⟩

/-- C4, as stated, fails: `prod` is a key of the `environments` mapping, yet its
value is no mapping and resolution reports the environment as not found. -/
theorem resolve_fails_on_non_mapping_environment :
    GoMap.get nullEnvBase "environments" =
        some (.map [("dev", .map [("port", .int 8080)]), ("prod", .null)]) ∧
      "prod" ∈ GoMap.keys [("dev", Value.map [("port", .int 8080)]), ("prod", .null)] ∧
      GetEnvironmentConfig "prod" nullEnvBase = .error (errEnvironmentNotFound "prod") :=
  ⟨rfl, by decide, rfl⟩

/-- C4, amended: `GetEnvironmentConfig` succeeds exactly when `environments` is
a mapping and the value stored in it under `envName` is itself a mapping; in
every other case it returns one of its two errors. -/
theorem resolve_succeeds_iff (envName : String) (base : GoMap) :
    ((∃ result, GetEnvironmentConfig envName base = .ok result) ↔
        ∃ environments envConfig,
          GoMap.get base "environments" = some (.map environments) ∧
          GoMap.get environments envName = some (.map envConfig)) ∧
      ((∃ result, GetEnvironmentConfig envName base = .ok result) ∨
        GetEnvironmentConfig envName base = .error errNoEnvironments ∨
        GetEnvironmentConfig envName base = .error (errEnvironmentNotFound envName)) := by
  constructor
  · constructor
    · rintro ⟨result, hr⟩
      obtain ⟨environments, envConfig, h₁, h₂, _⟩ :=
        (GetEnvironmentConfig_ok_iff envName base result).1 hr
      exact ⟨environments, envConfig, h₁, h₂⟩
    · rintro ⟨environments, envConfig, h₁, h₂⟩
      exact ⟨_, (GetEnvironmentConfig_ok_iff envName base _).2
        ⟨environments, envConfig, h₁, h₂, rfl⟩⟩
  · unfold GetEnvironmentConfig
    cases h₁ : asMap (GoMap.get base "environments") with
    | none => simp
    | some environments =>
      cases h₂ : asMap (GoMap.get environments envName) with
      | none => simp [h₂]
      | some envConfig => simp [h₂]

/-! ## Health verification: the loop of `Check` -/

theorem probeCount_append (t₁ t₂ : List Event) :
    probeCount (t₁ ++ t₂) = probeCount t₁ + probeCount t₂ := by
  induction t₁ with
  | nil => simp [probeCount]
  | cons e tl ih => cases e <;> simp +arith [probeCount, ih]

theorem sleepCount_append (t₁ t₂ : List Event) :
    sleepCount (t₁ ++ t₂) = sleepCount t₁ + sleepCount t₂ := by
  induction t₁ with
  | nil => simp [sleepCount]
  | cons e tl ih => cases e <;> simp +arith [sleepCount, ih]

theorem elapsed_append (took : Nat → Int) (t₁ t₂ : List Event) :
    elapsed took (t₁ ++ t₂) = elapsed took t₁ + elapsed took t₂ := by
  induction t₁ with
  | nil => simp [elapsed]
  | cons e tl ih => cases e <;> simp [elapsed, ih] <;> ring

theorem probeCount_failedAttempts (interval : Int) (a n : Nat) :
    probeCount (failedAttempts interval a n) = n := by
  induction n generalizing a with
  | zero => simp [failedAttempts, probeCount]
  | succ n ih => simp [failedAttempts, probeCount, ih]

theorem sleepCount_failedAttempts (interval : Int) (a n : Nat) :
    sleepCount (failedAttempts interval a n) = n := by
  induction n generalizing a with
  | zero => simp [failedAttempts, sleepCount]
  | succ n ih => simp [failedAttempts, sleepCount, ih]

theorem elapsed_failedAttempts_le (took : Nat → Int) (interval timeout : Int)
    (hb : ∀ j, took j ≤ timeout) (a n : Nat) :
    elapsed took (failedAttempts interval a n) ≤ n * max interval 0 + n * timeout := by
  induction n generalizing a with
  | zero => simp [failedAttempts, elapsed]
  | succ n ih =>
    have h₁ := ih (a + 1)
    have h₂ := hb a
    simp only [failedAttempts, elapsed]
    push_cast
    linarith

theorem clientGet_time_le (timeout : Int) (answer : Answer) (ht : 0 < timeout) :
    (clientGet timeout answer).2 ≤ timeout := by
  unfold clientGet
  by_cases h : timeout < (answer.after : Int)
  · simp [ht, h]
  · simp only [ht, h, and_false, if_false]
    exact not_lt.1 h

theorem clientGet_outcome (timeout : Int) (answer : Answer) :
    (clientGet timeout answer).1 =
      if 0 < timeout ∧ timeout < (answer.after : Int) then .transportError
      else answer.result := by
  unfold clientGet
  split <;> rfl

theorem probeOutcome_eq (h : HealthChecker) (server : Nat → Answer) (attempt : Nat) :
    probeOutcome h server attempt = (clientGet h.Timeout (server attempt)).1 :=
  rfl

/-- Every sequence of probe outcomes is what some server gives: one that
answers at once is never cut off by the time limit. -/
theorem probeOutcome_immediate (h : HealthChecker) (get : Nat → ProbeResult) :
    probeOutcome h (fun a => ⟨get a, 0⟩) = get := by
  funext a
  simp only [probeOutcome, clientGet_outcome]
  have : ¬ (0 < h.Timeout ∧ h.Timeout < ((0 : Nat) : Int)) := by
    rintro ⟨h₁, h₂⟩
    have : ((0 : Nat) : Int) = 0 := rfl
    omega
  simp only [this, if_false]

theorem checkFrom_failed_step (h : HealthChecker) (get : Nat → ProbeResult)
    (a : Nat) (rest : List Nat) (tr : List Event)
    (hf : get a ≠ .status h.ExpectedStatus) :
    checkFrom h get (a :: rest) tr =
      checkFrom h get rest (sleepIfMore h a (tr ++ [Event.probe a])) := by
  cases hg : get a with
  | transportError => simp [checkFrom, hg]
  | status code =>
    have hc : code ≠ h.ExpectedStatus := fun e => hf (by rw [hg, e])
    simp [checkFrom, hg, hc]

theorem checkFrom_first_success (h : HealthChecker) (get : Nat → ProbeResult) :
    ∀ (i a n : Nat) (tr : List Event), ((a + n : Nat) : Int) = h.Retries + 1 → i < n →
      (∀ j, j < i → get (a + j) ≠ .status h.ExpectedStatus) →
      get (a + i) = .status h.ExpectedStatus →
      checkFrom h get (List.range' a n) tr =
        (true, tr ++ failedAttempts h.Interval a i ++ [Event.probe (a + i)]) := by
  intro i
  induction i with
  | zero =>
    intro a n tr _ hin _ hok
    obtain ⟨m, rfl⟩ : ∃ m, n = m + 1 := ⟨n - 1, by omega⟩
    have hok' : get a = .status h.ExpectedStatus := by simpa using hok
    simp [List.range'_succ, checkFrom, hok', failedAttempts]
  | succ i ih =>
    intro a n tr han hin hfail hok
    obtain ⟨m, rfl⟩ : ∃ m, n = m + 1 := ⟨n - 1, by omega⟩
    have hfa : get a ≠ .status h.ExpectedStatus := by simpa using hfail 0 (by omega)
    have hlt : (a : Int) < h.Retries := by
      have : ((a + (m + 1) : Nat) : Int) = (a : Int) + m + 1 := by push_cast; ring
      have hm : (1 : Int) ≤ m := by exact_mod_cast (show 1 ≤ m by omega)
      linarith
    rw [List.range'_succ, checkFrom_failed_step h get a _ tr hfa]
    have hs : sleepIfMore h a (tr ++ [Event.probe a]) =
        tr ++ [Event.probe a] ++ [Event.sleep h.Interval] := by
      simp [sleepIfMore, hlt]
    rw [hs, ih (a + 1) m _ (by rw [← han]; push_cast; ring) (by omega)
      (fun j hj => by have := hfail (j + 1) (by omega); rwa [show a + (j + 1) = a + 1 + j by omega] at this)
      (by rwa [show a + (i + 1) = a + 1 + i by omega] at hok)]
    simp [failedAttempts, show a + 1 + i = a + (i + 1) by omega]

theorem checkFrom_all_failed (h : HealthChecker) (get : Nat → ProbeResult) :
    ∀ (n a : Nat) (tr : List Event), ((a + (n + 1) : Nat) : Int) = h.Retries + 1 →
      (∀ j, j < n + 1 → get (a + j) ≠ .status h.ExpectedStatus) →
      checkFrom h get (List.range' a (n + 1)) tr =
        (false, tr ++ failedAttempts h.Interval a n ++ [Event.probe (a + n)]) := by
  intro n
  induction n with
  | zero =>
    intro a tr han hfail
    have hfa : get a ≠ .status h.ExpectedStatus := by simpa using hfail 0 (by omega)
    have hge : ¬ ((a : Int) < h.Retries) := by
      have : ((a + (0 + 1) : Nat) : Int) = (a : Int) + 1 := by push_cast; ring
      linarith
    rw [List.range'_succ, checkFrom_failed_step h get a _ tr hfa]
    simp [List.range'_zero, checkFrom, sleepIfMore, hge, failedAttempts]
  | succ n ih =>
    intro a tr han hfail
    have hfa : get a ≠ .status h.ExpectedStatus := by simpa using hfail 0 (by omega)
    have hlt : (a : Int) < h.Retries := by
      have : ((a + (n + 1 + 1) : Nat) : Int) = (a : Int) + n + 2 := by push_cast; ring
      have hn : (0 : Int) ≤ n := Int.natCast_nonneg n
      linarith
    rw [List.range'_succ, checkFrom_failed_step h get a _ tr hfa]
    have hs : sleepIfMore h a (tr ++ [Event.probe a]) =
        tr ++ [Event.probe a] ++ [Event.sleep h.Interval] := by
      simp [sleepIfMore, hlt]
    rw [hs, ih (a + 1) _ (by rw [← han]; push_cast; ring)
      (fun j hj => by have := hfail (j + 1) (by omega); rwa [show a + (j + 1) = a + 1 + j by omega] at this)]
    simp [failedAttempts, show a + 1 + n = a + (n + 1) by omega]

/-- C5: with `Retries = N` and the first successful attempt at `k ≤ N`, `Check`
returns true after exactly `k` probes and `k - 1` sleeps, the last event being
the successful probe of attempt `k`. -/
theorem check_stops_at_first_success (h : HealthChecker) (get : Nat → ProbeResult)
    (N k : Nat) (hN : h.Retries = N) (hk : 1 ≤ k) (hkN : k ≤ N)
    (hfail : ∀ j, 1 ≤ j → j < k → get j ≠ .status h.ExpectedStatus)
    (hok : get k = .status h.ExpectedStatus) :
    Check h get = (true, failedAttempts h.Interval 1 (k - 1) ++ [Event.probe k]) ∧
      probeCount (Check h get).2 = k ∧
      sleepCount (Check h get).2 = k - 1 := by
  have hrun : Check h get =
      (true, failedAttempts h.Interval 1 (k - 1) ++ [Event.probe k]) := by
    unfold Check
    have hto : h.Retries.toNat = N := by rw [hN]; exact Int.toNat_natCast N
    rw [hto]
    have := checkFrom_first_success h get (k - 1) 1 N []
      (by rw [hN]; push_cast; ring) (by omega)
      (fun j hj => hfail (1 + j) (by omega) (by omega))
      (by rwa [show 1 + (k - 1) = k by omega])
    rw [this, show 1 + (k - 1) = k by omega]
    simp
  refine ⟨hrun, ?_, ?_⟩
  · rw [hrun]
    simp only [probeCount_append, probeCount_failedAttempts, probeCount]
    omega
  · rw [hrun]
    simp only [sleepCount_append, sleepCount_failedAttempts, sleepCount]
    omega

/-- C5 with three retries, transport errors on attempts 1 and 2 and status 200
on attempt 3: true, three probes, exactly two sleeps. -/
theorem check_stops_at_first_success_witness :
    Check sampleChecker flakyEndpoint =
        (true, [Event.probe 1, Event.sleep (5 * Second), Event.probe 2,
                Event.sleep (5 * Second), Event.probe 3]) ∧
      probeCount (Check sampleChecker flakyEndpoint).2 = 3 ∧
      sleepCount (Check sampleChecker flakyEndpoint).2 = 3 - 1 :=
  check_stops_at_first_success sampleChecker flakyEndpoint 3 3 rfl (by decide) (by decide)
    (fun j h₁ h₂ => by
      have hj : j = 1 ∨ j = 2 := by omega
      rcases hj with rfl | rfl <;> simp [flakyEndpoint])
    rfl

/-- C6, as stated, fails. With `timeout: 0` the client sets no limit: three
probes answered 503 after one second each and two sleeps of five seconds take
13 s, more than `(3 - 1) * Interval + 3 * Timeout` = 10 s. With `interval: -5`
the sleeps return at once: three probes cut off after 30 s each take 90 s,
more than `(3 - 1) * Interval + 3 * Timeout` = 80 s. -/
theorem check_time_exceeds_claimed_bound :
    FromConfig zeroTimeoutConfig = .ok zeroTimeoutChecker ∧
      Check zeroTimeoutChecker (probeOutcome zeroTimeoutChecker slowDownServer) =
        (false, [Event.probe 1, Event.sleep (5 * Second), Event.probe 2,
                 Event.sleep (5 * Second), Event.probe 3]) ∧
      elapsed (probeTime zeroTimeoutChecker slowDownServer)
          (Check zeroTimeoutChecker (probeOutcome zeroTimeoutChecker slowDownServer)).2 =
        13 * Second ∧
      (3 - 1) * zeroTimeoutChecker.Interval + 3 * zeroTimeoutChecker.Timeout = 10 * Second ∧
      FromConfig negativeIntervalConfig = .ok negativeIntervalChecker ∧
      Check negativeIntervalChecker (probeOutcome negativeIntervalChecker silentServer) =
        (false, [Event.probe 1, Event.sleep (-5 * Second), Event.probe 2,
                 Event.sleep (-5 * Second), Event.probe 3]) ∧
      elapsed (probeTime negativeIntervalChecker silentServer)
          (Check negativeIntervalChecker
            (probeOutcome negativeIntervalChecker silentServer)).2 =
        90 * Second ∧
      (3 - 1) * negativeIntervalChecker.Interval + 3 * negativeIntervalChecker.Timeout =
        80 * Second :=
  ⟨rfl, rfl, rfl, rfl, rfl, rfl, rfl, rfl⟩

/-- C6, amended: with `Retries = N ≥ 1` and every attempt failing (an error of
the client, which covers the time limit, or a status other than the expected
one), `Check` returns false after exactly `N` probes and `N - 1` sleeps. When
`Timeout` is positive, the time spent is at most
`(N - 1) * max Interval 0 + N * Timeout`, which is
`(N - 1) * Interval + N * Timeout` when `Interval` is not negative. -/
theorem check_fails_after_all_retries (h : HealthChecker) (server : Nat → Answer)
    (N : Nat) (hN : h.Retries = N) (hN1 : 1 ≤ N)
    (hfail : ∀ j, 1 ≤ j → j ≤ N → probeOutcome h server j ≠ .status h.ExpectedStatus) :
    Check h (probeOutcome h server) =
        (false, failedAttempts h.Interval 1 (N - 1) ++ [Event.probe N]) ∧
      probeCount (Check h (probeOutcome h server)).2 = N ∧
      sleepCount (Check h (probeOutcome h server)).2 = N - 1 ∧
      (0 < h.Timeout →
        elapsed (probeTime h server) (Check h (probeOutcome h server)).2 ≤
          ((N : Int) - 1) * max h.Interval 0 + (N : Int) * h.Timeout) ∧
      (0 < h.Timeout → 0 ≤ h.Interval →
        elapsed (probeTime h server) (Check h (probeOutcome h server)).2 ≤
          ((N : Int) - 1) * h.Interval + (N : Int) * h.Timeout) := by
  have hrun : Check h (probeOutcome h server) =
      (false, failedAttempts h.Interval 1 (N - 1) ++ [Event.probe N]) := by
    unfold Check
    have hto : h.Retries.toNat = N := by rw [hN]; exact Int.toNat_natCast N
    rw [hto]
    obtain ⟨n, rfl⟩ : ∃ n, N = n + 1 := ⟨N - 1, by omega⟩
    have := checkFrom_all_failed h (probeOutcome h server) n 1 []
      (by rw [hN]; push_cast; ring)
      (fun j hj => hfail (1 + j) (by omega) (by omega))
    rw [this, show 1 + n = n + 1 by omega]
    simp
  have hbound : 0 < h.Timeout →
      elapsed (probeTime h server) (Check h (probeOutcome h server)).2 ≤
        ((N : Int) - 1) * max h.Interval 0 + (N : Int) * h.Timeout := by
    intro ht
    have hb : ∀ j, probeTime h server j ≤ h.Timeout :=
      fun j => clientGet_time_le h.Timeout (server j) ht
    rw [hrun, elapsed_append]
    have h₁ := elapsed_failedAttempts_le (probeTime h server) h.Interval h.Timeout hb 1 (N - 1)
    have h₂ := hb N
    have hc : ((N - 1 : Nat) : Int) = (N : Int) - 1 := by
      rw [Nat.cast_sub hN1]; simp
    rw [hc] at h₁
    simp only [elapsed]
    linarith
  refine ⟨hrun, ?_, ?_, hbound, ?_⟩
  · rw [hrun]
    simp only [probeCount_append, probeCount_failedAttempts, probeCount]
    omega
  · rw [hrun]
    simp only [sleepCount_append, sleepCount_failedAttempts, sleepCount]
    omega
  · intro ht hi
    have := hbound ht
    rwa [max_eq_left hi] at this

/-- C6, amended, with three retries against a server that answers 503 after one
second: false, three probes, two sleeps, and 13 s spent, within the 100 s of
the bound. -/
theorem check_fails_after_all_retries_witness :
    Check sampleChecker (probeOutcome sampleChecker slowDownServer) =
        (false, [Event.probe 1, Event.sleep (5 * Second), Event.probe 2,
                 Event.sleep (5 * Second), Event.probe 3]) ∧
      probeCount (Check sampleChecker (probeOutcome sampleChecker slowDownServer)).2 = 3 ∧
      sleepCount (Check sampleChecker (probeOutcome sampleChecker slowDownServer)).2 = 3 - 1 ∧
      elapsed (probeTime sampleChecker slowDownServer)
          (Check sampleChecker (probeOutcome sampleChecker slowDownServer)).2 ≤
        (((3 : Nat) : Int) - 1) * sampleChecker.Interval +
          ((3 : Nat) : Int) * sampleChecker.Timeout :=
  have w := check_fails_after_all_retries sampleChecker slowDownServer 3 rfl (by decide)
    (fun j _ _ => by
      rw [probeOutcome_eq, show slowDownServer j = slowDownServer 0 from rfl]
      decide)
  ⟨w.1, w.2.1, w.2.2.1, w.2.2.2.2 (by decide) (by decide)⟩

/-! ## Health verification: `FromConfig` -/

theorem asInt_eq_some_iff (x : Option Value) (i : Int) :
    asInt x = some i ↔ x = some (.int i) := by
  cases x with
  | none => simp [asInt]
  | some v => cases v <;> simp [asInt]

theorem asInt_eq_none_iff (x : Option Value) :
    asInt x = none ↔ ∀ i, x ≠ some (.int i) := by
  cases x with
  | none => simp [asInt]
  | some v => cases v <;> simp [asInt]

theorem asStr_eq_some_iff (x : Option Value) (s : String) :
    asStr x = some s ↔ x = some (.str s) := by
  cases x with
  | none => simp [asStr]
  | some v => cases v <;> simp [asStr]

theorem asStr_eq_none_iff (x : Option Value) :
    asStr x = none ↔ ∀ s, x ≠ some (.str s) := by
  cases x with
  | none => simp [asStr]
  | some v => cases v <;> simp [asStr]

theorem secondsToDuration_exact (t : Int) (h₁ : -9223372036 ≤ t) (h₂ : t ≤ 9223372036) :
    secondsToDuration t = t * 1000000000 := by
  unfold secondsToDuration wrapInt64 Second
  omega

theorem FromConfig_of_endpoint (config : GoMap) (e : String)
    (h : asStr (GoMap.get config "endpoint") = some e) :
    FromConfig config = .ok (NewHealthChecker e
      (match asInt (GoMap.get config "timeout") with
        | some t => secondsToDuration t
        | none => 30 * Second)
      (match asInt (GoMap.get config "interval") with
        | some i => secondsToDuration i
        | none => 5 * Second)
      (match asInt (GoMap.get config "retries") with
        | some r => r
        | none => 3)
      (match asInt (GoMap.get config "expected_status") with
        | some s => s
        | none => 200)) := by
  simp only [FromConfig, h]

/-- C8: `FromConfig` fails exactly when `endpoint` holds no string; otherwise it
returns a checker with that endpoint whose timeout, interval, retries and
expected status are the configured integers where the key holds an integer
(the two durations converted from seconds, exactly so within the range of a
64-bit nanosecond count) and the defaults 30 s, 5 s, 3 and 200 elsewhere. -/
theorem fromConfig_fields (config : GoMap) :
    ((∃ msg, FromConfig config = .error msg) ↔
        ∀ e, GoMap.get config "endpoint" ≠ some (.str e)) ∧
      (∀ e, GoMap.get config "endpoint" = some (.str e) →
        ∃ c, FromConfig config = .ok c ∧ c.Endpoint = e ∧
          (∀ t, GoMap.get config "timeout" = some (.int t) →
            c.Timeout = secondsToDuration t ∧
            (-9223372036 ≤ t → t ≤ 9223372036 → c.Timeout = t * 1000000000)) ∧
          ((∀ t, GoMap.get config "timeout" ≠ some (.int t)) →
            c.Timeout = 30 * 1000000000) ∧
          (∀ i, GoMap.get config "interval" = some (.int i) →
            c.Interval = secondsToDuration i ∧
            (-9223372036 ≤ i → i ≤ 9223372036 → c.Interval = i * 1000000000)) ∧
          ((∀ i, GoMap.get config "interval" ≠ some (.int i)) →
            c.Interval = 5 * 1000000000) ∧
          (∀ r, GoMap.get config "retries" = some (.int r) → c.Retries = r) ∧
          ((∀ r, GoMap.get config "retries" ≠ some (.int r)) → c.Retries = 3) ∧
          (∀ s, GoMap.get config "expected_status" = some (.int s) →
            c.ExpectedStatus = s) ∧
          ((∀ s, GoMap.get config "expected_status" ≠ some (.int s)) →
            c.ExpectedStatus = 200)) := by
  constructor
  · unfold FromConfig
    cases he : asStr (GoMap.get config "endpoint") with
    | none =>
      have := (asStr_eq_none_iff _).1 he
      simp [this]
    | some e =>
      have := (asStr_eq_some_iff _ _).1 he
      simp [this]
  · intro e he
    have hs := (asStr_eq_some_iff _ _).2 he
    refine ⟨_, FromConfig_of_endpoint config e hs, rfl, ?_, ?_, ?_, ?_, ?_, ?_, ?_, ?_⟩
    · intro t ht
      have ht' := (asInt_eq_some_iff _ _).2 ht
      refine ⟨by simp [NewHealthChecker, ht'], fun h₁ h₂ => ?_⟩
      simp [NewHealthChecker, ht', secondsToDuration_exact t h₁ h₂]
    · intro ht
      simp [NewHealthChecker, (asInt_eq_none_iff _).2 ht, Second]
    · intro i hi
      have hi' := (asInt_eq_some_iff _ _).2 hi
      refine ⟨by simp [NewHealthChecker, hi'], fun h₁ h₂ => ?_⟩
      simp [NewHealthChecker, hi', secondsToDuration_exact i h₁ h₂]
    · intro hi
      simp [NewHealthChecker, (asInt_eq_none_iff _).2 hi, Second]
    · intro r hr
      simp [NewHealthChecker, (asInt_eq_some_iff _ _).2 hr]
    · intro hr
      simp [NewHealthChecker, (asInt_eq_none_iff _).2 hr]
    · intro r hr
      simp [NewHealthChecker, (asInt_eq_some_iff _ _).2 hr]
    · intro hr
      simp [NewHealthChecker, (asInt_eq_none_iff _).2 hr]

/-- C8 on a section that sets `timeout` and `retries`, gives `interval` as a
string and leaves `expected_status` out. -/
theorem fromConfig_fields_witness :
    FromConfig sampleHealthConfig =
        .ok { Endpoint := "http://localhost:8080/health", Timeout := 10 * 1000000000,
              Interval := 5 * 1000000000, Retries := 5, ExpectedStatus := 200 } ∧
      ∃ c, FromConfig sampleHealthConfig = .ok c ∧
        c.Endpoint = "http://localhost:8080/health" ∧
        c.Timeout = 10 * 1000000000 ∧ c.Interval = 5 * 1000000000 ∧
        c.Retries = 5 ∧ c.ExpectedStatus = 200 := by
  refine ⟨rfl, ?_⟩
  obtain ⟨c, hc, he, ht, _, _, hi, hr, _, _, hs⟩ :=
    (fromConfig_fields sampleHealthConfig).2 "http://localhost:8080/health" rfl
  exact ⟨c, hc, he, (ht 10 rfl).2 (by decide) (by decide),
    hi (fun i h => by simp [sampleHealthConfig, GoMap.get] at h), hr 5 rfl,
    hs (fun i h => by simp [sampleHealthConfig, GoMap.get] at h)⟩

theorem probeCount_checkFrom_ge (h : HealthChecker) (get : Nat → ProbeResult) :
    ∀ (l : List Nat) (tr : List Event), probeCount tr ≤ probeCount (checkFrom h get l tr).2 := by
  intro l
  induction l with
  | nil => intro tr; simp [checkFrom]
  | cons a rest ih =>
    intro tr
    have hstep : probeCount tr + 1 ≤
        probeCount (sleepIfMore h a (tr ++ [Event.probe a])) := by
      unfold sleepIfMore
      split <;> simp [probeCount_append, probeCount]
    have hrec := ih (sleepIfMore h a (tr ++ [Event.probe a]))
    cases hg : get a with
    | transportError =>
      simp only [checkFrom, hg]
      omega
    | status code =>
      by_cases hc : code = h.ExpectedStatus
      · simp [checkFrom, hg, hc, probeCount_append, probeCount]
      · simp only [checkFrom, hg, hc, if_false]
        omega

/-- C9, as stated, fails: a section with `retries: 0` yields a checker with
`Retries = 0`, whose `Check` returns false without a single probe, even against
an endpoint that always answers the expected status. -/
theorem fromConfig_accepts_zero_retries :
    FromConfig zeroRetriesConfig =
        .ok { Endpoint := "http://localhost:8080/health", Timeout := 30 * Second,
              Interval := 5 * Second, Retries := 0, ExpectedStatus := 200 } ∧
      Check { Endpoint := "http://localhost:8080/health", Timeout := 30 * Second,
              Interval := 5 * Second, Retries := 0, ExpectedStatus := 200 }
          healthyEndpoint = (false, []) :=
  ⟨rfl, rfl⟩

/-- C9, amended: `FromConfig` stores the configured `retries` integer as it is
(3 when the key holds no integer), so the checker has `Retries ≥ 1` exactly
when the section sets no integer `retries` below 1; `Check` performs at least
one probe when `Retries ≥ 1`, and no probe at all, returning false, otherwise. -/
theorem fromConfig_retries (config : GoMap) (c : HealthChecker)
    (hc : FromConfig config = .ok c) :
    (1 ≤ c.Retries ↔ ∀ r, GoMap.get config "retries" = some (.int r) → 1 ≤ r) ∧
      (∀ get, 1 ≤ c.Retries → 1 ≤ probeCount (Check c get).2) ∧
      (∀ get, c.Retries < 1 → Check c get = (false, [])) := by
  refine ⟨?_, ?_, ?_⟩
  · cases he : asStr (GoMap.get config "endpoint") with
    | none => simp [FromConfig, he] at hc
    | some e =>
      rw [FromConfig_of_endpoint config e he] at hc
      have hc' := (Except.ok.inj hc).symm
      cases hr : asInt (GoMap.get config "retries") with
      | none =>
        have hno := (asInt_eq_none_iff _).1 hr
        have : c.Retries = 3 := by rw [hc']; simp [NewHealthChecker, hr]
        rw [this]
        exact ⟨fun _ r h => absurd h (hno r), fun _ => by decide⟩
      | some r =>
        have hyes := (asInt_eq_some_iff _ _).1 hr
        have : c.Retries = r := by rw [hc']; simp [NewHealthChecker, hr]
        rw [this]
        constructor
        · intro h r' hr'
          have : r' = r := by
            have := hr'.symm.trans hyes
            simpa using this
          exact this ▸ h
        · intro h
          exact h r hyes
  · intro get h1
    unfold Check
    obtain ⟨n, hn⟩ : ∃ n, c.Retries.toNat = n + 1 := ⟨c.Retries.toNat - 1, by omega⟩
    rw [hn, List.range'_succ]
    have hrec := probeCount_checkFrom_ge c get (List.range' (1 + 1) n)
      (sleepIfMore c 1 ([] ++ [Event.probe 1]))
    have hstep : 1 ≤ probeCount (sleepIfMore c 1 ([] ++ [Event.probe 1])) := by
      unfold sleepIfMore
      split <;> simp [probeCount_append, probeCount]
    cases hg : get 1 with
    | transportError =>
      simp only [checkFrom, hg]
      omega
    | status code =>
      by_cases hcode : code = c.ExpectedStatus
      · simp [checkFrom, hg, hcode, probeCount]
      · simp only [checkFrom, hg, hcode, if_false]
        omega
  · intro get h0
    unfold Check
    have : c.Retries.toNat = 0 := by omega
    rw [this]
    rfl

/-- C9, amended, on a section that sets `retries: 5`. -/
theorem fromConfig_retries_witness :
    (1 ≤ (5 : Int) ↔ ∀ r, GoMap.get sampleHealthConfig "retries" = some (.int r) → 1 ≤ r) ∧
      1 ≤ probeCount (Check (NewHealthChecker "http://localhost:8080/health"
        (secondsToDuration 10) (5 * Second) 5 200) downEndpoint).2 :=
  have w := fromConfig_retries sampleHealthConfig
    (NewHealthChecker "http://localhost:8080/health" (secondsToDuration 10) (5 * Second) 5 200)
    rfl
  ⟨w.1, w.2.1 downEndpoint (by decide)⟩

/-! ## History queries -/

/-- The order that `sortSlice timestampAfter` establishes between an element and
any later one: the later timestamp is not greater. -/
theorem timestampAfter_false_iff (a b : DeploymentRecord) :
    timestampAfter b a = false ↔ b.Timestamp ≤ a.Timestamp := by
  unfold timestampAfter
  rw [decide_eq_false_iff_not, String.le_iff_toList_le]
  exact not_lt

theorem sortSlice_timestamp_sorted (l : List DeploymentRecord) :
    (sortSlice timestampAfter l).Pairwise (fun a b => b.Timestamp ≤ a.Timestamp) := by
  have htotal : IsTotal DeploymentRecord (fun a b => timestampAfter b a = false) :=
    ⟨fun a b => by
      simp only [timestampAfter_false_iff]
      exact le_total b.Timestamp a.Timestamp⟩
  have htrans : IsTrans DeploymentRecord (fun a b => timestampAfter b a = false) :=
    ⟨fun a b c hab hbc => by
      simp only [timestampAfter_false_iff] at *
      exact le_trans hbc hab⟩
  have hs := List.sorted_insertionSort (fun a b => timestampAfter b a = false) l
  unfold sortSlice
  exact List.Pairwise.imp (fun {a b} h => (timestampAfter_false_iff a b).1 h) hs

theorem String.data_append_eq (a b : String) : (a ++ b).data = a.data ++ b.data := by
  cases a
  cases b
  rfl

theorem parseFrom_lits (prefixChars : List Char) (rest : List Char)
    (h : prefixChars.all
      (fun c => c != '*' && c != '?' && c != '[' && c != '\\') = true) :
    parseFrom .outside (prefixChars ++ rest) =
      (parseFrom .outside rest).map (fun terms => prefixChars.map PatternTerm.lit ++ terms) := by
  induction prefixChars with
  | nil =>
    show parseFrom .outside rest = _
    cases parseFrom .outside rest <;> rfl
  | cons c tl ih =>
    simp only [List.all_cons, Bool.and_eq_true, bne_iff_ne, ne_eq] at h
    obtain ⟨⟨⟨⟨h₁, h₂⟩, h₃⟩, h₄⟩, htl⟩ := h
    have hstep : patternStep .outside c = some (.outside, some (.lit c)) := by
      simp [patternStep, h₁, h₂, h₃, h₄]
    have hcons : parseFrom .outside (c :: (tl ++ rest)) =
        match parseFrom .outside (tl ++ rest) with
        | none => none
        | some terms => some (PatternTerm.lit c :: terms) := by
      simp only [parseFrom, hstep]
      cases parseFrom .outside (tl ++ rest) <;> rfl
    rw [List.cons_append, hcons, ih htl]
    cases parseFrom .outside rest <;> simp

/-- An `app` without pattern characters makes a well-formed pattern, whose
terms are the characters of `<app>_`, a `*` and the characters of `.json`. -/
theorem parsePattern_metaFree (app : String) (h : metaFree app = true) :
    parsePattern (app ++ "_*.json") =
      some (app.data.map PatternTerm.lit ++
        [.lit '_', .star, .lit '.', .lit 'j', .lit 's', .lit 'o', .lit 'n']) := by
  unfold parsePattern
  rw [String.data_append_eq, parseFrom_lits app.data _ h]
  rfl

theorem badPattern_metaFree (app : String) (h : metaFree app = true) :
    badPattern app = false := by
  simp [badPattern, parsePattern_metaFree app h]

theorem Glob_of_pattern (d : HistoryDir) (app : String) (hpat : badPattern app = false) :
    Glob d app = .ok (d.filter (fun f => globMatch app f.1)) := by
  unfold Glob globMatch
  unfold badPattern at hpat
  cases h : parsePattern (app ++ "_*.json") with
  | none => rw [h] at hpat; cases hpat
  | some terms => rfl

theorem Glob_of_badPattern (d : HistoryDir) (app : String) (hpat : badPattern app = true) :
    Glob d app = .error ErrBadPattern := by
  unfold Glob
  unfold badPattern at hpat
  cases h : parsePattern (app ++ "_*.json") with
  | none => rfl
  | some terms => rw [h] at hpat; cases hpat

theorem GetDeploymentHistory_eq_historyOf (d : HistoryDir) (app env : String) (limit : Int) :
    GetDeploymentHistory d app env limit =
      match Glob d app with
      | .error err => .error err
      | .ok found => .ok (historyOf found env limit) :=
  rfl

theorem GetDeploymentHistory_of_badPattern (d : HistoryDir) (app env : String) (limit : Int)
    (hpat : badPattern app = true) :
    GetDeploymentHistory d app env limit = .error ErrBadPattern := by
  rw [GetDeploymentHistory_eq_historyOf, Glob_of_badPattern d app hpat]

theorem GetDeploymentHistory_of_pattern (d : HistoryDir) (app env : String) (limit : Int)
    (hpat : badPattern app = false) :
    GetDeploymentHistory d app env limit =
      .ok (historyOf (d.filter (fun f => globMatch app f.1)) env limit) := by
  rw [GetDeploymentHistory_eq_historyOf, Glob_of_pattern d app hpat]

theorem GetDeploymentHistory_ok_iff (d : HistoryDir) (app env : String) (limit : Int) :
    (∃ records, GetDeploymentHistory d app env limit = .ok records) ↔
      badPattern app = false := by
  cases hpat : badPattern app with
  | false =>
    simp only [iff_true]
    exact ⟨_, GetDeploymentHistory_of_pattern d app env limit hpat⟩
  | true =>
    rw [GetDeploymentHistory_of_badPattern d app env limit hpat]
    simp

theorem historyOf_sorted (found : List (String × StoredFile)) (env : String) (limit : Int) :
    (historyOf found env limit).Pairwise (fun a b => b.Timestamp ≤ a.Timestamp) := by
  have hsorted := sortSlice_timestamp_sorted (collectRecords env found [])
  unfold historyOf
  simp only
  split
  · exact List.Pairwise.sublist (List.take_sublist limit.toNat _) hsorted
  · exact hsorted

/-- C10: for every history directory and every `(app, env, limit)`, in the
sequence that `GetDeploymentHistory` returns every record's timestamp is
lexically greater than or equal to that of every record after it; so it is for
whatever files `filepath.Glob` has found. The query returns a sequence for
every `app` without pattern characters; for an `app` without path separator
it returns one exactly when the pattern `<app>_*.json` is well formed. -/
theorem history_sorted_descending (d : HistoryDir) (app env : String) (limit : Int) :
    (∀ records, GetDeploymentHistory d app env limit = .ok records →
        ∀ (i j : Nat) (hij : i < j) (hj : j < records.length),
          (records.get ⟨j, hj⟩).Timestamp ≤ (records.get ⟨i, hij.trans hj⟩).Timestamp) ∧
      (∀ found (i j : Nat) (hij : i < j) (hj : j < (historyOf found env limit).length),
        ((historyOf found env limit).get ⟨j, hj⟩).Timestamp ≤
          ((historyOf found env limit).get ⟨i, hij.trans hj⟩).Timestamp) ∧
      (metaFree app = true → ∃ records, GetDeploymentHistory d app env limit = .ok records) ∧
      (noSeparator app = true →
        ((∃ records, GetDeploymentHistory d app env limit = .ok records) ↔
          badPattern app = false)) := by
  have hget : ∀ found (i j : Nat) (hij : i < j) (hj : j < (historyOf found env limit).length),
      ((historyOf found env limit).get ⟨j, hj⟩).Timestamp ≤
        ((historyOf found env limit).get ⟨i, hij.trans hj⟩).Timestamp :=
    fun found i j hij hj =>
      List.pairwise_iff_get.1 (historyOf_sorted found env limit) ⟨i, hij.trans hj⟩ ⟨j, hj⟩ hij
  refine ⟨?_, hget, ?_, fun _ => GetDeploymentHistory_ok_iff d app env limit⟩
  · intro records hrec i j hij hj
    rw [GetDeploymentHistory_eq_historyOf] at hrec
    cases hg : Glob d app with
    | error err => rw [hg] at hrec; cases hrec
    | ok found =>
      rw [hg] at hrec
      have : historyOf found env limit = records := by
        simpa using hrec
      subst this
      exact hget found i j hij hj
  · intro hmeta
    exact (GetDeploymentHistory_ok_iff d app env limit).2 (badPattern_metaFree app hmeta)

/-- C10 on `sampleHistory`: the three `prod` records of `svc` come back newest
first, whatever the listing order of their files. -/
theorem history_sorted_descending_witness :
    GetDeploymentHistory sampleHistory "svc" "prod" 0 =
        .ok [⟨"svc", "prod", "v3", "2024-01-03T10:00:00Z", "success", []⟩,
             ⟨"svc", "prod", "v2", "2024-01-02T10:00:00Z", "failed", []⟩,
             ⟨"svc", "prod", "v1", "2024-01-01T10:00:00Z", "success", []⟩] ∧
      (∃ records, GetDeploymentHistory sampleHistory "svc" "prod" 0 = .ok records) ∧
      ((∃ records, GetDeploymentHistory sampleHistory "svc" "prod" 0 = .ok records) ↔
        badPattern "svc" = false) ∧
      ∀ (i j : Nat) (hij : i < j)
        (hj : j < [(⟨"svc", "prod", "v3", "2024-01-03T10:00:00Z", "success", []⟩ :
                      DeploymentRecord),
                   ⟨"svc", "prod", "v2", "2024-01-02T10:00:00Z", "failed", []⟩,
                   ⟨"svc", "prod", "v1", "2024-01-01T10:00:00Z", "success", []⟩].length),
        (([(⟨"svc", "prod", "v3", "2024-01-03T10:00:00Z", "success", []⟩ :
              DeploymentRecord),
            ⟨"svc", "prod", "v2", "2024-01-02T10:00:00Z", "failed", []⟩,
            ⟨"svc", "prod", "v1", "2024-01-01T10:00:00Z", "success", []⟩].get
            ⟨j, hj⟩).Timestamp ≤
          ([(⟨"svc", "prod", "v3", "2024-01-03T10:00:00Z", "success", []⟩ :
              DeploymentRecord),
            ⟨"svc", "prod", "v2", "2024-01-02T10:00:00Z", "failed", []⟩,
            ⟨"svc", "prod", "v1", "2024-01-01T10:00:00Z", "success", []⟩].get
            ⟨i, hij.trans hj⟩).Timestamp) :=
  ⟨rfl,
    (history_sorted_descending sampleHistory "svc" "prod" 0).2.2.1 rfl,
    (history_sorted_descending sampleHistory "svc" "prod" 0).2.2.2 rfl,
    (history_sorted_descending sampleHistory "svc" "prod" 0).1 _ rfl⟩

/-! ## Health verification inside `Deploy` -/

theorem runHealthCheck_no_endpoint (endpoint : String → Nat → ProbeResult)
    (config healthConfig : GoMap)
    (hhc : GoMap.get config "health_check" = some (.map healthConfig))
    (hno : ∀ e, GoMap.get healthConfig "endpoint" ≠ some (.str e)) :
    runHealthCheck endpoint config = (false, []) := by
  have h₁ : asStr (GoMap.get healthConfig "endpoint") = none :=
    (asStr_eq_none_iff _).2 hno
  simp [runHealthCheck, hhc, asMap, FromConfig, h₁]

/-- The method `RecordDeployment` changes at most the history directory. -/
theorem RecordDeployment_frame (x : Outside) (w : World) (app env version : String)
    (config : GoMap) (status : String) :
    (RecordDeployment x w app env version config status).2.files = w.files ∧
      (RecordDeployment x w app env version config status).2.now = w.now ∧
      (RecordDeployment x w app env version config status).2.invoked = w.invoked ∧
      (RecordDeployment x w app env version config status).2.health = w.health := by
  unfold RecordDeployment
  simp only
  split
  · exact ⟨rfl, rfl, rfl, rfl⟩
  · split <;> exact ⟨rfl, rfl, rfl, rfl⟩

/-- C7, as stated, fails: the resolved configuration has a `health_check`
section without `endpoint`, the docker executor succeeds, yet `runHealthCheck`
returns false, `Deploy` returns an error and the one record written has status
`failed`. -/
theorem missing_endpoint_recorded_as_failed :
    GetEnvironmentConfig "prod" noEndpointBase = .ok noEndpointResolved ∧
      runHealthCheck fairWeather.endpoint noEndpointResolved = (false, []) ∧
      (Deploy fairWeather noEndpointWorld "svc" "prod" "v1" "svc.yaml" []).1 =
        some (.deployment "Deployment failed for svc in prod") ∧
      (Deploy fairWeather noEndpointWorld "svc" "prod" "v1" "svc.yaml" []).2.history =
        [("svc_prod_2024-05-01T12:00:00Z.json",
          .record ⟨"svc", "prod", "v1", "2024-05-01T12:00:00Z", "failed",
            noEndpointResolved⟩)] :=
  ⟨rfl, rfl, rfl, rfl⟩

/-- C7, amended: when the resolved configuration has a `health_check` section
without a string `endpoint`, the checker cannot be constructed and the health
verification counts as failed: `runHealthCheck` returns false without a probe,
and a deployment whose executor succeeded ends in the "Deployment failed"
error with a record of status `failed` written to the history. -/
theorem missing_endpoint_fails_deployment (x : Outside) (w : World)
    (app env version configPath path : String) (options : List (String × String))
    (base envConfig healthConfig : GoMap) (files : Files) (call : BackendCall)
    (hfind : (if configPath = "" then findDeploymentConfig w.files app
      else .ok configPath) = .ok path)
    (hload : LoadDeploymentConfig w.files path = .ok base)
    (hres : GetEnvironmentConfig env base = .ok envConfig)
    (hhooks : runPreDeployHooks w.files envConfig = (none, files))
    (hsel : selectBackend (deployTypeOf base) app env version envConfig options = some call)
    (hback : x.backend call = true)
    (hhc : GoMap.get envConfig "health_check" = some (.map healthConfig))
    (hno : ∀ e, GoMap.get healthConfig "endpoint" ≠ some (.str e)) :
    runHealthCheck x.endpoint envConfig = (false, []) ∧
      (Deploy x w app env version configPath options).1 =
        some (.deployment ("Deployment failed for " ++ app ++ " in " ++ env)) ∧
      (Deploy x w app env version configPath options).2.health = w.health ∧
      (x.marshalError ⟨app, env, version, w.now, "failed", envConfig⟩ = none →
        x.writeError (app ++ "_" ++ env ++ "_" ++ w.now ++ ".json") = none →
        (Deploy x w app env version configPath options).2.history =
          HistoryDir.write w.history (app ++ "_" ++ env ++ "_" ++ w.now ++ ".json")
            (.record ⟨app, env, version, w.now, "failed", envConfig⟩)) := by
  have hrun := runHealthCheck_no_endpoint x.endpoint envConfig healthConfig hhc hno
  have hdeploy : Deploy x w app env version configPath options =
      finishDeploy x { w with files := files, invoked := w.invoked ++ [call] }
        app env version envConfig true := by
    simp only [Deploy, hfind, hload, hres, hhooks, hsel, hback]
  refine ⟨hrun, ?_, ?_, ?_⟩
  · rw [hdeploy]
    simp [finishDeploy, hrun]
  · rw [hdeploy]
    simp [finishDeploy, hrun, RecordDeployment_frame]
  · intro hm hw
    rw [hdeploy]
    simp [finishDeploy, hrun, RecordDeployment, hm, hw]

/-- C7, amended, on `noEndpointWorld` with every executor succeeding. -/
theorem missing_endpoint_fails_deployment_witness :
    runHealthCheck fairWeather.endpoint noEndpointResolved = (false, []) ∧
      (Deploy fairWeather noEndpointWorld "svc" "prod" "v1" "svc.yaml" []).1 =
        some (.deployment ("Deployment failed for " ++ "svc" ++ " in " ++ "prod")) ∧
      (Deploy fairWeather noEndpointWorld "svc" "prod" "v1" "svc.yaml" []).2.health = [] ∧
      (Deploy fairWeather noEndpointWorld "svc" "prod" "v1" "svc.yaml" []).2.history =
        HistoryDir.write [] ("svc" ++ "_" ++ "prod" ++ "_" ++ "2024-05-01T12:00:00Z" ++ ".json")
          (.record ⟨"svc", "prod", "v1", "2024-05-01T12:00:00Z", "failed",
            noEndpointResolved⟩) :=
  have w := missing_endpoint_fails_deployment fairWeather noEndpointWorld "svc" "prod" "v1"
    "svc.yaml" "svc.yaml" [] noEndpointBase noEndpointResolved
    [("timeout", .int 10), ("retries", .int 2)] noEndpointWorld.files
    ⟨"docker", "svc", "prod", "v1", noEndpointResolved, []⟩
    rfl rfl rfl rfl rfl rfl rfl (fun e h => by simp [GoMap.get] at h)
  ⟨w.1, w.2.1, w.2.2.1, w.2.2.2 rfl rfl⟩

/-! ## History queries: selection, truncation, tolerance -/

theorem collectRecords_eq_filterMap (env : String) (files : List (String × StoredFile))
    (acc : List DeploymentRecord) :
    collectRecords env files acc = acc ++ files.filterMap (keptRecord env) := by
  induction files generalizing acc with
  | nil => simp [collectRecords]
  | cons f rest ih =>
    obtain ⟨name, c⟩ := f
    cases c with
    | unreadable => simp [collectRecords, keptRecord, ih]
    | malformed => simp [collectRecords, keptRecord, ih]
    | record r =>
      by_cases h : env = "" ∨ r.Env = env
      · simp [collectRecords, keptRecord, h, ih]
      · simp [collectRecords, keptRecord, h, ih]

theorem matchingRecords_eq_filterMap (d : HistoryDir) (app env : String) :
    matchingRecords d app env =
      (d.filter (fun f => globMatch app f.1)).filterMap (keptRecord env) := by
  simp [matchingRecords, collectRecords_eq_filterMap]

theorem GetDeploymentHistory_eq (d : HistoryDir) (app env : String) (limit : Int)
    (hpat : badPattern app = false) :
    GetDeploymentHistory d app env limit =
      .ok (if limit > 0 ∧
              limit < ((sortSlice timestampAfter (matchingRecords d app env)).length : Int)
           then (sortSlice timestampAfter (matchingRecords d app env)).take limit.toNat
           else sortSlice timestampAfter (matchingRecords d app env)) := by
  rw [GetDeploymentHistory_of_pattern d app env limit hpat]
  rfl

theorem sortSlice_perm {α : Type} (less : α → α → Bool) (l : List α) :
    (sortSlice less l).Perm l :=
  List.perm_insertionSort _ l

theorem sortSlice_length {α : Type} (less : α → α → Bool) (l : List α) :
    (sortSlice less l).length = l.length :=
  (sortSlice_perm less l).length_eq

theorem historyOf_pos (found : List (String × StoredFile)) (env : String) (limit : Int)
    (hl : 0 < limit) :
    historyOf found env limit =
      (sortSlice timestampAfter (collectRecords env found [])).take
        (min limit.toNat (collectRecords env found []).length) := by
  have hlen := sortSlice_length timestampAfter (collectRecords env found [])
  unfold historyOf
  simp only
  by_cases hlt : limit < ((sortSlice timestampAfter (collectRecords env found [])).length : Int)
  · have hmin : min limit.toNat (collectRecords env found []).length = limit.toNat := by
      rw [hlen] at hlt
      omega
    simp only [gt_iff_lt, hl, hlt, and_self, if_true, hmin]
  · have hmin : min limit.toNat (collectRecords env found []).length =
        (sortSlice timestampAfter (collectRecords env found [])).length := by
      rw [hlen] at hlt ⊢
      omega
    simp only [gt_iff_lt, hlt, and_false, if_false, hmin, List.take_length]

theorem historyOf_nonpos (found : List (String × StoredFile)) (env : String) (limit : Int)
    (hl : limit ≤ 0) :
    historyOf found env limit = sortSlice timestampAfter (collectRecords env found []) := by
  unfold historyOf
  have : ¬ (limit > 0) := by omega
  simp [this]

theorem GetDeploymentHistory_pos (d : HistoryDir) (app env : String) (limit : Int)
    (hpat : badPattern app = false) (hl : 0 < limit) :
    GetDeploymentHistory d app env limit =
      .ok ((sortSlice timestampAfter (matchingRecords d app env)).take
        (min limit.toNat (matchingRecords d app env).length)) := by
  rw [GetDeploymentHistory_of_pattern d app env limit hpat, historyOf_pos _ _ _ hl]
  rfl

/-- C11: when `filepath.Glob` has found the files `found`, the result of
`GetDeploymentHistory` is cut from one sequence, the records read from those
files and kept by the `env` filter in timestamp-descending order: for
`limit > 0` its first `min limit n` records, for `limit ≤ 0` all `n`; for
`limit = 1` and at least one such record it is the single record with the
greatest timestamp. An error of `Glob` is returned as it is; `Glob` finds
files for every `app` without pattern characters. -/
theorem history_truncated_to_limit (d : HistoryDir) (app env : String) (limit : Int) :
    (∀ found : List (String × StoredFile), Glob d app = .ok found →
        (sortSlice timestampAfter (collectRecords env found [])).Perm
            (collectRecords env found []) ∧
          (sortSlice timestampAfter (collectRecords env found [])).Pairwise
            (fun a b => b.Timestamp ≤ a.Timestamp) ∧
          (0 < limit → GetDeploymentHistory d app env limit =
            .ok ((sortSlice timestampAfter (collectRecords env found [])).take
              (min limit.toNat (collectRecords env found []).length))) ∧
          (limit ≤ 0 → GetDeploymentHistory d app env limit =
            .ok (sortSlice timestampAfter (collectRecords env found []))) ∧
          (limit = 1 → collectRecords env found [] ≠ [] →
            ∃ top, GetDeploymentHistory d app env limit = .ok [top] ∧
              top ∈ collectRecords env found [] ∧
              ∀ r ∈ collectRecords env found [], r.Timestamp ≤ top.Timestamp)) ∧
      (∀ err, Glob d app = .error err →
        GetDeploymentHistory d app env limit = .error err) ∧
      (metaFree app = true → ∃ found, Glob d app = .ok found) ∧
      (noSeparator app = true → badPattern app = false →
        Glob d app = .ok (d.filter (fun f => globMatch app f.1))) := by
  refine ⟨?_, ?_, fun hmeta => ⟨_, Glob_of_pattern d app (badPattern_metaFree app hmeta)⟩,
    fun _ hpat => Glob_of_pattern d app hpat⟩
  · intro found hglob
    have hG : GetDeploymentHistory d app env limit = .ok (historyOf found env limit) := by
      rw [GetDeploymentHistory_eq_historyOf, hglob]
    have hperm := sortSlice_perm timestampAfter (collectRecords env found [])
    have hsorted := sortSlice_timestamp_sorted (collectRecords env found [])
    have hlen := sortSlice_length timestampAfter (collectRecords env found [])
    have hpos := historyOf_pos found env limit
    refine ⟨hperm, hsorted, fun hl => by rw [hG, hpos hl],
      fun hl => by rw [hG, historyOf_nonpos found env limit hl], ?_⟩
    intro h1 hne
    cases hs : sortSlice timestampAfter (collectRecords env found []) with
    | nil =>
      have := hperm.length_eq
      rw [hs] at this
      exact absurd (List.eq_nil_of_length_eq_zero this.symm) hne
    | cons top rest =>
      refine ⟨top, ?_, ?_, ?_⟩
      · rw [hG, hpos (by omega), hs, h1]
        have hn : 1 ≤ (collectRecords env found []).length := by
          rw [← hlen, hs]; simp
        have : min (1 : Int).toNat (collectRecords env found []).length = 1 := by
          simp only [Int.toNat_one]; omega
        rw [this]
        rfl
      · exact hperm.subset (by rw [hs]; exact List.mem_cons_self _ _)
      · intro r hr
        have hr' : r ∈ sortSlice timestampAfter (collectRecords env found []) :=
          hperm.symm.subset hr
        rw [hs] at hr' hsorted
        rcases List.mem_cons.1 hr' with rfl | hr''
        · exact le_refl _
        · exact (List.pairwise_cons.1 hsorted).1 r hr''
  · intro err hglob
    rw [GetDeploymentHistory_eq_historyOf, hglob]

/-- C11 with `limit = 1` over five records of `svc` in `prod`: `Glob` finds the
five files and the query returns the record of the latest deployment. -/
theorem history_truncated_to_limit_witness :
    Glob fiveHistory "svc" = .ok fiveHistory ∧
      GetDeploymentHistory fiveHistory "svc" "prod" 1 =
        .ok [⟨"svc", "prod", "v5", "2024-01-05T10:00:00Z", "success", []⟩] ∧
      (collectRecords "prod" fiveHistory []).length = 5 ∧
      (∃ found, Glob fiveHistory "svc" = .ok found) ∧
      Glob fiveHistory "svc" = .ok (fiveHistory.filter (fun f => globMatch "svc" f.1)) ∧
      GetDeploymentHistory fiveHistory "svc" "prod" 1 =
        .ok ((sortSlice timestampAfter (collectRecords "prod" fiveHistory [])).take
          (min (1 : Int).toNat (collectRecords "prod" fiveHistory []).length)) ∧
      ∃ top, GetDeploymentHistory fiveHistory "svc" "prod" 1 = .ok [top] ∧
        top ∈ collectRecords "prod" fiveHistory [] ∧
        ∀ r ∈ collectRecords "prod" fiveHistory [], r.Timestamp ≤ top.Timestamp :=
  ⟨rfl, rfl, rfl,
    (history_truncated_to_limit fiveHistory "svc" "prod" 1).2.2.1 rfl,
    (history_truncated_to_limit fiveHistory "svc" "prod" 1).2.2.2 rfl rfl,
    ((history_truncated_to_limit fiveHistory "svc" "prod" 1).1 fiveHistory rfl).2.2.1
      (by decide),
    ((history_truncated_to_limit fiveHistory "svc" "prod" 1).1 fiveHistory rfl).2.2.2.2 rfl
      (by intro h; have := congrArg List.length h; simp [collectRecords, fiveHistory] at this)⟩

/-- The characters of `app` are read as pattern syntax: `*` and `s?c` match the
files of `svc`, and `[` makes a malformed pattern, for which the query fails
with `ErrBadPattern`. -/
theorem app_is_part_of_the_pattern :
    globMatch "*" "svc_prod_2024-01-01T10:00:00Z.json" = true ∧
      globMatch "s?c" "svc_prod_2024-01-01T10:00:00Z.json" = true ∧
      globMatch "s[a-z]c" "svc_prod_2024-01-01T10:00:00Z.json" = true ∧
      globMatch "svc" "svcs_prod_2024-01-01T10:00:00Z.json" = false ∧
      GetDeploymentHistory singleHistory "*" "prod" 0 =
        .ok [⟨"svc", "prod", "v1", "2024-01-01T10:00:00Z", "success", []⟩] ∧
      badPattern "[" = true ∧
      GetDeploymentHistory singleHistory "[" "prod" 0 = .error ErrBadPattern ∧
      ErrBadPattern = .other "syntax error in pattern" :=
  ⟨rfl, rfl, rfl, rfl, rfl, rfl, rfl, rfl⟩

theorem mem_matchingRecords (d : HistoryDir) (app env : String) (r : DeploymentRecord) :
    r ∈ matchingRecords d app env ↔
      ∃ name, (name, StoredFile.record r) ∈ d ∧ globMatch app name = true ∧
        (env = "" ∨ r.Env = env) := by
  rw [matchingRecords_eq_filterMap, List.mem_filterMap]
  constructor
  · rintro ⟨⟨name, c⟩, hf, hk⟩
    rw [List.mem_filter] at hf
    cases c with
    | unreadable => simp [keptRecord] at hk
    | malformed => simp [keptRecord] at hk
    | record r' =>
      by_cases h : env = "" ∨ r'.Env = env
      · have : r' = r := by simpa [keptRecord, h] using hk
        subst this
        exact ⟨name, hf.1, by simpa using hf.2, h⟩
      · simp [keptRecord, h] at hk
  · rintro ⟨name, hmem, hglob, henv⟩
    refine ⟨(name, .record r), ?_, ?_⟩
    · rw [List.mem_filter]
      exact ⟨hmem, by simpa using hglob⟩
    · simp [keptRecord, henv]

/-- C12, the code at the failing input: the one record stored by
`RecordDeployment` for the app `svc_api` is returned by the query for the app
`svc`, and `GetStatus` reports it as the state of `svc`. -/
theorem history_returns_record_of_other_app :
    (RecordDeployment fairWeather (worldWith []) "svc_api" "prod" "v7" [] "success").2.history =
        [("svc_api_prod_2024-05-01T12:00:00Z.json",
          .record ⟨"svc_api", "prod", "v7", "2024-05-01T12:00:00Z", "success", []⟩)] ∧
      GetDeploymentHistory
          [("svc_api_prod_2024-05-01T12:00:00Z.json",
            .record ⟨"svc_api", "prod", "v7", "2024-05-01T12:00:00Z", "success", []⟩)]
          "svc" "prod" 0 =
        .ok [⟨"svc_api", "prod", "v7", "2024-05-01T12:00:00Z", "success", []⟩] ∧
      GetStatus
          [("svc_api_prod_2024-05-01T12:00:00Z.json",
            .record ⟨"svc_api", "prod", "v7", "2024-05-01T12:00:00Z", "success", []⟩)]
          "svc" "prod" =
        .ok [("app", .str "svc_api"), ("env", .str "prod"), ("version", .str "v7"),
             ("timestamp", .str "2024-05-01T12:00:00Z"), ("status", .str "success")] ∧
      "svc_api" ≠ "svc" :=
  ⟨rfl, rfl, rfl, by decide⟩

theorem historyOf_skips_broken (found₁ found₂ : List (String × StoredFile)) (name : String)
    (c : StoredFile) (env : String) (limit : Int)
    (hc : c = StoredFile.unreadable ∨ c = StoredFile.malformed) :
    historyOf (found₁ ++ (name, c) :: found₂) env limit =
      historyOf (found₁ ++ found₂) env limit := by
  have hk : keptRecord env (name, c) = none := by
    rcases hc with rfl | rfl <;> rfl
  have hm : collectRecords env (found₁ ++ (name, c) :: found₂) [] =
      collectRecords env (found₁ ++ found₂) [] := by
    simp [collectRecords_eq_filterMap, List.filterMap_append, hk]
  unfold historyOf
  rw [hm]

/-- C13: a file that cannot be read or whose content does not deserialize never
makes `GetDeploymentHistory` fail: with the file in the directory the query
returns what it returns on the directory without it, and so it does on
whatever list of found files the file stands in; for an `app` without pattern
characters that is a result, not an error. -/
theorem history_skips_broken_file (d₁ d₂ : HistoryDir) (name : String) (c : StoredFile)
    (app env : String) (limit : Int)
    (hc : c = StoredFile.unreadable ∨ c = StoredFile.malformed) :
    GetDeploymentHistory (d₁ ++ (name, c) :: d₂) app env limit =
        GetDeploymentHistory (d₁ ++ d₂) app env limit ∧
      (∀ found₁ found₂ : List (String × StoredFile),
        historyOf (found₁ ++ (name, c) :: found₂) env limit =
          historyOf (found₁ ++ found₂) env limit) ∧
      (metaFree app = true →
        ∃ records, GetDeploymentHistory (d₁ ++ (name, c) :: d₂) app env limit = .ok records ∧
          GetDeploymentHistory (d₁ ++ d₂) app env limit = .ok records) := by
  have heq : GetDeploymentHistory (d₁ ++ (name, c) :: d₂) app env limit =
      GetDeploymentHistory (d₁ ++ d₂) app env limit := by
    cases hpat : badPattern app with
    | true =>
      rw [GetDeploymentHistory_of_badPattern _ app env limit hpat,
        GetDeploymentHistory_of_badPattern _ app env limit hpat]
    | false =>
      rw [GetDeploymentHistory_of_pattern _ app env limit hpat,
        GetDeploymentHistory_of_pattern _ app env limit hpat]
      simp only [List.filter_append, List.filter_cons]
      by_cases hg : globMatch app name = true
      · simp only [hg, if_true]
        rw [historyOf_skips_broken _ _ name c env limit hc]
      · simp [hg]
  refine ⟨heq, fun found₁ found₂ => historyOf_skips_broken found₁ found₂ name c env limit hc, ?_⟩
  intro hmeta
  have hpat := badPattern_metaFree app hmeta
  refine ⟨_, GetDeploymentHistory_of_pattern _ app env limit hpat, ?_⟩
  rw [← heq]
  exact GetDeploymentHistory_of_pattern _ app env limit hpat

/-- C13 on `sampleHistory`, whose last file is malformed. -/
theorem history_skips_broken_file_witness :
    GetDeploymentHistory sampleHistory "svc" "prod" 2 =
        .ok [⟨"svc", "prod", "v3", "2024-01-03T10:00:00Z", "success", []⟩,
             ⟨"svc", "prod", "v2", "2024-01-02T10:00:00Z", "failed", []⟩] ∧
      GetDeploymentHistory
          (sampleHistory.take 4 ++ ("svc_prod_notes.json", StoredFile.malformed) :: [])
          "svc" "prod" 2 =
        GetDeploymentHistory (sampleHistory.take 4 ++ []) "svc" "prod" 2 ∧
      ∃ records,
        GetDeploymentHistory
            (sampleHistory.take 4 ++ ("svc_prod_notes.json", StoredFile.malformed) :: [])
            "svc" "prod" 2 = .ok records ∧
          GetDeploymentHistory (sampleHistory.take 4 ++ []) "svc" "prod" 2 = .ok records :=
  ⟨rfl,
    (history_skips_broken_file (sampleHistory.take 4) [] "svc_prod_notes.json"
      StoredFile.malformed "svc" "prod" 2 (Or.inr rfl)).1,
    (history_skips_broken_file (sampleHistory.take 4) [] "svc_prod_notes.json"
      StoredFile.malformed "svc" "prod" 2 (Or.inr rfl)).2.2 rfl⟩

/-! ## Recording deployments -/

/-- C14, the code at the failing input: two successful `RecordDeployment` calls
for `svc` in `prod` within one second write the same file, so the history holds
only the second record; and the pairs (`a_b`, `c`) and (`a`, `b_c`) are stored
under one file name. -/
theorem same_second_record_overwrites :
    (RecordDeployment fairWeather (worldWith []) "svc" "prod" "v1" [] "success").1 =
        .ok "svc_prod_2024-05-01T12:00:00Z.json" ∧
      (RecordDeployment fairWeather
          (RecordDeployment fairWeather (worldWith []) "svc" "prod" "v1" [] "success").2
          "svc" "prod" "v2" [] "failed").1 =
        .ok "svc_prod_2024-05-01T12:00:00Z.json" ∧
      (RecordDeployment fairWeather
          (RecordDeployment fairWeather (worldWith []) "svc" "prod" "v1" [] "success").2
          "svc" "prod" "v2" [] "failed").2.history =
        [("svc_prod_2024-05-01T12:00:00Z.json",
          .record ⟨"svc", "prod", "v2", "2024-05-01T12:00:00Z", "failed", []⟩)] ∧
      GetDeploymentHistory
          (RecordDeployment fairWeather
            (RecordDeployment fairWeather (worldWith []) "svc" "prod" "v1" [] "success").2
            "svc" "prod" "v2" [] "failed").2.history "svc" "prod" 0 =
        .ok [⟨"svc", "prod", "v2", "2024-05-01T12:00:00Z", "failed", []⟩] ∧
      (RecordDeployment fairWeather (worldWith []) "a_b" "c" "v1" [] "success").1 =
        .ok "a_b_c_2024-05-01T12:00:00Z.json" ∧
      (RecordDeployment fairWeather (worldWith []) "a" "b_c" "v1" [] "success").1 =
        .ok "a_b_c_2024-05-01T12:00:00Z.json" :=
  ⟨rfl, rfl, rfl, rfl, rfl, rfl⟩

/-- C15, the code at the failing input: the docker executor succeeds, writing
the history file fails, and `Deploy` returns nil with nothing persisted. -/
theorem deploy_succeeds_without_record :
    (RecordDeployment diskFull (worldWith []) "svc" "prod" "v1" [] "success").1 =
        .error (.other "no space left on device") ∧
      (Deploy diskFull (worldWith []) "svc" "prod" "v1" "" []).1 = none ∧
      (Deploy diskFull (worldWith []) "svc" "prod" "v1" "" []).2.invoked =
        [⟨"docker", "svc", "prod", "v1", [("type", .str "docker")], []⟩] ∧
      (Deploy diskFull (worldWith []) "svc" "prod" "v1" "" []).2.history = [] :=
  ⟨rfl, rfl, rfl, rfl⟩

/-! ## Rollback -/

theorem GetDeploymentHistory_head (d : HistoryDir) (app env : String) (limit : Int)
    (hpat : badPattern app = false) (hl : 0 < limit) :
    ∃ res, GetDeploymentHistory d app env limit = .ok res ∧
      res.head? = (sortSlice timestampAfter (matchingRecords d app env)).head? := by
  refine ⟨_, GetDeploymentHistory_pos d app env limit hpat hl, ?_⟩
  rw [List.head?_take]
  by_cases hmin : min limit.toNat (matchingRecords d app env).length = 0
  · have hn : (sortSlice timestampAfter (matchingRecords d app env)).length = 0 := by
      rw [sortSlice_length]
      omega
    simp [hmin, List.eq_nil_of_length_eq_zero hn]
  · simp [hmin]

/-- The version that `Rollback` takes for the current one: that of the newest
matching record, the empty string when there is none. -/
theorem currentVersionOf_GetStatus (d : HistoryDir) (app env : String)
    (hpat : badPattern app = false) :
    ∃ status, GetStatus d app env = .ok status ∧
      currentVersionOf status =
        match (sortSlice timestampAfter (matchingRecords d app env)).head? with
        | some record => record.Version
        | none => "" := by
  obtain ⟨res, hres, hhead⟩ := GetDeploymentHistory_head d app env 1 hpat (by decide)
  unfold GetStatus
  rw [hres, ← hhead]
  cases res with
  | nil => exact ⟨_, rfl, rfl⟩
  | cons record rest => exact ⟨_, rfl, rfl⟩

theorem rollbackTarget_auto (d : HistoryDir) (app env : String)
    (hpat : badPattern app = false) :
    rollbackTarget d app env "" =
      GetPreviousVersion d app env
        (match (sortSlice timestampAfter (matchingRecords d app env)).head? with
          | some record => record.Version
          | none => "") := by
  obtain ⟨status, hs, hv⟩ := currentVersionOf_GetStatus d app env hpat
  simp only [rollbackTarget, if_true, hs, hv]

theorem rollbackTarget_of_badPattern (d : HistoryDir) (app env : String)
    (hpat : badPattern app = true) :
    rollbackTarget d app env "" = .error ErrBadPattern := by
  simp only [rollbackTarget, if_true, GetStatus,
    GetDeploymentHistory_of_badPattern d app env 1 hpat]

theorem rollbackTarget_explicit (d : HistoryDir) (app env version : String)
    (hv : version ≠ "") : rollbackTarget d app env version = .ok version := by
  simp [rollbackTarget, hv]

theorem scanPrevious_eq_find (currentVersion : String) (history : List DeploymentRecord) :
    scanPrevious currentVersion history =
      (history.find? (fun r => decide (r.Version ≠ currentVersion ∧ r.Status = "success"))).map
        (fun r => r.Version) := by
  induction history with
  | nil => rfl
  | cons record rest ih =>
    by_cases h : record.Version ≠ currentVersion ∧ record.Status = "success"
    · simp [scanPrevious, List.find?_cons, h]
    · have hd : decide (record.Version ≠ currentVersion ∧ record.Status = "success") = false :=
        decide_eq_false h
      rw [List.find?_cons, hd]
      simp only [scanPrevious, h, if_false, ih]

theorem scanPrevious_eq_none_iff (currentVersion : String) (history : List DeploymentRecord) :
    scanPrevious currentVersion history = none ↔
      ∀ r ∈ history, ¬ (r.Version ≠ currentVersion ∧ r.Status = "success") := by
  rw [scanPrevious_eq_find, Option.map_eq_none', List.find?_eq_none]
  simp

/-- Relative to the records that the query returns: when the ten most recent
of them are `current :: rest`, `Rollback` without a version deploys the version
of the first record of that sequence whose version differs from that of
`current` and whose status is `success`, with an empty config path. -/
theorem rollback_scans_query_result (x : Outside) (w : World) (app env : String)
    (current : DeploymentRecord) (rest : List DeploymentRecord)
    (hh : GetDeploymentHistory w.history app env 10 = .ok (current :: rest)) :
    current :: rest =
        (sortSlice timestampAfter (matchingRecords w.history app env)).take
          (min 10 (matchingRecords w.history app env).length) ∧
      Rollback x w app env "" =
        match (current :: rest).find?
            (fun r => decide (r.Version ≠ current.Version ∧ r.Status = "success")) with
        | some r => Deploy x w app env r.Version "" []
        | none => (some (.other "no previous version found"), w) := by
  have hpat : badPattern app = false :=
    (GetDeploymentHistory_ok_iff w.history app env 10).1 ⟨_, hh⟩
  have htake := GetDeploymentHistory_pos w.history app env 10 hpat (by decide)
  have hlist : current :: rest =
      (sortSlice timestampAfter (matchingRecords w.history app env)).take
        (min 10 (matchingRecords w.history app env).length) := by
    have := hh.symm.trans htake
    simpa using this
  refine ⟨hlist, ?_⟩
  obtain ⟨res, hres, hhead⟩ :=
    GetDeploymentHistory_head w.history app env 10 hpat (by decide)
  have hcur : (sortSlice timestampAfter (matchingRecords w.history app env)).head? =
      some current := by
    rw [← hhead]
    have : res = current :: rest := by
      have := hres.symm.trans hh
      simpa using this
    rw [this]
    rfl
  unfold Rollback
  rw [rollbackTarget_auto _ _ _ hpat, hcur]
  simp only [GetPreviousVersion, hh, scanPrevious_eq_find]
  cases (current :: rest).find?
      (fun r => decide (r.Version ≠ current.Version ∧ r.Status = "success")) with
  | none => rfl
  | some r => rfl

/-- On `sampleHistory`, which holds files of `svc` only: v3 is current, v2
failed, and `Rollback` deploys v1. -/
theorem rollback_scans_query_result_witness :
    GetDeploymentHistory sampleHistory "svc" "prod" 10 =
        .ok [⟨"svc", "prod", "v3", "2024-01-03T10:00:00Z", "success", []⟩,
             ⟨"svc", "prod", "v2", "2024-01-02T10:00:00Z", "failed", []⟩,
             ⟨"svc", "prod", "v1", "2024-01-01T10:00:00Z", "success", []⟩] ∧
      Rollback fairWeather (worldWith sampleHistory) "svc" "prod" "" =
        Deploy fairWeather (worldWith sampleHistory) "svc" "prod" "v1" "" [] ∧
      (Rollback fairWeather (worldWith sampleHistory) "svc" "prod" "").2.invoked =
        [⟨"docker", "svc", "prod", "v1", [("type", .str "docker")], []⟩] :=
  ⟨rfl,
    (rollback_scans_query_result fairWeather (worldWith sampleHistory) "svc" "prod"
      ⟨"svc", "prod", "v3", "2024-01-03T10:00:00Z", "success", []⟩
      [⟨"svc", "prod", "v2", "2024-01-02T10:00:00Z", "failed", []⟩,
       ⟨"svc", "prod", "v1", "2024-01-01T10:00:00Z", "success", []⟩] rfl).2,
    rfl⟩

/-- C16, the code at the failing input: the history holds one deployment of
`svc` in `prod`, v2, and an older deployment of another app, `svc_api`, v7. The
pattern `svc_*.json` matches both files, the query for `svc` returns both
records, and `Rollback` of `svc` deploys v7, a version of `svc_api` that `svc`
never ran, where the only record of `(svc, prod)` is the current one. -/
theorem rollback_deploys_version_of_other_app :
    globMatch "svc" "svc_api_prod_2024-01-15T10:00:00Z.json" = true ∧
      GetDeploymentHistory mixedHistory "svc" "prod" 10 =
        .ok [⟨"svc", "prod", "v2", "2024-02-01T10:00:00Z", "success", []⟩,
             ⟨"svc_api", "prod", "v7", "2024-01-15T10:00:00Z", "success", []⟩] ∧
      GetPreviousVersion mixedHistory "svc" "prod" "v2" = .ok "v7" ∧
      Rollback fairWeather (worldWith mixedHistory) "svc" "prod" "" =
        Deploy fairWeather (worldWith mixedHistory) "svc" "prod" "v7" "" [] ∧
      (Rollback fairWeather (worldWith mixedHistory) "svc" "prod" "").1 = none ∧
      (Rollback fairWeather (worldWith mixedHistory) "svc" "prod" "").2.invoked =
        [⟨"docker", "svc", "prod", "v7", [("type", .str "docker")], []⟩] ∧
      "svc_api" ≠ "svc" :=
  ⟨rfl, rfl, rfl, rfl, rfl, rfl, by decide⟩

theorem GetPreviousVersion_eq (d : HistoryDir) (app env currentVersion : String)
    (hpat : badPattern app = false) :
    GetPreviousVersion d app env currentVersion =
      match scanPrevious currentVersion
          ((sortSlice timestampAfter (matchingRecords d app env)).take
            (min 10 (matchingRecords d app env).length)) with
      | some version => .ok version
      | none => .error (.other "no previous version found") := by
  have htake := GetDeploymentHistory_pos d app env 10 hpat (by decide)
  simp only [GetPreviousVersion, htake]
  rfl

theorem matchingRecords_eq_nil (d : HistoryDir) (app env : String)
    (hnone : ∀ name r, (name, StoredFile.record r) ∈ d → globMatch app name = true →
      ¬ (env = "" ∨ r.Env = env)) :
    matchingRecords d app env = [] := by
  refine List.eq_nil_iff_forall_not_mem.2 (fun r hr => ?_)
  obtain ⟨name, hmem, hglob, henv⟩ := (mem_matchingRecords d app env r).1 hr
  exact hnone name r hmem hglob henv

/-- C17, as stated, fails: with no history at all and with a history that holds
only the current deployment, `Rollback` returns one and the same error. -/
theorem rollback_errors_coincide :
    GetDeploymentHistory [] "svc" "prod" 0 = .ok [] ∧
      Rollback fairWeather (worldWith []) "svc" "prod" "" =
        (some (.other "no previous version found"), worldWith []) ∧
      GetDeploymentHistory singleHistory "svc" "prod" 0 =
        .ok [⟨"svc", "prod", "v1", "2024-01-01T10:00:00Z", "success", []⟩] ∧
      Rollback fairWeather (worldWith singleHistory) "svc" "prod" "" =
        (some (.other "no previous version found"), worldWith singleHistory) :=
  ⟨rfl, rfl, rfl, rfl⟩

/-- C17, amended, for an `app` without path separator. When the pattern
`<app>_*.json` is well formed and no file that it matches holds a readable
record kept by the `env` filter, `Rollback` without a version fails without
reaching `Deploy` (the world is unchanged) with the error
`no previous version found`; that is the very error returned when the query
returns records of which none has another version and status `success`. When
the pattern is malformed, `Rollback` fails with `ErrBadPattern` instead,
again without reaching `Deploy`. -/
theorem rollback_without_target (x : Outside) (w : World) (app env : String)
    (_hsep : noSeparator app = true) :
    (badPattern app = false →
        (∀ name r, (name, StoredFile.record r) ∈ w.history → globMatch app name = true →
          ¬ (env = "" ∨ r.Env = env)) →
        Rollback x w app env "" = (some (.other "no previous version found"), w)) ∧
      (∀ current rest,
        GetDeploymentHistory w.history app env 10 = .ok (current :: rest) →
        (∀ r ∈ current :: rest, ¬ (r.Version ≠ current.Version ∧ r.Status = "success")) →
        Rollback x w app env "" = (some (.other "no previous version found"), w)) ∧
      (badPattern app = true → Rollback x w app env "" = (some ErrBadPattern, w)) ∧
      (metaFree app = true → badPattern app = false) := by
  refine ⟨?_, ?_, ?_, badPattern_metaFree app⟩
  · intro hpat hnone
    have hempty := matchingRecords_eq_nil w.history app env hnone
    unfold Rollback
    rw [rollbackTarget_auto _ _ _ hpat, GetPreviousVersion_eq _ _ _ _ hpat, hempty]
    rfl
  · intro current rest hh hnone
    have h := (rollback_scans_query_result x w app env current rest hh).2
    rw [h]
    have hfind : (current :: rest).find?
        (fun r => decide (r.Version ≠ current.Version ∧ r.Status = "success")) = none := by
      rw [List.find?_eq_none]
      intro r hr
      simpa using hnone r hr
    rw [hfind]
  · intro hpat
    unfold Rollback
    rw [rollbackTarget_of_badPattern _ _ _ hpat]

/-- C17, amended, on an empty history, on `singleHistory` and for the app `[`. -/
theorem rollback_without_target_witness :
    Rollback fairWeather (worldWith []) "svc" "prod" "" =
        (some (.other "no previous version found"), worldWith []) ∧
      Rollback fairWeather (worldWith singleHistory) "svc" "prod" "" =
        (some (.other "no previous version found"), worldWith singleHistory) ∧
      Rollback fairWeather (worldWith singleHistory) "[" "prod" "" =
        (some ErrBadPattern, worldWith singleHistory) ∧
      badPattern "svc" = false :=
  ⟨(rollback_without_target fairWeather (worldWith []) "svc" "prod" rfl).1 rfl
      (fun _ _ h => nomatch h),
    (rollback_without_target fairWeather (worldWith singleHistory) "svc" "prod" rfl).2.1
      ⟨"svc", "prod", "v1", "2024-01-01T10:00:00Z", "success", []⟩ [] rfl
      (fun r hr => by
        have hr' : r = ⟨"svc", "prod", "v1", "2024-01-01T10:00:00Z", "success", []⟩ := by
          simpa using hr
        subst hr'
        simp),
    (rollback_without_target fairWeather (worldWith singleHistory) "[" "prod" rfl).2.2.1 rfl,
    (rollback_without_target fairWeather (worldWith []) "svc" "prod" rfl).2.2.2 rfl⟩

/-- Relative to the records that the query returns: `GetPreviousVersion` fails
with its own error exactly when none of the ten most recent of them has a
version other than `current` and status `success`; when it fails for the
current version, `Rollback` returns that error and leaves the world as it
was. -/
theorem previous_version_scans_query_result (x : Outside) (w : World)
    (app env current : String) (hpat : badPattern app = false) :
    ((∃ e, GetPreviousVersion w.history app env current = .error e) ↔
        ∀ r ∈ (sortSlice timestampAfter (matchingRecords w.history app env)).take
            (min 10 (matchingRecords w.history app env).length),
          ¬ (r.Version ≠ current ∧ r.Status = "success")) ∧
      (∀ status e, GetStatus w.history app env = .ok status →
        GetPreviousVersion w.history app env (currentVersionOf status) = .error e →
        Rollback x w app env "" = (some e, w)) := by
  constructor
  · rw [GetPreviousVersion_eq _ _ _ _ hpat, ← scanPrevious_eq_none_iff]
    cases scanPrevious current
        ((sortSlice timestampAfter (matchingRecords w.history app env)).take
          (min 10 (matchingRecords w.history app env).length)) with
    | none => simp
    | some v => simp
  · intro status e hs he
    simp only [Rollback, rollbackTarget, if_true, hs, he]

/-- On `singleHistory`, whose only record is the current version. -/
theorem previous_version_scans_query_result_witness :
    GetPreviousVersion singleHistory "svc" "prod" "v1" =
        .error (.other "no previous version found") ∧
      Rollback fairWeather (worldWith singleHistory) "svc" "prod" "" =
        (some (.other "no previous version found"), worldWith singleHistory) :=
  ⟨rfl,
    (previous_version_scans_query_result fairWeather (worldWith singleHistory)
      "svc" "prod" "v1" rfl).2
      [("app", .str "svc"), ("env", .str "prod"), ("version", .str "v1"),
       ("timestamp", .str "2024-01-01T10:00:00Z"), ("status", .str "success")]
      (.other "no previous version found") rfl rfl⟩

/-- C18, the code at the failing input: the history holds one deployment of
`svc` in `prod`, v3, and two older deployments of another app, `svc_worker`.
None of the records of `(svc, prod)` has a version other than v3, yet
`GetPreviousVersion("svc", "prod", "v3")` does not fail: it returns v8, the
version of the successful deployment of `svc_worker`, and `Rollback` goes on
to `Deploy`, which invokes the executor and writes a record. -/
theorem previous_version_taken_from_other_app :
    GetDeploymentHistory sharedPrefixHistory "svc" "prod" 10 =
        .ok [⟨"svc", "prod", "v3", "2024-03-01T10:00:00Z", "success", []⟩,
             ⟨"svc_worker", "prod", "v9", "2024-01-20T10:00:00Z", "failed", []⟩,
             ⟨"svc_worker", "prod", "v8", "2024-01-10T10:00:00Z", "success", []⟩] ∧
      (sharedPrefixHistory.filterMap (fun f =>
          match f.2 with
          | .record r => if r.App = "svc" ∧ r.Env = "prod" then some r.Version else none
          | _ => none)) = ["v3"] ∧
      GetPreviousVersion sharedPrefixHistory "svc" "prod" "v3" = .ok "v8" ∧
      (Rollback fairWeather (worldWith sharedPrefixHistory) "svc" "prod" "").1 = none ∧
      (Rollback fairWeather (worldWith sharedPrefixHistory) "svc" "prod" "").2.invoked =
        [⟨"docker", "svc", "prod", "v8", [("type", .str "docker")], []⟩] ∧
      HistoryDir.read
          (Rollback fairWeather (worldWith sharedPrefixHistory) "svc" "prod" "").2.history
          "svc_prod_2024-05-01T12:00:00Z.json" =
        some (.record ⟨"svc", "prod", "v8", "2024-05-01T12:00:00Z", "success",
          [("type", .str "docker")]⟩) :=
  ⟨rfl, rfl, rfl, rfl, rfl, rfl⟩

/-! ## The stages of `Deploy` -/

theorem finishDeploy_fst (x : Outside) (w : World) (app env version : String)
    (envConfig : GoMap) (success : Bool) :
    (finishDeploy x w app env version envConfig success).1 =
      if (success && (runHealthCheck x.endpoint envConfig).1) = true then none
      else some (.deployment ("Deployment failed for " ++ app ++ " in " ++ env)) := by
  cases success with
  | false => simp [finishDeploy]
  | true =>
    cases h : (runHealthCheck x.endpoint envConfig).1 with
    | false => simp [finishDeploy, h]
    | true => simp [finishDeploy, h]

theorem finishDeploy_frame (x : Outside) (w : World) (app env version : String)
    (envConfig : GoMap) (success : Bool) :
    (finishDeploy x w app env version envConfig success).2.files = w.files ∧
      (finishDeploy x w app env version envConfig success).2.now = w.now ∧
      (finishDeploy x w app env version envConfig success).2.invoked = w.invoked ∧
      (finishDeploy x w app env version envConfig success).2.health =
        if success = true then w.health ++ (runHealthCheck x.endpoint envConfig).2
        else w.health := by
  cases success with
  | false => simp [finishDeploy, RecordDeployment_frame]
  | true =>
    cases h : (runHealthCheck x.endpoint envConfig).1 with
    | false => simp [finishDeploy, h, RecordDeployment_frame]
    | true => simp [finishDeploy, h, RecordDeployment_frame]

/-- The error that `Deploy` returns, the executors it invokes, the files it
creates and the probes it makes do not depend on the content of the history
directory. -/
theorem Deploy_ignores_history (x : Outside) (w : World) (d : HistoryDir)
    (app env version configPath : String) (options : List (String × String)) :
    (Deploy x { w with history := d } app env version configPath options).1 =
        (Deploy x w app env version configPath options).1 ∧
      (Deploy x { w with history := d } app env version configPath options).2.invoked =
        (Deploy x w app env version configPath options).2.invoked ∧
      (Deploy x { w with history := d } app env version configPath options).2.files =
        (Deploy x w app env version configPath options).2.files ∧
      (Deploy x { w with history := d } app env version configPath options).2.health =
        (Deploy x w app env version configPath options).2.health := by
  unfold Deploy
  simp only []
  split
  · exact ⟨rfl, rfl, rfl, rfl⟩
  · split
    · exact ⟨rfl, rfl, rfl, rfl⟩
    · split
      · exact ⟨rfl, rfl, rfl, rfl⟩
      · split
        · exact ⟨rfl, rfl, rfl, rfl⟩
        · split
          · exact ⟨rfl, rfl, rfl, rfl⟩
          · simp [finishDeploy_fst, finishDeploy_frame]

/-- C19: for an explicit version `v`, `Rollback` chooses `v` whatever the
history holds and is `Deploy` with `v`, an empty config path and no options;
its error and the executors it invokes do not depend on the history. In the
automatic case `Rollback` is `Deploy` with the version that
`GetPreviousVersion` returned, again with an empty config path. -/
theorem rollback_delegates_to_deploy (x : Outside) (w : World) (app env : String) :
    (∀ v, v ≠ "" →
        (∀ d, rollbackTarget d app env v = .ok v) ∧
        Rollback x w app env v = Deploy x w app env v "" [] ∧
        ∀ d, (Rollback x { w with history := d } app env v).1 = (Rollback x w app env v).1 ∧
          (Rollback x { w with history := d } app env v).2.invoked =
            (Rollback x w app env v).2.invoked) ∧
      (∀ status target, GetStatus w.history app env = .ok status →
        GetPreviousVersion w.history app env (currentVersionOf status) = .ok target →
        Rollback x w app env "" = Deploy x w app env target "" []) := by
  constructor
  · intro v hv
    have hexp : ∀ w' : World, Rollback x w' app env v = Deploy x w' app env v "" [] := by
      intro w'
      simp only [Rollback, rollbackTarget_explicit _ app env v hv]
    refine ⟨fun d => rollbackTarget_explicit d app env v hv, hexp w, fun d => ?_⟩
    rw [hexp, hexp]
    have h := Deploy_ignores_history x w d app env v "" []
    exact ⟨h.1, h.2.1⟩
  · intro status target hs ht
    simp only [Rollback, rollbackTarget, if_true, hs, ht]

/-- C19 on `sampleHistory`: the explicit version v2, a failed one, is deployed
as asked; without a version the chosen v1 is deployed. -/
theorem rollback_delegates_to_deploy_witness :
    Rollback fairWeather (worldWith sampleHistory) "svc" "prod" "v2" =
        Deploy fairWeather (worldWith sampleHistory) "svc" "prod" "v2" "" [] ∧
      (Rollback fairWeather (worldWith []) "svc" "prod" "v2").1 =
        (Rollback fairWeather (worldWith sampleHistory) "svc" "prod" "v2").1 ∧
      Rollback fairWeather (worldWith sampleHistory) "svc" "prod" "" =
        Deploy fairWeather (worldWith sampleHistory) "svc" "prod" "v1" "" [] :=
  have h := rollback_delegates_to_deploy fairWeather (worldWith sampleHistory) "svc" "prod"
  ⟨(h.1 "v2" (by decide)).2.1, ((h.1 "v2" (by decide)).2.2 []).1,
    h.2 [("app", .str "svc"), ("env", .str "prod"), ("version", .str "v3"),
         ("timestamp", .str "2024-01-03T10:00:00Z"), ("status", .str "success")]
      "v1" rfl rfl⟩

/-- C20, as stated, fails: the descriptor has a `type`, the number 42, which is
none of the five backend names, yet `Deploy` runs the docker executor, returns
nil and records a successful deployment. -/
theorem numeric_type_deploys_with_docker :
    GoMap.get numericTypeBase "type" = some (.int 42) ∧
      (Deploy fairWeather (worldOf numericTypeBase []) "svc" "prod" "v1" "svc.yaml" []).1 =
        none ∧
      (Deploy fairWeather (worldOf numericTypeBase []) "svc" "prod" "v1" "svc.yaml"
          []).2.invoked =
        [⟨"docker", "svc", "prod", "v1", [("type", .int 42)], []⟩] ∧
      (Deploy fairWeather (worldOf numericTypeBase []) "svc" "prod" "v1" "svc.yaml"
          []).2.history =
        [("svc_prod_2024-05-01T12:00:00Z.json",
          .record ⟨"svc", "prod", "v1", "2024-05-01T12:00:00Z", "success",
            [("type", .int 42)]⟩)] :=
  ⟨rfl, rfl, rfl, rfl⟩

/-- C20, amended: when the `type` of the loaded descriptor holds a string that
is none of `docker-compose`, `docker`, `kubernetes`, `terraform`, `ansible`, a
`Deploy` that has resolved its configuration and passed the pre-deploy hooks
fails with the "Unsupported deployment type" error and changes nothing but the
files the hooks created: no executor, no probe, no history record. When `type`
holds no string, the docker executor is invoked. -/
theorem unsupported_type_rejected (x : Outside) (w : World)
    (app env version configPath path : String) (options : List (String × String))
    (base envConfig : GoMap) (files : Files)
    (hfind : (if configPath = "" then findDeploymentConfig w.files app
      else .ok configPath) = .ok path)
    (hload : LoadDeploymentConfig w.files path = .ok base)
    (hres : GetEnvironmentConfig env base = .ok envConfig)
    (hhooks : runPreDeployHooks w.files envConfig = (none, files)) :
    (∀ t, GoMap.get base "type" = some (.str t) →
        t ∉ ["docker-compose", "docker", "kubernetes", "terraform", "ansible"] →
        Deploy x w app env version configPath options =
          (some (.deployment ("Unsupported deployment type: " ++ t)),
            { w with files := files })) ∧
      ((∀ t, GoMap.get base "type" ≠ some (.str t)) →
        (Deploy x w app env version configPath options).2.invoked =
          w.invoked ++ [⟨"docker", app, env, version, envConfig, []⟩]) := by
  constructor
  · intro t ht hnot
    have hty : deployTypeOf base = t := by
      simp [deployTypeOf, ht, asStr]
    have hsel : selectBackend t app env version envConfig options = none := by
      simp only [List.mem_cons, List.mem_singleton, List.not_mem_nil, or_false, not_or] at hnot
      simp [selectBackend, hnot]
    simp only [Deploy, hfind, hload, hres, hhooks, hty, hsel]
  · intro hno
    have hty : deployTypeOf base = "docker" := by
      simp [deployTypeOf, (asStr_eq_none_iff _).2 hno]
    have hsel : selectBackend "docker" app env version envConfig options =
        some ⟨"docker", app, env, version, envConfig, []⟩ := by
      simp [selectBackend]
    simp only [Deploy, hfind, hload, hres, hhooks, hty, hsel, finishDeploy_frame]

/-- C20, amended, on a descriptor of type `not-a-backend` that configures a
health check. -/
theorem unsupported_type_rejected_witness :
    Deploy fairWeather (worldOf unknownTypeBase []) "svc" "prod" "v1" "svc.yaml" [] =
        (some (.deployment ("Unsupported deployment type: " ++ "not-a-backend")),
          { worldOf unknownTypeBase [] with files := [("svc.yaml", .yaml unknownTypeBase)] }) ∧
      (Deploy fairWeather (worldOf unknownTypeBase []) "svc" "prod" "v1" "svc.yaml"
          []).2.history = [] ∧
      (Deploy fairWeather (worldOf unknownTypeBase []) "svc" "prod" "v1" "svc.yaml"
          []).2.invoked = [] ∧
      (Deploy fairWeather (worldOf unknownTypeBase []) "svc" "prod" "v1" "svc.yaml"
          []).2.health = [] :=
  have h := (unsupported_type_rejected fairWeather (worldOf unknownTypeBase []) "svc" "prod"
    "v1" "svc.yaml" "svc.yaml" [] unknownTypeBase
    [("type", .str "not-a-backend"),
     ("health_check", .map [("endpoint", .str "http://localhost:8080/health")])]
    [("svc.yaml", .yaml unknownTypeBase)] rfl rfl rfl rfl).1 "not-a-backend" rfl
    (by decide)
  ⟨h, by rw [h]; rfl, by rw [h]; rfl, by rw [h]; rfl⟩

/-! ## Dispatch and the gates before it -/

/-- Past the four gates (locate, load, resolve, hooks), `Deploy` is the
`switch` on the type of the loaded descriptor followed by the recording part. -/
theorem Deploy_dispatch (x : Outside) (w : World)
    (app env version configPath path : String) (options : List (String × String))
    (base envConfig : GoMap) (files : Files)
    (hfind : (if configPath = "" then findDeploymentConfig w.files app
      else .ok configPath) = .ok path)
    (hload : LoadDeploymentConfig w.files path = .ok base)
    (hres : GetEnvironmentConfig env base = .ok envConfig)
    (hhooks : runPreDeployHooks w.files envConfig = (none, files)) :
    Deploy x w app env version configPath options =
      match selectBackend (deployTypeOf base) app env version envConfig options with
      | none =>
        (some (.deployment ("Unsupported deployment type: " ++ deployTypeOf base)),
          { w with files := files })
      | some call =>
        finishDeploy x { w with files := files, invoked := w.invoked ++ [call] }
          app env version envConfig (x.backend call) := by
  simp only [Deploy, hfind, hload, hres, hhooks]

theorem selectBackend_some (deployType app env version : String) (config : GoMap)
    (options : List (String × String)) (call : BackendCall)
    (h : selectBackend deployType app env version config options = some call) :
    call.kind = deployType ∧ call.app = app ∧ call.env = env ∧ call.version = version ∧
      call.config = config ∧
      deployType ∈ ["docker-compose", "docker", "kubernetes", "terraform", "ansible"] := by
  unfold selectBackend at h
  split at h
  · rename_i ht; cases h; simp [ht]
  · split at h
    · rename_i ht; cases h; simp [ht]
    · split at h
      · rename_i ht; cases h; simp [ht]
      · split at h
        · rename_i ht; cases h; simp [ht]
        · split at h
          · rename_i ht; cases h; simp [ht]
          · cases h

theorem selectBackend_none (deployType app env version : String) (config : GoMap)
    (options : List (String × String))
    (h : deployType ∉ ["docker-compose", "docker", "kubernetes", "terraform", "ansible"]) :
    selectBackend deployType app env version config options = none := by
  simp only [List.mem_cons, List.mem_singleton, List.not_mem_nil, or_false, not_or] at h
  simp [selectBackend, h]

theorem deployTypeOf_of_string (base : GoMap) (t : String)
    (h : GoMap.get base "type" = some (.str t)) : deployTypeOf base = t := by
  simp [deployTypeOf, h, asStr]

theorem deployTypeOf_of_no_string (base : GoMap)
    (h : ∀ t, GoMap.get base "type" ≠ some (.str t)) : deployTypeOf base = "docker" := by
  simp [deployTypeOf, (asStr_eq_none_iff _).2 h]

/-- C21, as stated, fails: the descriptor says `docker`, the `prod` override
says `kubernetes`, the resolved configuration says `kubernetes`, and `Deploy`
invokes the docker executor. -/
theorem override_type_does_not_select_executor :
    GetEnvironmentConfig "prod" overrideTypeBase = .ok [("type", .str "kubernetes")] ∧
      (Deploy fairWeather (worldOf overrideTypeBase []) "svc" "prod" "v1" "svc.yaml"
          []).2.invoked =
        [⟨"docker", "svc", "prod", "v1", [("type", .str "kubernetes")], []⟩] :=
  ⟨rfl, rfl⟩

/-- C21, amended: the executor that `Deploy` invokes is the one named by the
`type` of the loaded descriptor (docker when it holds no string), whatever the
resolved configuration says; the resolved configuration is what the executor
receives. -/
theorem executor_selected_by_descriptor_type (x : Outside) (w : World)
    (app env version configPath path : String) (options : List (String × String))
    (base envConfig : GoMap) (files : Files)
    (hfind : (if configPath = "" then findDeploymentConfig w.files app
      else .ok configPath) = .ok path)
    (hload : LoadDeploymentConfig w.files path = .ok base)
    (hres : GetEnvironmentConfig env base = .ok envConfig)
    (hhooks : runPreDeployHooks w.files envConfig = (none, files)) :
    (∀ call, selectBackend (deployTypeOf base) app env version envConfig options = some call →
        call.kind = deployTypeOf base ∧ call.config = envConfig ∧
        (Deploy x w app env version configPath options).2.invoked = w.invoked ++ [call]) ∧
      (selectBackend (deployTypeOf base) app env version envConfig options = none →
        (Deploy x w app env version configPath options).2.invoked = w.invoked) ∧
      (∀ t, GoMap.get base "type" = some (.str t) → deployTypeOf base = t) := by
  have hd := Deploy_dispatch x w app env version configPath path options base envConfig
    files hfind hload hres hhooks
  refine ⟨?_, ?_, deployTypeOf_of_string base⟩
  · intro call hsel
    have hk := selectBackend_some _ _ _ _ _ _ _ hsel
    refine ⟨hk.1, hk.2.2.2.2.1, ?_⟩
    rw [hd, hsel]
    simp only [finishDeploy_frame]
  · intro hsel
    rw [hd, hsel]

/-- C21, amended, on `overrideTypeBase`. -/
theorem executor_selected_by_descriptor_type_witness :
    deployTypeOf overrideTypeBase = "docker" ∧
      (Deploy fairWeather (worldOf overrideTypeBase []) "svc" "prod" "v1" "svc.yaml"
          []).2.invoked =
        [] ++ [⟨"docker", "svc", "prod", "v1", [("type", .str "kubernetes")], []⟩] :=
  ⟨rfl,
    ((executor_selected_by_descriptor_type fairWeather (worldOf overrideTypeBase []) "svc"
      "prod" "v1" "svc.yaml" "svc.yaml" [] overrideTypeBase [("type", .str "kubernetes")]
      [("svc.yaml", .yaml overrideTypeBase)] rfl rfl rfl rfl).1
      ⟨"docker", "svc", "prod", "v1", [("type", .str "kubernetes")], []⟩ rfl).2.2⟩

/-- C22, as stated, fails: `type` is present, holding null, and `Deploy`
dispatches to the docker executor and records a success. -/
theorem null_type_deploys_with_docker :
    GoMap.get nullTypeBase "type" = some .null ∧
      (Deploy fairWeather (worldOf nullTypeBase []) "svc" "prod" "v1" "svc.yaml" []).1 = none ∧
      (Deploy fairWeather (worldOf nullTypeBase []) "svc" "prod" "v1" "svc.yaml"
          []).2.invoked =
        [⟨"docker", "svc", "prod", "v1", [("type", .null)], []⟩] :=
  ⟨rfl, rfl, rfl⟩

/-- C22, amended: when the `type` of the loaded descriptor is absent, or is
present without holding a string, `Deploy` dispatches to the docker executor;
and an executor is invoked only in these cases or when `type` holds one of the
five backend names. -/
theorem docker_fallback (x : Outside) (w : World)
    (app env version configPath path : String) (options : List (String × String))
    (base envConfig : GoMap) (files : Files)
    (hfind : (if configPath = "" then findDeploymentConfig w.files app
      else .ok configPath) = .ok path)
    (hload : LoadDeploymentConfig w.files path = .ok base)
    (hres : GetEnvironmentConfig env base = .ok envConfig)
    (hhooks : runPreDeployHooks w.files envConfig = (none, files)) :
    (GoMap.get base "type" = none →
        (Deploy x w app env version configPath options).2.invoked =
          w.invoked ++ [⟨"docker", app, env, version, envConfig, []⟩]) ∧
      ((∀ t, GoMap.get base "type" ≠ some (.str t)) →
        (Deploy x w app env version configPath options).2.invoked =
          w.invoked ++ [⟨"docker", app, env, version, envConfig, []⟩]) ∧
      ((Deploy x w app env version configPath options).2.invoked ≠ w.invoked →
        (∀ t, GoMap.get base "type" ≠ some (.str t)) ∨
        ∃ t, GoMap.get base "type" = some (.str t) ∧
          t ∈ ["docker-compose", "docker", "kubernetes", "terraform", "ansible"]) := by
  have hd := Deploy_dispatch x w app env version configPath path options base envConfig
    files hfind hload hres hhooks
  have hno : (∀ t, GoMap.get base "type" ≠ some (.str t)) →
      (Deploy x w app env version configPath options).2.invoked =
        w.invoked ++ [⟨"docker", app, env, version, envConfig, []⟩] := by
    intro h
    have hsel : selectBackend "docker" app env version envConfig options =
        some ⟨"docker", app, env, version, envConfig, []⟩ := by
      simp [selectBackend]
    rw [hd, deployTypeOf_of_no_string base h, hsel]
    simp only [finishDeploy_frame]
  refine ⟨fun h => hno (fun t ht => by rw [h] at ht; cases ht), hno, ?_⟩
  intro hinv
  by_cases hstr : ∃ t, GoMap.get base "type" = some (.str t)
  · obtain ⟨t, ht⟩ := hstr
    right
    refine ⟨t, ht, ?_⟩
    by_contra hnot
    apply hinv
    rw [hd, deployTypeOf_of_string base t ht, selectBackend_none _ _ _ _ _ _ hnot]
  · left
    intro t ht
    exact hstr ⟨t, ht⟩

/-- C22, amended, on a descriptor without `type` and on one whose `type` is null. -/
theorem docker_fallback_witness :
    (Deploy fairWeather (worldOf untypedBase []) "svc" "prod" "v1" "svc.yaml" []).2.invoked =
        [] ++ [⟨"docker", "svc", "prod", "v1", [("port", .int 8080)], []⟩] ∧
      (Deploy fairWeather (worldOf nullTypeBase []) "svc" "prod" "v1" "svc.yaml"
          []).2.invoked =
        [] ++ [⟨"docker", "svc", "prod", "v1", [("type", .null)], []⟩] :=
  ⟨(docker_fallback fairWeather (worldOf untypedBase []) "svc" "prod" "v1" "svc.yaml"
      "svc.yaml" [] untypedBase [("port", .int 8080)] [("svc.yaml", .yaml untypedBase)]
      rfl rfl rfl rfl).1 rfl,
    (docker_fallback fairWeather (worldOf nullTypeBase []) "svc" "prod" "v1" "svc.yaml"
      "svc.yaml" [] nullTypeBase [("type", .null)] [("svc.yaml", .yaml nullTypeBase)]
      rfl rfl rfl rfl).2.1 (fun t h => by simp [nullTypeBase, GoMap.get] at h)⟩

/-! ## Recording the outcome -/

theorem HistoryDir.read_write_self (d : HistoryDir) (name : String) (c : StoredFile) :
    HistoryDir.read (HistoryDir.write d name c) name = some c := by
  induction d with
  | nil => simp [HistoryDir.write, HistoryDir.read]
  | cons f rest ih =>
    obtain ⟨n, c'⟩ := f
    by_cases h : n = name
    · simp [HistoryDir.write, HistoryDir.read, h]
    · simp [HistoryDir.write, HistoryDir.read, h, ih]

theorem HistoryDir.read_write_ne (d : HistoryDir) (name n : String) (c : StoredFile)
    (hne : n ≠ name) :
    HistoryDir.read (HistoryDir.write d name c) n = HistoryDir.read d n := by
  induction d with
  | nil => simp [HistoryDir.write, HistoryDir.read, Ne.symm hne]
  | cons f rest ih =>
    obtain ⟨m, c'⟩ := f
    by_cases h : m = name
    · subst h
      simp [HistoryDir.write, HistoryDir.read, Ne.symm hne]
    · by_cases h₂ : m = n
      · subst h₂
        simp [HistoryDir.write, HistoryDir.read, h]
      · simp [HistoryDir.write, HistoryDir.read, h, h₂, ih]

theorem RecordDeployment_history (x : Outside) (w : World) (app env version : String)
    (config : GoMap) (status : String)
    (hm : x.marshalError ⟨app, env, version, w.now, status, config⟩ = none)
    (hw : x.writeError (app ++ "_" ++ env ++ "_" ++ w.now ++ ".json") = none) :
    (RecordDeployment x w app env version config status).2.history =
      HistoryDir.write w.history (app ++ "_" ++ env ++ "_" ++ w.now ++ ".json")
        (.record ⟨app, env, version, w.now, status, config⟩) := by
  simp [RecordDeployment, hm, hw]

theorem RecordDeployment_history_eq (x : Outside) (w : World) (app env version : String)
    (config : GoMap) (status : String) :
    (RecordDeployment x w app env version config status).2.history =
      match x.marshalError ⟨app, env, version, w.now, status, config⟩ with
      | some _ => w.history
      | none =>
        match x.writeError (app ++ "_" ++ env ++ "_" ++ w.now ++ ".json") with
        | some _ => w.history
        | none =>
          HistoryDir.write w.history (app ++ "_" ++ env ++ "_" ++ w.now ++ ".json")
            (.record ⟨app, env, version, w.now, status, config⟩) := by
  unfold RecordDeployment
  simp only
  split
  · rfl
  · split <;> rfl

theorem finishDeploy_history (x : Outside) (w : World) (app env version : String)
    (envConfig : GoMap) (success : Bool) :
    (finishDeploy x w app env version envConfig success).2.history =
      (RecordDeployment x w app env version envConfig
        (if (success && (runHealthCheck x.endpoint envConfig).1) = true then "success"
         else "failed")).2.history := by
  cases success with
  | false => simp [finishDeploy, RecordDeployment_history_eq]
  | true =>
    cases h : (runHealthCheck x.endpoint envConfig).1 with
    | false => simp [finishDeploy, h, RecordDeployment_history_eq]
    | true => simp [finishDeploy, h, RecordDeployment_history_eq]

/-- What a `Deploy` that reaches a recognised executor hands to
`RecordDeployment`: one call, with the given app, env and version, the resolved
configuration and the status `success` exactly when the executor returned true
and the health verification passed (which it does when no `health_check`
section is configured), `failed` otherwise; it probes only when the executor
succeeded; it returns nil exactly when that status is `success`; and when the
marshalling and the write go through, the store holds that record under its
file name and every other file is as before. -/
theorem deploy_records_outcome (x : Outside) (w : World)
    (app env version configPath path : String) (options : List (String × String))
    (base envConfig : GoMap) (files : Files) (call : BackendCall)
    (hfind : (if configPath = "" then findDeploymentConfig w.files app
      else .ok configPath) = .ok path)
    (hload : LoadDeploymentConfig w.files path = .ok base)
    (hres : GetEnvironmentConfig env base = .ok envConfig)
    (hhooks : runPreDeployHooks w.files envConfig = (none, files))
    (hsel : selectBackend (deployTypeOf base) app env version envConfig options = some call) :
    (Deploy x w app env version configPath options).2.history =
        (RecordDeployment x w app env version envConfig
          (if (x.backend call && (runHealthCheck x.endpoint envConfig).1) = true
            then "success" else "failed")).2.history ∧
      ((Deploy x w app env version configPath options).1 = none ↔
        (x.backend call = true ∧ (runHealthCheck x.endpoint envConfig).1 = true)) ∧
      (asMap (GoMap.get envConfig "health_check") = none →
        runHealthCheck x.endpoint envConfig = (true, [])) ∧
      ((Deploy x w app env version configPath options).2.health =
        if x.backend call = true then w.health ++ (runHealthCheck x.endpoint envConfig).2
        else w.health) ∧
      (x.marshalError ⟨app, env, version, w.now,
          if (x.backend call && (runHealthCheck x.endpoint envConfig).1) = true
            then "success" else "failed", envConfig⟩ = none →
        x.writeError (app ++ "_" ++ env ++ "_" ++ w.now ++ ".json") = none →
        HistoryDir.read (Deploy x w app env version configPath options).2.history
            (app ++ "_" ++ env ++ "_" ++ w.now ++ ".json") =
          some (.record ⟨app, env, version, w.now,
            if (x.backend call && (runHealthCheck x.endpoint envConfig).1) = true
              then "success" else "failed", envConfig⟩) ∧
        ∀ n, n ≠ app ++ "_" ++ env ++ "_" ++ w.now ++ ".json" →
          HistoryDir.read (Deploy x w app env version configPath options).2.history n =
            HistoryDir.read w.history n) := by
  have hd := Deploy_dispatch x w app env version configPath path options base envConfig
    files hfind hload hres hhooks
  rw [hsel] at hd
  have hhist : (Deploy x w app env version configPath options).2.history =
      (RecordDeployment x w app env version envConfig
        (if (x.backend call && (runHealthCheck x.endpoint envConfig).1) = true
          then "success" else "failed")).2.history := by
    rw [hd, finishDeploy_history]
    simp only [RecordDeployment_history_eq]
  refine ⟨hhist, ?_, ?_, ?_, ?_⟩
  · rw [hd, finishDeploy_fst]
    cases x.backend call <;> cases (runHealthCheck x.endpoint envConfig).1 <;> simp
  · intro h
    simp [runHealthCheck, h]
  · rw [hd]
    simp only [finishDeploy_frame]
  · intro hm hw
    rw [hhist, RecordDeployment_history x w app env version envConfig _ hm hw]
    exact ⟨HistoryDir.read_write_self _ _ _, fun n hn => HistoryDir.read_write_ne _ _ _ _ hn⟩

/-- On a docker deployment whose executor succeeds, whose endpoint answers 503
on both attempts and whose write goes through: one record, status `failed`,
and an error. -/
theorem deploy_records_outcome_witness :
    Deploy sickEndpoint (worldOf healthBase []) "svc" "prod" "v1" "svc.yaml" [] =
        (some (.deployment "Deployment failed for svc in prod"),
          { files := [("svc.yaml", .yaml healthBase)]
            history := [("svc_prod_2024-05-01T12:00:00Z.json",
              .record ⟨"svc", "prod", "v1", "2024-05-01T12:00:00Z", "failed",
                healthResolved⟩)]
            now := "2024-05-01T12:00:00Z"
            invoked := [⟨"docker", "svc", "prod", "v1", healthResolved, []⟩]
            health := [Event.probe 1, Event.sleep (5 * Second), Event.probe 2] }) ∧
      HistoryDir.read
          (Deploy sickEndpoint (worldOf healthBase []) "svc" "prod" "v1" "svc.yaml"
            []).2.history
          ("svc" ++ "_" ++ "prod" ++ "_" ++ "2024-05-01T12:00:00Z" ++ ".json") =
        some (.record ⟨"svc", "prod", "v1", "2024-05-01T12:00:00Z", "failed",
          healthResolved⟩) :=
  ⟨rfl,
    ((deploy_records_outcome sickEndpoint (worldOf healthBase []) "svc" "prod" "v1"
      "svc.yaml" "svc.yaml" [] healthBase healthResolved
      [("svc.yaml", .yaml healthBase)] ⟨"docker", "svc", "prod", "v1", healthResolved, []⟩
      rfl rfl rfl rfl rfl).2.2.2.2 rfl rfl).1⟩

/-- C23, the code at the failing inputs. A deployment passes the hooks and the
docker executor and fails the health verification while the write of the
history file fails: `Deploy` returns its error and the history holds no record,
because the error of `RecordDeployment` is dropped. And two deployments that
reach the executor within one second leave a single record, that of the
second, because the file name has a resolution of one second. -/
theorem deploy_reaches_backend_without_appending :
    Deploy sickDiskFull (worldOf healthBase []) "svc" "prod" "v1" "svc.yaml" [] =
        (some (.deployment "Deployment failed for svc in prod"),
          { files := [("svc.yaml", .yaml healthBase)]
            history := []
            now := "2024-05-01T12:00:00Z"
            invoked := [⟨"docker", "svc", "prod", "v1", healthResolved, []⟩]
            health := [Event.probe 1, Event.sleep (5 * Second), Event.probe 2] }) ∧
      (RecordDeployment sickDiskFull (worldOf healthBase []) "svc" "prod" "v1"
          healthResolved "failed").1 = .error (.other "no space left on device") ∧
      (Deploy fairWeather
          (Deploy fairWeather (worldWith []) "svc" "prod" "v1" "" []).2
          "svc" "prod" "v2" "" []).2.invoked =
        [⟨"docker", "svc", "prod", "v1", [("type", .str "docker")], []⟩,
         ⟨"docker", "svc", "prod", "v2", [("type", .str "docker")], []⟩] ∧
      (Deploy fairWeather
          (Deploy fairWeather (worldWith []) "svc" "prod" "v1" "" []).2
          "svc" "prod" "v2" "" []).2.history =
        [("svc_prod_2024-05-01T12:00:00Z.json",
          .record ⟨"svc", "prod", "v2", "2024-05-01T12:00:00Z", "success",
            [("type", .str "docker")]⟩)] :=
  ⟨rfl, rfl, rfl, rfl⟩

/-- C24: a `Deploy` that fails at one of its first gates (config not located,
config not loaded, environment not resolved, a pre-deploy check failing)
returns that gate's error and changes nothing but the files that earlier
hooks created: the history, the executors invoked and the probes made are
those of the world before. -/
theorem deploy_fails_before_backend (x : Outside) (w : World)
    (app env version configPath : String) (options : List (String × String)) :
    (∀ err, (if configPath = "" then findDeploymentConfig w.files app
        else .ok configPath) = .error err →
        Deploy x w app env version configPath options = (some err, w)) ∧
      (∀ path err, (if configPath = "" then findDeploymentConfig w.files app
        else .ok configPath) = .ok path →
        LoadDeploymentConfig w.files path = .error err →
        Deploy x w app env version configPath options = (some (.config err), w)) ∧
      (∀ path base err, (if configPath = "" then findDeploymentConfig w.files app
        else .ok configPath) = .ok path →
        LoadDeploymentConfig w.files path = .ok base →
        GetEnvironmentConfig env base = .error err →
        Deploy x w app env version configPath options = (some (.config err), w)) ∧
      (∀ path base envConfig err files, (if configPath = "" then
          findDeploymentConfig w.files app else .ok configPath) = .ok path →
        LoadDeploymentConfig w.files path = .ok base →
        GetEnvironmentConfig env base = .ok envConfig →
        runPreDeployHooks w.files envConfig = (some err, files) →
        Deploy x w app env version configPath options =
            (some err, { w with files := files }) ∧
          (Deploy x w app env version configPath options).2.history = w.history ∧
          (Deploy x w app env version configPath options).2.invoked = w.invoked ∧
          (Deploy x w app env version configPath options).2.health = w.health) := by
  refine ⟨?_, ?_, ?_, ?_⟩
  · intro err hfind
    simp only [Deploy, hfind]
  · intro path err hfind hload
    simp only [Deploy, hfind, hload]
  · intro path base err hfind hload hres
    simp only [Deploy, hfind, hload, hres]
  · intro path base envConfig err files hfind hload hres hhooks
    have hd : Deploy x w app env version configPath options =
        (some err, { w with files := files }) := by
      simp only [Deploy, hfind, hload, hres, hhooks]
    exact ⟨hd, by rw [hd], by rw [hd], by rw [hd]⟩

/-- C24 on four failing deployments: no descriptor for the app, a descriptor
path that does not exist, an environment that the descriptor does not define,
and a `file_check` on a missing `Dockerfile`. -/
theorem deploy_fails_before_backend_witness :
    Deploy fairWeather (worldOf hookedBase sampleHistory) "svc" "prod" "v1" "" [] =
        (some (.other "deployment config not found for app: svc"),
          worldOf hookedBase sampleHistory) ∧
      Deploy fairWeather (worldOf hookedBase sampleHistory) "svc" "prod" "v1" "nowhere.yaml"
          [] =
        (some (.config ⟨"Configuration file not found: nowhere.yaml"⟩),
          worldOf hookedBase sampleHistory) ∧
      Deploy fairWeather (worldOf hookedBase sampleHistory) "svc" "qa" "v1" "svc.yaml" [] =
        (some (.config (errEnvironmentNotFound "qa")), worldOf hookedBase sampleHistory) ∧
      (Deploy fairWeather (worldOf hookedBase sampleHistory) "svc" "prod" "v1" "svc.yaml"
          []).2.history = sampleHistory ∧
      (Deploy fairWeather (worldOf hookedBase sampleHistory) "svc" "prod" "v1" "svc.yaml"
          []).2.invoked = [] :=
  have h := deploy_fails_before_backend fairWeather (worldOf hookedBase sampleHistory)
    "svc" "prod" "v1" "svc.yaml" []
  have hq := deploy_fails_before_backend fairWeather (worldOf hookedBase sampleHistory)
    "svc" "qa" "v1" "svc.yaml" []
  have h4 := h.2.2.2 "svc.yaml" hookedBase
    [("type", .str "docker"),
     ("pre_deploy", .seq sampleHooks)]
    (.other "pre-deploy check failed: Dockerfile not found")
    [("svc.yaml", .yaml hookedBase), ("build", .dir), ("build/out", .dir)]
    rfl rfl rfl rfl
  ⟨(deploy_fails_before_backend fairWeather (worldOf hookedBase sampleHistory)
      "svc" "prod" "v1" "" []).1 _ rfl,
    (deploy_fails_before_backend fairWeather (worldOf hookedBase sampleHistory)
      "svc" "prod" "v1" "nowhere.yaml" []).2.1 "nowhere.yaml" _ rfl rfl,
    hq.2.2.1 "svc.yaml" hookedBase _ rfl rfl rfl,
    h4.2.1, h4.2.2.1⟩

/-! ## Pre-deploy hooks -/

theorem Files.stat_append_of_some (fs : Files) (p q : String) (m n : Node)
    (h : Files.stat fs q = some n) : Files.stat (fs ++ [(p, m)]) q = some n := by
  induction fs with
  | nil => simp [Files.stat] at h
  | cons f rest ih =>
    obtain ⟨r, k⟩ := f
    by_cases hr : r = q
    · simp only [Files.stat, hr, if_true] at h
      simp [Files.stat, hr, h]
    · simp only [Files.stat, hr, if_false] at h
      simp [Files.stat, hr, ih h]

theorem Files.stat_append_of_none (fs : Files) (p q : String) (m : Node)
    (h : Files.stat fs q = none) :
    Files.stat (fs ++ [(p, m)]) q = if p = q then some m else none := by
  induction fs with
  | nil => simp [Files.stat]
  | cons f rest ih =>
    obtain ⟨r, k⟩ := f
    by_cases hr : r = q
    · simp [Files.stat, hr] at h
    · simp only [Files.stat, hr, if_false] at h
      simp [Files.stat, hr, ih h]

theorem mkdirChain_keeps_dir (ps : List String) (fs : Files) (q : String)
    (h : Files.stat fs q = some Node.dir) :
    Files.stat (mkdirChain ps fs) q = some Node.dir := by
  induction ps generalizing fs with
  | nil => simpa [mkdirChain] using h
  | cons p rest ih =>
    cases hp : Files.stat fs p with
    | none =>
      simp only [mkdirChain, hp]
      exact ih _ (Files.stat_append_of_some fs p q _ _ h)
    | some n =>
      cases n with
      | dir => simp only [mkdirChain, hp]; exact ih _ h
      | yaml doc => simpa [mkdirChain, hp] using h
      | unparsable e => simpa [mkdirChain, hp] using h
      | unreadable e => simpa [mkdirChain, hp] using h

theorem mkdirChain_creates (ps : List String) (fs : Files)
    (hfree : ∀ p ∈ ps, Files.stat fs p = none ∨ Files.stat fs p = some Node.dir) :
    ∀ p ∈ ps, Files.stat (mkdirChain ps fs) p = some Node.dir := by
  induction ps generalizing fs with
  | nil => intro p hp; cases hp
  | cons p rest ih =>
    have hrest : ∀ q ∈ rest, Files.stat fs q = none ∨ Files.stat fs q = some Node.dir :=
      fun q hq => hfree q (List.mem_cons_of_mem _ hq)
    cases hp : Files.stat fs p with
    | none =>
      have hnew : Files.stat (fs ++ [(p, Node.dir)]) p = some Node.dir := by
        rw [Files.stat_append_of_none fs p p _ hp]; simp
      have hrest' : ∀ q ∈ rest, Files.stat (fs ++ [(p, Node.dir)]) q = none ∨
          Files.stat (fs ++ [(p, Node.dir)]) q = some Node.dir := by
        intro q hq
        rcases hrest q hq with h | h
        · rw [Files.stat_append_of_none fs p q _ h]
          by_cases hpq : p = q
          · right; simp [hpq]
          · left; simp [hpq]
        · right; exact Files.stat_append_of_some fs p q _ _ h
      intro q hq
      simp only [mkdirChain, hp]
      rcases List.mem_cons.1 hq with rfl | hq'
      · exact mkdirChain_keeps_dir rest _ _ hnew
      · exact ih _ hrest' q hq'
    | some n =>
      have hdir : Files.stat fs p = some Node.dir := by
        rcases hfree p (List.mem_cons_self _ _) with h | h
        · rw [hp] at h; cases h
        · exact h
      have hn : n = Node.dir := by
        rw [hp] at hdir
        exact Option.some.inj hdir
      subst hn
      intro q hq
      simp only [mkdirChain, hp]
      rcases List.mem_cons.1 hq with rfl | hq'
      · exact mkdirChain_keeps_dir rest _ _ hp
      · exact ih _ hrest q hq'

/-- The call `MkdirAll` creates a missing directory when nothing but
directories lies on the way to it. -/
theorem MkdirAll_creates (fs : Files) (path : String)
    (hmissing : Files.stat fs path = none)
    (hfree : ∀ a ∈ ancestorsFrom [] path.data,
      Files.stat fs a = none ∨ Files.stat fs a = some Node.dir) :
    Files.stat (MkdirAll fs path) path = some Node.dir := by
  simp only [MkdirAll, hmissing]
  apply mkdirChain_creates
  · intro p hp
    rcases List.mem_append.1 hp with h | h
    · exact hfree p h
    · have : p = path := by simpa using h
      subst this
      exact Or.inl hmissing
  · simp

theorem runHooks_cons (hook : Value) (rest : List Value) (fs : Files) :
    runHooks (hook :: rest) fs =
      match hookKind hook with
      | .fileCheck path =>
        match Files.stat fs path with
        | none => (some (.other ("pre-deploy check failed: " ++ path ++ " not found")), fs)
        | some _ => runHooks rest fs
      | .directoryCheck path => runHooks rest (MkdirAll fs path)
      | .skipped => runHooks rest fs := by
  cases hm : asMap (some hook) with
  | none => simp [runHooks, hookKind, hm]
  | some m =>
    cases ht : asStr (GoMap.get m "type") with
    | none => simp [runHooks, hookKind, hm, ht]
    | some t =>
      by_cases h₁ : t = "file_check"
      · cases hp : asStr (GoMap.get m "path") with
        | none => simp [runHooks, hookKind, hm, ht, h₁, hp]
        | some path =>
          cases hs : Files.stat fs path <;> simp [runHooks, hookKind, hm, ht, h₁, hp, hs]
      · by_cases h₂ : t = "directory_check"
        · cases hp : asStr (GoMap.get m "path") with
          | none => simp [runHooks, hookKind, hm, ht, h₂, hp]
          | some path => simp [runHooks, hookKind, hm, ht, h₂, hp]
        · simp [runHooks, hookKind, hm, ht, h₁, h₂]

theorem applyDirectoryChecks_cons (hook : Value) (rest : List Value) (fs : Files) :
    applyDirectoryChecks (hook :: rest) fs =
      match hookKind hook with
      | .directoryCheck path => applyDirectoryChecks rest (MkdirAll fs path)
      | _ => applyDirectoryChecks rest fs := by
  cases h : hookKind hook <;> simp [applyDirectoryChecks, h]

theorem runHooks_ok_state (hooks : List Value) (fs : Files)
    (h : (runHooks hooks fs).1 = none) :
    (runHooks hooks fs).2 = applyDirectoryChecks hooks fs := by
  induction hooks generalizing fs with
  | nil => rfl
  | cons hook rest ih =>
    rw [runHooks_cons] at h ⊢
    rw [applyDirectoryChecks_cons]
    cases hk : hookKind hook with
    | fileCheck path =>
      simp only [hk] at h ⊢
      cases hs : Files.stat fs path with
      | none => simp [hs] at h
      | some n =>
        simp only [hs] at h ⊢
        exact ih fs h
    | directoryCheck path =>
      simp only [hk] at h ⊢
      exact ih _ h
    | skipped =>
      simp only [hk] at h ⊢
      exact ih fs h

theorem runHooks_append (pre post : List Value) (fs : Files)
    (h : (runHooks pre fs).1 = none) :
    runHooks (pre ++ post) fs = runHooks post (applyDirectoryChecks pre fs) := by
  induction pre generalizing fs with
  | nil => rfl
  | cons hook rest ih =>
    rw [List.cons_append, runHooks_cons]
    rw [runHooks_cons] at h
    rw [applyDirectoryChecks_cons]
    cases hk : hookKind hook with
    | fileCheck path =>
      simp only [hk] at h ⊢
      cases hs : Files.stat fs path with
      | none => simp [hs] at h
      | some n =>
        simp only [hs] at h ⊢
        exact ih fs h
    | directoryCheck path =>
      simp only [hk] at h ⊢
      exact ih _ h
    | skipped =>
      simp only [hk] at h ⊢
      exact ih fs h

theorem runHooks_error (hooks : List Value) (fs : Files) (err : GoError)
    (h : (runHooks hooks fs).1 = some err) :
    ∃ pre hook post path, hooks = pre ++ hook :: post ∧ hookKind hook = .fileCheck path ∧
      (runHooks pre fs).1 = none ∧
      Files.stat (applyDirectoryChecks pre fs) path = none ∧
      runHooks hooks fs =
        (some (.other ("pre-deploy check failed: " ++ path ++ " not found")),
          applyDirectoryChecks pre fs) := by
  induction hooks generalizing fs with
  | nil => simp [runHooks] at h
  | cons hook rest ih =>
    rw [runHooks_cons] at h
    cases hk : hookKind hook with
    | fileCheck path =>
      simp only [hk] at h
      cases hs : Files.stat fs path with
      | none =>
        refine ⟨[], hook, rest, path, rfl, hk, rfl, hs, ?_⟩
        rw [runHooks_cons]
        simp only [hk, hs]
        rfl
      | some n =>
        simp only [hs] at h
        obtain ⟨pre, hook', post, path', heq, hk', hpre, hst, hrun⟩ := ih fs h
        refine ⟨hook :: pre, hook', post, path', by rw [heq]; rfl, hk', ?_, ?_, ?_⟩
        · rw [runHooks_cons]; simp only [hk, hs]; exact hpre
        · rw [applyDirectoryChecks_cons]; simp only [hk]; exact hst
        · rw [runHooks_cons, applyDirectoryChecks_cons]; simp only [hk, hs]; exact hrun
    | directoryCheck path =>
      simp only [hk] at h
      obtain ⟨pre, hook', post, path', heq, hk', hpre, hst, hrun⟩ := ih _ h
      refine ⟨hook :: pre, hook', post, path', by rw [heq]; rfl, hk', ?_, ?_, ?_⟩
      · rw [runHooks_cons]; simp only [hk]; exact hpre
      · rw [applyDirectoryChecks_cons]; simp only [hk]; exact hst
      · rw [runHooks_cons, applyDirectoryChecks_cons]; simp only [hk]; exact hrun
    | skipped =>
      simp only [hk] at h
      obtain ⟨pre, hook', post, path', heq, hk', hpre, hst, hrun⟩ := ih fs h
      refine ⟨hook :: pre, hook', post, path', by rw [heq]; rfl, hk', ?_, ?_, ?_⟩
      · rw [runHooks_cons]; simp only [hk]; exact hpre
      · rw [applyDirectoryChecks_cons]; simp only [hk]; exact hst
      · rw [runHooks_cons, applyDirectoryChecks_cons]; simp only [hk]; exact hrun

/-- C25: over the hooks of `pre_deploy`, in their order, `runPreDeployHooks`
returns an error exactly when some `file_check` finds its path absent at its
turn; it then stops at the first such hook, with every `directory_check`
before it applied and nothing after it evaluated; without such a hook it
applies every `directory_check` and returns nil; a `directory_check` is a
`MkdirAll` whose error is dropped, which creates the missing directory when
only directories lie on its way. -/
theorem hooks_fail_fast (fs : Files) (config : GoMap) (hooks : List Value)
    (hseq : GoMap.get config "pre_deploy" = some (.seq hooks)) :
    ((∃ err, (runPreDeployHooks fs config).1 = some err) ↔
        ∃ pre hook post path, hooks = pre ++ hook :: post ∧
          hookKind hook = .fileCheck path ∧ (runHooks pre fs).1 = none ∧
          Files.stat (applyDirectoryChecks pre fs) path = none) ∧
      (∀ pre hook post path, hooks = pre ++ hook :: post →
        hookKind hook = .fileCheck path → (runHooks pre fs).1 = none →
        Files.stat (applyDirectoryChecks pre fs) path = none →
        runPreDeployHooks fs config =
          (some (.other ("pre-deploy check failed: " ++ path ++ " not found")),
            applyDirectoryChecks pre fs)) ∧
      ((runPreDeployHooks fs config).1 = none →
        (runPreDeployHooks fs config).2 = applyDirectoryChecks hooks fs) ∧
      (∀ hook path, hookKind hook = .directoryCheck path →
        (∀ fs', runHooks [hook] fs' = (none, MkdirAll fs' path)) ∧
        ∀ fs', Files.stat fs' path = none →
          (∀ a ∈ ancestorsFrom [] path.data,
            Files.stat fs' a = none ∨ Files.stat fs' a = some Node.dir) →
          Files.stat (MkdirAll fs' path) path = some Node.dir) := by
  have hrun : runPreDeployHooks fs config = runHooks hooks fs := by
    simp [runPreDeployHooks, hseq, asSeq]
  have hstop : ∀ pre hook post path, hooks = pre ++ hook :: post →
      hookKind hook = .fileCheck path → (runHooks pre fs).1 = none →
      Files.stat (applyDirectoryChecks pre fs) path = none →
      runPreDeployHooks fs config =
        (some (.other ("pre-deploy check failed: " ++ path ++ " not found")),
          applyDirectoryChecks pre fs) := by
    intro pre hook post path heq hk hpre hst
    rw [hrun, heq, runHooks_append pre (hook :: post) fs hpre, runHooks_cons]
    simp only [hk, hst]
  refine ⟨⟨?_, ?_⟩, hstop, ?_, ?_⟩
  · rintro ⟨err, herr⟩
    rw [hrun] at herr
    obtain ⟨pre, hook, post, path, heq, hk, hpre, hst, _⟩ := runHooks_error hooks fs err herr
    exact ⟨pre, hook, post, path, heq, hk, hpre, hst⟩
  · rintro ⟨pre, hook, post, path, heq, hk, hpre, hst⟩
    exact ⟨_, by rw [hstop pre hook post path heq hk hpre hst]⟩
  · intro h
    rw [hrun] at h ⊢
    exact runHooks_ok_state hooks fs h
  · intro hook path hk
    refine ⟨fun fs' => ?_, fun fs' hm hfree => MkdirAll_creates fs' path hm hfree⟩
    rw [runHooks_cons]
    simp only [hk]
    rfl

/-- C25 on the three hooks of `hookedBase` without a `Dockerfile`: `build/out`
is created, the check fails, `logs` is not created. -/
theorem hooks_fail_fast_witness :
    runPreDeployHooks [("svc.yaml", .yaml hookedBase)]
        [("type", .str "docker"), ("pre_deploy", .seq sampleHooks)] =
      (some (.other ("pre-deploy check failed: " ++ "Dockerfile" ++ " not found")),
        applyDirectoryChecks
          [.map [("type", .str "directory_check"), ("path", .str "build/out")]]
          [("svc.yaml", .yaml hookedBase)]) ∧
      applyDirectoryChecks
          [.map [("type", .str "directory_check"), ("path", .str "build/out")]]
          [("svc.yaml", .yaml hookedBase)] =
        [("svc.yaml", .yaml hookedBase), ("build", .dir), ("build/out", .dir)] :=
  ⟨(hooks_fail_fast [("svc.yaml", .yaml hookedBase)]
      [("type", .str "docker"), ("pre_deploy", .seq sampleHooks)] sampleHooks rfl).2.1
      [.map [("type", .str "directory_check"), ("path", .str "build/out")]]
      (.map [("type", .str "file_check"), ("path", .str "Dockerfile")])
      [.map [("type", .str "directory_check"), ("path", .str "logs")]]
      "Dockerfile" rfl rfl rfl rfl,
    rfl⟩

/-! ## Error messages of `Deploy` -/

theorem containsChars_infix (needle pre post : List Char) :
    containsChars needle (pre ++ (needle ++ post)) = true := by
  have hprefix : needle.isPrefixOf (needle ++ post) = true :=
    List.isPrefixOf_iff_prefix.2 (List.prefix_append needle post)
  induction pre with
  | nil =>
    cases hn : needle ++ post with
    | nil =>
      have hnil : needle = [] := (List.append_eq_nil.1 hn).1
      simp [containsChars, hnil]
    | cons c cs =>
      rw [hn] at hprefix
      simp [containsChars, hprefix]
  | cons c cs ih =>
    simp [containsChars, ih]

theorem findDeploymentConfig_error (fs : Files) (app : String) (e : GoError)
    (h : findDeploymentConfig fs app = .error e) :
    e = .other ("deployment config not found for app: " ++ app) := by
  unfold findDeploymentConfig at h
  simp only at h
  split at h
  · cases h
  · cases h; rfl

theorem LoadDeploymentConfig_error (fs : Files) (path : String) (e : ConfigError)
    (h : LoadDeploymentConfig fs path = .error e) :
    e.Message = "Configuration file not found: " ++ path ∨
      (∃ d, e.Message = "Failed to read config file: " ++ d) ∨
      (∃ d, e.Message = "Failed to parse config file: " ++ d) := by
  unfold LoadDeploymentConfig at h
  split at h
  · cases h; exact Or.inl rfl
  · cases h; exact Or.inr (Or.inl ⟨_, String.append_assoc _ _ _⟩)
  · cases h; exact Or.inr (Or.inl ⟨_, rfl⟩)
  · cases h; exact Or.inr (Or.inr ⟨_, rfl⟩)
  · cases h

theorem GetEnvironmentConfig_error (envName : String) (base : GoMap) (e : ConfigError)
    (h : GetEnvironmentConfig envName base = .error e) :
    e = errNoEnvironments ∨ e = errEnvironmentNotFound envName := by
  unfold GetEnvironmentConfig at h
  split at h
  · cases h; exact Or.inl rfl
  · split at h
    · cases h; exact Or.inr rfl
    · cases h

theorem runPreDeployHooks_error (fs : Files) (config : GoMap) (e : GoError)
    (h : (runPreDeployHooks fs config).1 = some e) :
    ∃ path, e = .other ("pre-deploy check failed: " ++ path ++ " not found") := by
  unfold runPreDeployHooks at h
  split at h
  · cases h
  · rename_i hooks _
    obtain ⟨_, _, _, path, _, _, _, _, hrun⟩ := runHooks_error hooks fs e h
    rw [hrun] at h
    exact ⟨path, (Option.some.inj h).symm⟩

/-- C26, as stated, fails: the error for an unrecognised type names neither the
app `svc` nor the environment `prod`, and the error for a missing descriptor
names the app only. -/
theorem deploy_errors_omit_app_or_env :
    ((Deploy fairWeather (worldOf unknownTypeBase []) "svc" "prod" "v1" "svc.yaml" []).1.map
        GoError.message) = some "Unsupported deployment type: not-a-backend" ∧
      containsStr "Unsupported deployment type: not-a-backend" "svc" = false ∧
      containsStr "Unsupported deployment type: not-a-backend" "prod" = false ∧
      ((Deploy fairWeather (worldOf unknownTypeBase []) "svc" "prod" "v1" "" []).1.map
        GoError.message) = some "deployment config not found for app: svc" ∧
      containsStr "deployment config not found for app: svc" "prod" = false :=
  ⟨rfl, by decide, by decide, rfl, by decide⟩

/-- The error and the world that `Deploy` returns at each of its first gates. -/
theorem deploy_gate_errors (x : Outside) (w : World)
    (app env version configPath : String) (options : List (String × String)) :
    (∀ err, (if configPath = "" then findDeploymentConfig w.files app
        else .ok configPath) = .error err →
        Deploy x w app env version configPath options = (some err, w)) ∧
      (∀ path err, (if configPath = "" then findDeploymentConfig w.files app
        else .ok configPath) = .ok path →
        LoadDeploymentConfig w.files path = .error err →
        Deploy x w app env version configPath options = (some (.config err), w)) ∧
      (∀ path base err, (if configPath = "" then findDeploymentConfig w.files app
        else .ok configPath) = .ok path →
        LoadDeploymentConfig w.files path = .ok base →
        GetEnvironmentConfig env base = .error err →
        Deploy x w app env version configPath options = (some (.config err), w)) ∧
      (∀ path base envConfig err files, (if configPath = "" then
          findDeploymentConfig w.files app else .ok configPath) = .ok path →
        LoadDeploymentConfig w.files path = .ok base →
        GetEnvironmentConfig env base = .ok envConfig →
        runPreDeployHooks w.files envConfig = (some err, files) →
        Deploy x w app env version configPath options =
          (some err, { w with files := files })) := by
  refine ⟨?_, ?_, ?_, ?_⟩
  · intro err hfind
    simp only [Deploy, hfind]
  · intro path err hfind hload
    simp only [Deploy, hfind, hload]
  · intro path base err hfind hload hres
    simp only [Deploy, hfind, hload, hres]
  · intro path base envConfig err files hfind hload hres hhooks
    simp only [Deploy, hfind, hload, hres, hhooks]

theorem containsStr_failed_message (app env : String) :
    containsStr ("Deployment failed for " ++ app ++ " in " ++ env) app = true ∧
      containsStr ("Deployment failed for " ++ app ++ " in " ++ env) env = true := by
  unfold containsStr
  simp only [String.data_append]
  constructor
  · have := containsChars_infix app.data "Deployment failed for ".data
      (" in ".data ++ env.data)
    simpa [List.append_assoc] using this
  · have := containsChars_infix env.data
      ("Deployment failed for ".data ++ app.data ++ " in ".data) []
    simpa [List.append_assoc] using this

/-- C26, amended: every error that `Deploy` returns carries one of nine
messages, one per way of failing; the one for a missing descriptor names the
app, the one for an unresolved environment names the environment, and only
the last, "Deployment failed for APP in ENV", names both. -/
theorem deploy_error_messages (x : Outside) (w : World)
    (app env version configPath : String) (options : List (String × String))
    (err : GoError) (h : (Deploy x w app env version configPath options).1 = some err) :
    err.message = "deployment config not found for app: " ++ app ∨
      (∃ p, err.message = "Configuration file not found: " ++ p) ∨
      (∃ d, err.message = "Failed to read config file: " ++ d) ∨
      (∃ d, err.message = "Failed to parse config file: " ++ d) ∨
      err.message = "No environments found in deployment config" ∨
      err.message = "Environment '" ++ env ++ "' not found in deployment config" ∨
      (∃ p, err.message = "pre-deploy check failed: " ++ p ++ " not found") ∨
      (∃ t, err.message = "Unsupported deployment type: " ++ t) ∨
      (err.message = "Deployment failed for " ++ app ++ " in " ++ env ∧
        containsStr err.message app = true ∧ containsStr err.message env = true) := by
  cases hfind : (if configPath = "" then findDeploymentConfig w.files app
      else Except.ok configPath) with
  | error e =>
    have hd := (deploy_gate_errors x w app env version configPath options).1 e hfind
    rw [hd] at h
    have he : e = err := Option.some.inj h
    subst he
    by_cases hc : configPath = ""
    · simp only [hc, if_true] at hfind
      rw [findDeploymentConfig_error _ _ _ hfind]
      exact Or.inl rfl
    · simp [hc] at hfind
  | ok path =>
    cases hload : LoadDeploymentConfig w.files path with
    | error e =>
      have hd := (deploy_gate_errors x w app env version configPath options).2.1 path e
        hfind hload
      rw [hd] at h
      have he : GoError.config e = err := Option.some.inj h
      subst he
      rcases LoadDeploymentConfig_error _ _ _ hload with h₁ | h₂ | h₃
      · exact Or.inr (Or.inl ⟨path, h₁⟩)
      · exact Or.inr (Or.inr (Or.inl h₂))
      · exact Or.inr (Or.inr (Or.inr (Or.inl h₃)))
    | ok base =>
      cases hres : GetEnvironmentConfig env base with
      | error e =>
        have hd := (deploy_gate_errors x w app env version configPath options).2.2.1 path
          base e hfind hload hres
        rw [hd] at h
        have he : GoError.config e = err := Option.some.inj h
        subst he
        rcases GetEnvironmentConfig_error _ _ _ hres with h₁ | h₂
        · subst h₁
          exact Or.inr (Or.inr (Or.inr (Or.inr (Or.inl rfl))))
        · subst h₂
          exact Or.inr (Or.inr (Or.inr (Or.inr (Or.inr (Or.inl rfl)))))
      | ok envConfig =>
        cases hhooks : runPreDeployHooks w.files envConfig with
        | mk herr files =>
          cases herr with
          | some e =>
            have hd := (deploy_gate_errors x w app env version configPath options).2.2.2
              path base envConfig e files hfind hload hres hhooks
            rw [hd] at h
            have he : e = err := Option.some.inj h
            subst he
            obtain ⟨p, hp⟩ := runPreDeployHooks_error w.files envConfig e
              (by rw [hhooks])
            subst hp
            exact Or.inr (Or.inr (Or.inr (Or.inr (Or.inr (Or.inr (Or.inl ⟨p, rfl⟩))))))
          | none =>
            have hd := Deploy_dispatch x w app env version configPath path options base
              envConfig files hfind hload hres hhooks
            rw [hd] at h
            cases hsel : selectBackend (deployTypeOf base) app env version envConfig
                options with
            | none =>
              rw [hsel] at h
              have he : GoError.deployment
                  ("Unsupported deployment type: " ++ deployTypeOf base) = err :=
                Option.some.inj h
              subst he
              exact Or.inr (Or.inr (Or.inr (Or.inr (Or.inr (Or.inr (Or.inr
                (Or.inl ⟨_, rfl⟩)))))))
            | some call =>
              rw [hsel] at h
              simp only [finishDeploy_fst] at h
              split at h
              · cases h
              · have he : GoError.deployment
                    ("Deployment failed for " ++ app ++ " in " ++ env) = err :=
                  Option.some.inj h
                subst he
                exact Or.inr (Or.inr (Or.inr (Or.inr (Or.inr (Or.inr (Or.inr (Or.inr
                  ⟨rfl, containsStr_failed_message app env⟩)))))))

/-- C26, amended, on the failed deployment of `healthBase` against a sick
endpoint. -/
theorem deploy_error_messages_witness :
    (Deploy sickEndpoint (worldOf healthBase []) "svc" "prod" "v1" "svc.yaml" []).1 =
        some (.deployment "Deployment failed for svc in prod") ∧
      containsStr "Deployment failed for svc in prod" "svc" = true ∧
      containsStr "Deployment failed for svc in prod" "prod" = true ∧
      (GoError.message (.deployment "Deployment failed for svc in prod") =
          "deployment config not found for app: " ++ "svc" ∨
        (∃ p, GoError.message (.deployment "Deployment failed for svc in prod") =
          "Configuration file not found: " ++ p) ∨
        (∃ d, GoError.message (.deployment "Deployment failed for svc in prod") =
          "Failed to read config file: " ++ d) ∨
        (∃ d, GoError.message (.deployment "Deployment failed for svc in prod") =
          "Failed to parse config file: " ++ d) ∨
        GoError.message (.deployment "Deployment failed for svc in prod") =
          "No environments found in deployment config" ∨
        GoError.message (.deployment "Deployment failed for svc in prod") =
          "Environment '" ++ "prod" ++ "' not found in deployment config" ∨
        (∃ p, GoError.message (.deployment "Deployment failed for svc in prod") =
          "pre-deploy check failed: " ++ p ++ " not found") ∨
        (∃ t, GoError.message (.deployment "Deployment failed for svc in prod") =
          "Unsupported deployment type: " ++ t) ∨
        (GoError.message (.deployment "Deployment failed for svc in prod") =
            "Deployment failed for " ++ "svc" ++ " in " ++ "prod" ∧
          containsStr (GoError.message (.deployment "Deployment failed for svc in prod"))
            "svc" = true ∧
          containsStr (GoError.message (.deployment "Deployment failed for svc in prod"))
            "prod" = true)) :=
  ⟨rfl, by decide, by decide,
    deploy_error_messages sickEndpoint (worldOf healthBase []) "svc" "prod" "v1" "svc.yaml"
      [] (.deployment "Deployment failed for svc in prod") rfl⟩

/-! ## Loading the environments -/

/-- On a `Config` made by `NewConfig`, `LoadEnvironments` returns the empty map
the constructor put there, whatever the config directory holds. -/
theorem LoadEnvironments_NewConfig (configDir : String) (fs : Files) :
    LoadEnvironments (NewConfig configDir) fs = (.ok [], NewConfig configDir) :=
  rfl

/-- C28, the code at the failing input: for a `Config` made by `NewConfig` the
call returns an empty map both without `environments.yaml` and with one that
defines `qa` and `prod`; the defaults and the file are reached only from a
`Config` whose map is nil. -/
theorem load_environments_returns_empty_map :
    (LoadEnvironments (NewConfig "config") []).1 = .ok [] ∧
      (LoadEnvironments (NewConfig "config") environmentsFiles).1 = .ok [] ∧
      (LoadEnvironments { configDir := "config", environments := none } []).1 =
        .ok defaultEnvironments ∧
      (LoadEnvironments { configDir := "config", environments := none }
          environmentsFiles).1 =
        .ok [("qa", .map []), ("prod", .map [])] :=
  ⟨rfl, rfl, rfl, rfl⟩

/-! ## Inventory comparison -/

/-- C29, the code at the failing input: a device whose `Extra` holds a list is
compared with itself, the comparison of the two lists panics, and so does
`Compare` of the inventory with itself. -/
theorem self_comparison_panics :
    GetKey taggedRouter "hostname" = "r1" ∧
      ifaceNe (.seq [.str "core", .str "edge"]) (.seq [.str "core", .str "edge"]) = none ∧
      compareDevices taggedRouter taggedRouter = none ∧
      Compare [taggedRouter] [taggedRouter] "hostname" = .panic :=
  ⟨rfl, rfl, rfl, rfl⟩

/-- C27, the code at the failing input: both inventories have non-empty,
distinct keys, the device `sw1` is in both with a nested mapping among its
extras, and `Compare` panics instead of returning a result or an error. -/
theorem compare_panics_on_shared_nested_extra :
    [GetKey (rackedSwitch 1) "hostname", GetKey (plainDevice "r2" "10.0.0.3") "hostname"] =
        ["sw1", "r2"] ∧
      [GetKey (rackedSwitch 2) "hostname", GetKey (plainDevice "r3" "10.0.0.4") "hostname"] =
        ["sw1", "r3"] ∧
      Compare [rackedSwitch 1, plainDevice "r2" "10.0.0.3"]
          [rackedSwitch 2, plainDevice "r3" "10.0.0.4"] "" = .panic :=
  ⟨rfl, rfl, rfl⟩

theorem DeviceMap.get_append_single (m : DeviceMap) (k k' : String) (d : Device) :
    DeviceMap.get (m ++ [(k, d)]) k' =
      match DeviceMap.get m k' with
      | some x => some x
      | none => if k = k' then some d else none := by
  induction m with
  | nil => simp [DeviceMap.get]
  | cons e rest ih =>
    obtain ⟨k₁, d₁⟩ := e
    by_cases h : k₁ = k'
    · simp [DeviceMap.get, h]
    · simp [DeviceMap.get, h, ih]

theorem DeviceMap.get_deviceMapOf_eq_none (keyField : String) (devices : List Device)
    (k : String) :
    DeviceMap.get (deviceMapOf keyField devices) k = none ↔
      k ∉ devices.map (fun d => GetKey d keyField) := by
  induction devices with
  | nil => simp [deviceMapOf, DeviceMap.get]
  | cons d rest ih =>
    have hcons : deviceMapOf keyField (d :: rest) =
        (GetKey d keyField, d) :: deviceMapOf keyField rest := rfl
    rw [hcons]
    by_cases h : GetKey d keyField = k
    · simp [DeviceMap.get, h]
    · simp only [DeviceMap.get, h, if_false]
      rw [ih]
      simp [Ne.symm h]

theorem buildExpected_ok (keyField : String) (devices : List Device) (m : DeviceMap)
    (hkey : ∀ d ∈ devices, GetKey d keyField ≠ "")
    (hnodup : (devices.map (fun d => GetKey d keyField)).Nodup)
    (hfresh : ∀ d ∈ devices, DeviceMap.get m (GetKey d keyField) = none) :
    buildExpected keyField devices m = .ok (m ++ deviceMapOf keyField devices) := by
  induction devices generalizing m with
  | nil => simp [buildExpected, deviceMapOf]
  | cons d rest ih =>
    have hd := hkey d (List.mem_cons_self _ _)
    have hf := hfresh d (List.mem_cons_self _ _)
    have hnd : GetKey d keyField ∉ rest.map (fun d => GetKey d keyField) ∧
        (rest.map (fun d => GetKey d keyField)).Nodup := by
      simpa using hnodup
    have hstep : buildExpected keyField (d :: rest) m =
        buildExpected keyField rest (m ++ [(GetKey d keyField, d)]) := by
      simp [buildExpected, hd, hf]
    rw [hstep, ih _ (fun d' hd' => hkey d' (List.mem_cons_of_mem _ hd')) hnd.2]
    · simp [deviceMapOf]
    · intro d' hd'
      rw [DeviceMap.get_append_single, hfresh d' (List.mem_cons_of_mem _ hd')]
      have hne : GetKey d keyField ≠ GetKey d' keyField := by
        intro heq
        exact hnd.1 (heq ▸ List.mem_map_of_mem _ hd')
      simp [hne]

theorem buildActual_ok (keyField : String) (expectedMap : DeviceMap)
    (devices : List Device) (m : DeviceMap) (extra : List Device)
    (hkey : ∀ d ∈ devices, GetKey d keyField ≠ "")
    (hnodup : (devices.map (fun d => GetKey d keyField)).Nodup)
    (hfresh : ∀ d ∈ devices, DeviceMap.get m (GetKey d keyField) = none) :
    buildActual keyField expectedMap devices m extra =
      .ok (m ++ deviceMapOf keyField devices,
        extra ++ devices.filter
          (fun d => (DeviceMap.get expectedMap (GetKey d keyField)).isNone)) := by
  induction devices generalizing m extra with
  | nil => simp [buildActual, deviceMapOf]
  | cons d rest ih =>
    have hd := hkey d (List.mem_cons_self _ _)
    have hf := hfresh d (List.mem_cons_self _ _)
    have hnd : GetKey d keyField ∉ rest.map (fun d => GetKey d keyField) ∧
        (rest.map (fun d => GetKey d keyField)).Nodup := by
      simpa using hnodup
    have hfresh' : ∀ d' ∈ rest,
        DeviceMap.get (m ++ [(GetKey d keyField, d)]) (GetKey d' keyField) = none := by
      intro d' hd'
      rw [DeviceMap.get_append_single, hfresh d' (List.mem_cons_of_mem _ hd')]
      have hne : GetKey d keyField ≠ GetKey d' keyField := by
        intro heq
        exact hnd.1 (heq ▸ List.mem_map_of_mem _ hd')
      simp [hne]
    cases he : DeviceMap.get expectedMap (GetKey d keyField) with
    | none =>
      have hstep : buildActual keyField expectedMap (d :: rest) m extra =
          buildActual keyField expectedMap rest (m ++ [(GetKey d keyField, d)])
            (extra ++ [d]) := by
        simp [buildActual, hd, hf, he]
      rw [hstep, ih _ _ (fun d' hd' => hkey d' (List.mem_cons_of_mem _ hd')) hnd.2 hfresh']
      simp [deviceMapOf, List.filter_cons, he]
    | some e =>
      have hstep : buildActual keyField expectedMap (d :: rest) m extra =
          buildActual keyField expectedMap rest (m ++ [(GetKey d keyField, d)]) extra := by
        simp [buildActual, hd, hf, he]
      rw [hstep, ih _ _ (fun d' hd' => hkey d' (List.mem_cons_of_mem _ hd')) hnd.2 hfresh']
      simp [deviceMapOf, List.filter_cons, he]

theorem checkExpected_ok (actualMap : DeviceMap) (entries : List (String × Device))
    (missing : List Device) (mismatched : List Mismatch)
    (hsafe : ∀ entry ∈ entries, ∀ a, DeviceMap.get actualMap entry.1 = some a →
      compareDevices entry.2 a ≠ none) :
    checkExpected actualMap entries missing mismatched =
      some (missing ++ entries.filterMap (missingOf actualMap),
        mismatched ++ entries.filterMap (mismatchOf actualMap)) := by
  induction entries generalizing missing mismatched with
  | nil => simp [checkExpected]
  | cons entry rest ih =>
    obtain ⟨key, e⟩ := entry
    have hrest : ∀ entry ∈ rest, ∀ a, DeviceMap.get actualMap entry.1 = some a →
        compareDevices entry.2 a ≠ none :=
      fun entry h => hsafe entry (List.mem_cons_of_mem _ h)
    cases ha : DeviceMap.get actualMap key with
    | none =>
      simp only [checkExpected, ha]
      rw [ih _ _ hrest]
      simp [List.filterMap_cons, missingOf, mismatchOf, ha]
    | some a =>
      cases hc : compareDevices e a with
      | none => exact absurd hc (hsafe (key, e) (List.mem_cons_self _ _) a ha)
      | some differences =>
        by_cases hl : differences.length > 0
        · simp only [checkExpected, ha, hc, hl, if_true]
          rw [ih _ _ hrest]
          simp [List.filterMap_cons, missingOf, mismatchOf, ha, hc, hl]
        · simp only [checkExpected, ha, hc, hl, if_false]
          rw [ih _ _ hrest]
          simp [List.filterMap_cons, missingOf, mismatchOf, ha, hc, hl]

/-- Where no comparison of two devices of one key panics, `Compare` on two
inventories with non-empty, distinct keys returns a result: the extra devices
are the actual ones whose key no expected device has, the missing devices the
expected ones whose key no actual device has, and the mismatches those of the
expected devices whose counterpart differs. -/
theorem Compare_ok (expected actual : List Device) (keyField : String)
    (hek : ∀ d ∈ expected, GetKey d (effectiveKeyField keyField) ≠ "")
    (hen : (expected.map (fun d => GetKey d (effectiveKeyField keyField))).Nodup)
    (hak : ∀ d ∈ actual, GetKey d (effectiveKeyField keyField) ≠ "")
    (han : (actual.map (fun d => GetKey d (effectiveKeyField keyField))).Nodup)
    (hsafe : ∀ e ∈ expected, ∀ a,
      DeviceMap.get (deviceMapOf (effectiveKeyField keyField) actual)
        (GetKey e (effectiveKeyField keyField)) = some a →
      compareDevices e a ≠ none) :
    Compare expected actual keyField =
      .ok { Missing := (deviceMapOf (effectiveKeyField keyField) expected).filterMap
              (missingOf (deviceMapOf (effectiveKeyField keyField) actual))
            Extra := actual.filter (fun d =>
              (DeviceMap.get (deviceMapOf (effectiveKeyField keyField) expected)
                (GetKey d (effectiveKeyField keyField))).isNone)
            Mismatched := (deviceMapOf (effectiveKeyField keyField) expected).filterMap
              (mismatchOf (deviceMapOf (effectiveKeyField keyField) actual)) } := by
  have h₁ := buildExpected_ok (effectiveKeyField keyField) expected [] hek hen
    (fun _ _ => rfl)
  have h₂ := buildActual_ok (effectiveKeyField keyField)
    (deviceMapOf (effectiveKeyField keyField) expected) actual [] [] hak han
    (fun _ _ => rfl)
  have h₃ := checkExpected_ok (deviceMapOf (effectiveKeyField keyField) actual)
    (deviceMapOf (effectiveKeyField keyField) expected) [] []
    (by
      intro entry hentry a ha
      obtain ⟨e, he, rfl⟩ := List.mem_map.1 hentry
      exact hsafe e he a ha)
  simp only [List.nil_append] at h₁ h₂ h₃
  unfold Compare
  simp only [effectiveKeyField] at h₁ h₂ h₃ ⊢
  rw [h₁]
  simp only [h₂, h₃]

theorem DeviceMap.get_deviceMapOf_some (keyField : String) (devices : List Device)
    (k : String) (a : Device)
    (h : DeviceMap.get (deviceMapOf keyField devices) k = some a) :
    a ∈ devices ∧ GetKey a keyField = k := by
  induction devices with
  | nil => simp [deviceMapOf, DeviceMap.get] at h
  | cons d rest ih =>
    have hcons : deviceMapOf keyField (d :: rest) =
        (GetKey d keyField, d) :: deviceMapOf keyField rest := rfl
    rw [hcons] at h
    by_cases hk : GetKey d keyField = k
    · simp only [DeviceMap.get, hk, if_true] at h
      have : d = a := Option.some.inj h
      subst this
      exact ⟨List.mem_cons_self _ _, hk⟩
    · simp only [DeviceMap.get, hk, if_false] at h
      exact ⟨List.mem_cons_of_mem _ (ih h).1, (ih h).2⟩

theorem DeviceMap.get_deviceMapOf_mem (keyField : String) (devices : List Device)
    (a : Device) (hnodup : (devices.map (fun d => GetKey d keyField)).Nodup)
    (ha : a ∈ devices) :
    DeviceMap.get (deviceMapOf keyField devices) (GetKey a keyField) = some a := by
  induction devices with
  | nil => cases ha
  | cons d rest ih =>
    have hcons : deviceMapOf keyField (d :: rest) =
        (GetKey d keyField, d) :: deviceMapOf keyField rest := rfl
    have hnd : GetKey d keyField ∉ rest.map (fun d => GetKey d keyField) ∧
        (rest.map (fun d => GetKey d keyField)).Nodup := by
      simpa using hnodup
    rw [hcons]
    rcases List.mem_cons.1 ha with rfl | hrest
    · simp [DeviceMap.get]
    · have hne : GetKey d keyField ≠ GetKey a keyField := by
        intro heq
        exact hnd.1 (heq ▸ List.mem_map_of_mem _ hrest)
      simp only [DeviceMap.get, hne, if_false]
      exact ih hnd.2 hrest

theorem HasDrift_iff (dr : DriftResult) :
    HasDrift dr = true ↔ dr.Missing ≠ [] ∨ dr.Extra ≠ [] ∨ dr.Mismatched ≠ [] := by
  simp only [HasDrift, Bool.or_eq_true, decide_eq_true_eq, gt_iff_lt, List.length_pos]
  tauto

/-- Where no comparison of two devices of one key panics, the three lists that
`Compare` returns on inventories with non-empty, distinct keys are these:
`Missing` holds exactly the expected devices whose key no actual device has,
`Extra` exactly the actual devices whose key no expected device has,
`Mismatched` exactly the pairs of one key whose difference map is not empty;
and `HasDrift` says whether one of the lists is non-empty. -/
theorem Compare_ok_members (expected actual : List Device) (keyField : String)
    (hek : ∀ d ∈ expected, GetKey d (effectiveKeyField keyField) ≠ "")
    (hen : (expected.map (fun d => GetKey d (effectiveKeyField keyField))).Nodup)
    (hak : ∀ d ∈ actual, GetKey d (effectiveKeyField keyField) ≠ "")
    (han : (actual.map (fun d => GetKey d (effectiveKeyField keyField))).Nodup)
    (hsafe : ∀ e ∈ expected, ∀ a,
      DeviceMap.get (deviceMapOf (effectiveKeyField keyField) actual)
        (GetKey e (effectiveKeyField keyField)) = some a →
      compareDevices e a ≠ none) :
    ∃ r, Compare expected actual keyField = .ok r ∧
      (∀ d, d ∈ r.Missing ↔ d ∈ expected ∧
        GetKey d (effectiveKeyField keyField) ∉
          actual.map (fun a => GetKey a (effectiveKeyField keyField))) ∧
      (∀ d, d ∈ r.Extra ↔ d ∈ actual ∧
        GetKey d (effectiveKeyField keyField) ∉
          expected.map (fun e => GetKey e (effectiveKeyField keyField))) ∧
      (∀ m, m ∈ r.Mismatched ↔ ∃ e a differences, e ∈ expected ∧ a ∈ actual ∧
        GetKey e (effectiveKeyField keyField) = GetKey a (effectiveKeyField keyField) ∧
        compareDevices e a = some differences ∧ differences.length > 0 ∧
        m = ⟨e, e, a, differences⟩) ∧
      (HasDrift r = true ↔ r.Missing ≠ [] ∨ r.Extra ≠ [] ∨ r.Mismatched ≠ []) := by
  refine ⟨_, Compare_ok expected actual keyField hek hen hak han hsafe, ?_, ?_, ?_,
    HasDrift_iff _⟩
  · intro d
    simp only [List.mem_filterMap]
    constructor
    · rintro ⟨entry, hentry, hm⟩
      obtain ⟨e, he, rfl⟩ := List.mem_map.1 hentry
      simp only [missingOf] at hm
      cases hg : DeviceMap.get (deviceMapOf (effectiveKeyField keyField) actual)
          (GetKey e (effectiveKeyField keyField)) with
      | none =>
        rw [hg] at hm
        have : e = d := Option.some.inj hm
        subst this
        exact ⟨he, (DeviceMap.get_deviceMapOf_eq_none _ _ _).1 hg⟩
      | some a => rw [hg] at hm; cases hm
    · rintro ⟨hd, hnot⟩
      refine ⟨(GetKey d (effectiveKeyField keyField), d),
        List.mem_map.2 ⟨d, hd, rfl⟩, ?_⟩
      simp only [missingOf, (DeviceMap.get_deviceMapOf_eq_none _ _ _).2 hnot]
  · intro d
    simp only [List.mem_filter, Option.isNone_iff_eq_none,
      DeviceMap.get_deviceMapOf_eq_none]
  · intro m
    simp only [List.mem_filterMap]
    constructor
    · rintro ⟨entry, hentry, hm⟩
      obtain ⟨e, he, rfl⟩ := List.mem_map.1 hentry
      simp only [mismatchOf] at hm
      cases hg : DeviceMap.get (deviceMapOf (effectiveKeyField keyField) actual)
          (GetKey e (effectiveKeyField keyField)) with
      | none => rw [hg] at hm; cases hm
      | some a =>
        rw [hg] at hm
        simp only at hm
        have hmem := DeviceMap.get_deviceMapOf_some _ _ _ _ hg
        cases hc : compareDevices e a with
        | none => rw [hc] at hm; cases hm
        | some differences =>
          rw [hc] at hm
          simp only at hm
          by_cases hl : differences.length > 0
          · simp only [hl, if_true] at hm
            exact ⟨e, a, differences, he, hmem.1, hmem.2.symm, hc, hl,
              (Option.some.inj hm).symm⟩
          · simp only [hl, if_false] at hm
            cases hm
    · rintro ⟨e, a, differences, he, ha, hkey, hc, hl, rfl⟩
      refine ⟨(GetKey e (effectiveKeyField keyField), e),
        List.mem_map.2 ⟨e, he, rfl⟩, ?_⟩
      have hg : DeviceMap.get (deviceMapOf (effectiveKeyField keyField) actual)
          (GetKey e (effectiveKeyField keyField)) = some a := by
        rw [hkey]
        exact DeviceMap.get_deviceMapOf_mem _ _ _ han ha
      simp only [mismatchOf, hg, hc, hl, if_true]

theorem buildExpected_ok_iff (keyField : String) (devices : List Device) (m : DeviceMap) :
    (∃ r, buildExpected keyField devices m = .ok r) ↔
      keysValid keyField devices ∧
        ∀ d ∈ devices, DeviceMap.get m (GetKey d keyField) = none := by
  constructor
  · induction devices generalizing m with
    | nil => intro _; exact ⟨⟨fun _ h => (nomatch h), List.nodup_nil⟩, fun _ h => (nomatch h)⟩
    | cons d rest ih =>
      rintro ⟨r, hr⟩
      by_cases hd : GetKey d keyField = ""
      · simp [buildExpected, hd] at hr
      · cases hf : DeviceMap.get m (GetKey d keyField) with
        | some x => simp [buildExpected, hd, hf] at hr
        | none =>
          have hstep : buildExpected keyField (d :: rest) m =
              buildExpected keyField rest (m ++ [(GetKey d keyField, d)]) := by
            simp [buildExpected, hd, hf]
          rw [hstep] at hr
          obtain ⟨⟨hkey, hnodup⟩, hfresh⟩ := ih _ ⟨r, hr⟩
          have hsplit : ∀ d' ∈ rest, DeviceMap.get m (GetKey d' keyField) = none ∧
              GetKey d keyField ≠ GetKey d' keyField := by
            intro d' hd'
            have h := hfresh d' hd'
            rw [DeviceMap.get_append_single] at h
            cases hm : DeviceMap.get m (GetKey d' keyField) with
            | some x => rw [hm] at h; cases h
            | none =>
              rw [hm] at h
              refine ⟨rfl, fun heq => ?_⟩
              simp [heq] at h
          refine ⟨⟨?_, ?_⟩, ?_⟩
          · intro d' hd'
            rcases List.mem_cons.1 hd' with rfl | h
            · exact hd
            · exact hkey d' h
          · rw [List.map_cons, List.nodup_cons]
            refine ⟨fun hmem => ?_, hnodup⟩
            obtain ⟨d', hd', heq⟩ := List.mem_map.1 hmem
            exact (hsplit d' hd').2 heq.symm
          · intro d' hd'
            rcases List.mem_cons.1 hd' with rfl | h
            · exact hf
            · exact (hsplit d' h).1
  · rintro ⟨⟨hkey, hnodup⟩, hfresh⟩
    exact ⟨_, buildExpected_ok keyField devices m hkey hnodup hfresh⟩

theorem buildActual_ok_iff (keyField : String) (expectedMap : DeviceMap)
    (devices : List Device) (m : DeviceMap) (extra : List Device) :
    (∃ r, buildActual keyField expectedMap devices m extra = .ok r) ↔
      keysValid keyField devices ∧
        ∀ d ∈ devices, DeviceMap.get m (GetKey d keyField) = none := by
  constructor
  · induction devices generalizing m extra with
    | nil => intro _; exact ⟨⟨fun _ h => (nomatch h), List.nodup_nil⟩, fun _ h => (nomatch h)⟩
    | cons d rest ih =>
      rintro ⟨r, hr⟩
      by_cases hd : GetKey d keyField = ""
      · simp [buildActual, hd] at hr
      · cases hf : DeviceMap.get m (GetKey d keyField) with
        | some x => simp [buildActual, hd, hf] at hr
        | none =>
          have hstep : ∃ extra', buildActual keyField expectedMap (d :: rest) m extra =
              buildActual keyField expectedMap rest (m ++ [(GetKey d keyField, d)])
                extra' := by
            refine ⟨(match DeviceMap.get expectedMap (GetKey d keyField) with
              | none => extra ++ [d]
              | some _ => extra), ?_⟩
            simp only [buildActual, hd, hf, if_false]
          obtain ⟨extra', hstep⟩ := hstep
          rw [hstep] at hr
          obtain ⟨⟨hkey, hnodup⟩, hfresh⟩ := ih _ _ ⟨r, hr⟩
          have hsplit : ∀ d' ∈ rest, DeviceMap.get m (GetKey d' keyField) = none ∧
              GetKey d keyField ≠ GetKey d' keyField := by
            intro d' hd'
            have h := hfresh d' hd'
            rw [DeviceMap.get_append_single] at h
            cases hm : DeviceMap.get m (GetKey d' keyField) with
            | some x => rw [hm] at h; cases h
            | none =>
              rw [hm] at h
              refine ⟨rfl, fun heq => ?_⟩
              simp [heq] at h
          refine ⟨⟨?_, ?_⟩, ?_⟩
          · intro d' hd'
            rcases List.mem_cons.1 hd' with rfl | h
            · exact hd
            · exact hkey d' h
          · rw [List.map_cons, List.nodup_cons]
            refine ⟨fun hmem => ?_, hnodup⟩
            obtain ⟨d', hd', heq⟩ := List.mem_map.1 hmem
            exact (hsplit d' hd').2 heq.symm
          · intro d' hd'
            rcases List.mem_cons.1 hd' with rfl | h
            · exact hf
            · exact (hsplit d' h).1
  · rintro ⟨⟨hkey, hnodup⟩, hfresh⟩
    exact ⟨_, buildActual_ok keyField expectedMap devices m extra hkey hnodup hfresh⟩

/-- The call `Compare` returns an error exactly when, in one of the two
inventories, some device has an empty key or two devices share a key. -/
theorem Compare_error_iff (expected actual : List Device) (keyField : String) :
    (∃ e, Compare expected actual keyField = .error e) ↔
      ¬ keysValid (effectiveKeyField keyField) expected ∨
        ¬ keysValid (effectiveKeyField keyField) actual := by
  have hE := buildExpected_ok_iff (effectiveKeyField keyField) expected []
  unfold Compare
  simp only [effectiveKeyField] at hE ⊢
  cases h₁ : buildExpected (if keyField = "" then "hostname" else keyField) expected [] with
  | error e =>
    refine ⟨fun _ => Or.inl ?_, fun _ => ⟨e, rfl⟩⟩
    intro hv
    obtain ⟨r, hr⟩ := hE.2 ⟨hv, fun _ _ => rfl⟩
    rw [h₁] at hr
    cases hr
  | ok expectedMap =>
    have hvE : keysValid (if keyField = "" then "hostname" else keyField) expected :=
      (hE.1 ⟨_, h₁⟩).1
    have hA := buildActual_ok_iff (if keyField = "" then "hostname" else keyField)
      expectedMap actual [] []
    show (∃ e, (match buildActual (if keyField = "" then "hostname" else keyField)
        expectedMap actual [] [] with
      | Except.error e => CompareOutcome.error e
      | Except.ok (actualMap, extra) =>
        match checkExpected actualMap expectedMap [] [] with
        | none => CompareOutcome.panic
        | some (missing, mismatched) =>
          CompareOutcome.ok { Missing := missing, Extra := extra, Mismatched := mismatched }) =
        CompareOutcome.error e) ↔ _
    cases h₂ : buildActual (if keyField = "" then "hostname" else keyField) expectedMap
        actual [] [] with
    | error e =>
      refine ⟨fun _ => Or.inr ?_, fun _ => ⟨e, rfl⟩⟩
      intro hv
      obtain ⟨r, hr⟩ := hA.2 ⟨hv, fun _ _ => rfl⟩
      rw [h₂] at hr
      cases hr
    | ok pair =>
      have hvA : keysValid (if keyField = "" then "hostname" else keyField) actual :=
        (hA.1 ⟨_, h₂⟩).1
      obtain ⟨actualMap, extra⟩ := pair
      constructor
      · rintro ⟨e, he⟩
        cases h₃ : checkExpected actualMap expectedMap [] [] with
        | none => simp only [h₃] at he; cases he
        | some res =>
          obtain ⟨missing, mismatched⟩ := res
          simp only [h₃] at he
          cases he
      · rintro (h | h)
        · exact absurd hvE h
        · exact absurd hvA h

theorem GoMap.get_of_mem (m : GoMap) (k : String) (v : Value) (h : GoMap.WF m)
    (hm : (k, v) ∈ m) : GoMap.get m k = some v := by
  induction m with
  | nil => cases hm
  | cons hd tl ih =>
    obtain ⟨k₁, v₁⟩ := hd
    have hk : GoMap.keys ((k₁, v₁) :: tl) = k₁ :: GoMap.keys tl := rfl
    have hwf : k₁ ∉ GoMap.keys tl ∧ GoMap.WF tl := by
      unfold GoMap.WF at h ⊢
      rw [hk] at h
      exact List.nodup_cons.1 h
    rcases List.mem_cons.1 hm with heq | hmem
    · cases heq
      simp [GoMap.get]
    · have hne : k₁ ≠ k := by
        rintro rfl
        exact hwf.1 (List.mem_map.2 ⟨(k₁, v), hmem, rfl⟩)
      simp only [GoMap.get, hne, if_false]
      exact ih hwf.2 hmem

theorem ifaceNe_self (v : Value) (h : Value.isScalar v = true) :
    ifaceNe v v = some false := by
  cases v <;> simp [Value.isScalar, ifaceNe] at h ⊢

theorem compareExpectedExtras_same (actual : GoMap) (entries : List (String × Value))
    (differences : Differences)
    (h : ∀ kv ∈ entries, GoMap.get actual kv.1 = some kv.2 ∧
      ifaceNe kv.2 kv.2 = some false) :
    compareExpectedExtras actual entries differences = some differences := by
  induction entries with
  | nil => rfl
  | cons hd tl ih =>
    obtain ⟨k, v⟩ := hd
    have h₁ := h (k, v) (List.mem_cons_self _ _)
    simp only [compareExpectedExtras, h₁.1, h₁.2]
    exact ih (fun kv hkv => h kv (List.mem_cons_of_mem _ hkv))

theorem compareActualExtras_same (expected : GoMap) (entries : List (String × Value))
    (differences : Differences)
    (h : ∀ kv ∈ entries, ∃ v, GoMap.get expected kv.1 = some v) :
    compareActualExtras (some expected) entries differences = differences := by
  induction entries with
  | nil => rfl
  | cons hd tl ih =>
    obtain ⟨k, v⟩ := hd
    obtain ⟨v', hv'⟩ := h (k, v) (List.mem_cons_self _ _)
    simp only [compareActualExtras, hv']
    exact ih (fun kv hkv => h kv (List.mem_cons_of_mem _ hkv))

theorem compareFields_self (d : Device) : compareFields d d = [] := by
  simp [compareFields]

/-- A device whose extra fields are absent, or all scalars, compares to itself
without a difference. -/
theorem compareDevices_self (d : Device) (h : scalarExtras d) :
    compareDevices d d = some [] := by
  unfold compareDevices
  rw [compareFields_self]
  unfold scalarExtras at h
  cases hE : d.Extra with
  | none => rfl
  | some extra =>
    rw [hE] at h
    have hget : ∀ kv ∈ extra, GoMap.get extra kv.1 = some kv.2 :=
      fun kv hkv => GoMap.get_of_mem extra kv.1 kv.2 h.1 hkv
    have h₁ : compareExpectedExtras extra extra [] = some [] :=
      compareExpectedExtras_same extra extra []
        (fun kv hkv => ⟨hget kv hkv, ifaceNe_self kv.2 (h.2 kv hkv)⟩)
    have h₂ : compareActualExtras (some extra) extra [] = [] :=
      compareActualExtras_same extra extra [] (fun kv hkv => ⟨kv.2, hget kv hkv⟩)
    simp only [compareExtraFields, Option.getD_some, h₁, h₂]

/-- An inventory with non-empty, distinct keys whose devices carry only scalar
extra fields shows no drift against itself. -/
theorem Compare_self (inventory : List Device) (keyField : String)
    (hvalid : keysValid (effectiveKeyField keyField) inventory)
    (hscalar : ∀ d ∈ inventory, scalarExtras d) :
    Compare inventory inventory keyField = .ok ⟨[], [], []⟩ := by
  have hsame : ∀ e ∈ inventory, ∀ a,
      DeviceMap.get (deviceMapOf (effectiveKeyField keyField) inventory)
        (GetKey e (effectiveKeyField keyField)) = some a → a = e := by
    intro e he a ha
    rw [DeviceMap.get_deviceMapOf_mem _ _ e hvalid.2 he] at ha
    exact (Option.some.inj ha).symm
  have hsafe : ∀ e ∈ inventory, ∀ a,
      DeviceMap.get (deviceMapOf (effectiveKeyField keyField) inventory)
        (GetKey e (effectiveKeyField keyField)) = some a →
      compareDevices e a ≠ none := by
    intro e he a ha
    rw [hsame e he a ha, compareDevices_self e (hscalar e he)]
    exact fun h => nomatch h
  obtain ⟨r, hr, hmissing, hextra, hmismatched, _⟩ :=
    Compare_ok_members inventory inventory keyField hvalid.1 hvalid.2 hvalid.1 hvalid.2
      hsafe
  have h₁ : r.Missing = [] := by
    refine List.eq_nil_iff_forall_not_mem.2 (fun d hd => ?_)
    obtain ⟨hin, hnot⟩ := (hmissing d).1 hd
    exact hnot (List.mem_map.2 ⟨d, hin, rfl⟩)
  have h₂ : r.Extra = [] := by
    refine List.eq_nil_iff_forall_not_mem.2 (fun d hd => ?_)
    obtain ⟨hin, hnot⟩ := (hextra d).1 hd
    exact hnot (List.mem_map.2 ⟨d, hin, rfl⟩)
  have h₃ : r.Mismatched = [] := by
    refine List.eq_nil_iff_forall_not_mem.2 (fun m hm => ?_)
    obtain ⟨e, a, differences, he, ha, hkey, hcmp, hlen, _⟩ := (hmismatched m).1 hm
    have hea : e = a := List.inj_on_of_nodup_map hvalid.2 he ha hkey
    subst hea
    rw [compareDevices_self e (hscalar e he)] at hcmp
    have : differences = [] := (Option.some.inj hcmp).symm
    subst this
    exact absurd hlen (by decide)
  rw [hr]
  obtain ⟨missing, extra, mismatched⟩ := r
  simp only at h₁ h₂ h₃
  rw [h₁, h₂, h₃]

end Orchestrator
